import Mathlib

/-!
# Andersen points-to analysis (llvm-slicer, `AndersenInit`): query API, constraint store
and constraint generation

Shallow embedding of

* `src/include/llvm/Analysis/Andersen/Andersen.h` (`pointsTo`, `addConstraint`),
* `src/lib/Analysis/Andersen/IntraDFAInit.cpp` (`getPointsToSet`, `runOnModule`,
  `collectConstraints`, `addGlobalInitializerConstraints`, `setType`,
  `addArgumentConstraintForCall`, `addConstraintsForConstIntToPtr`, `findAliases`, and the
  cases `Alloca`, `Call`, `Load`, `Store`, `GetElementPtr`, `PHI` and `BitCast` of
  `collectConstraintsForInstruction`).

Pointers to `llvm::Value` are modelled by their identity (a natural number), a
null `llvm::Value *` by `none`.  Node indices are natural numbers.  The headers
`NodeFactory.h`, `Constraint.h` and `PtsSet.h` are not part of the sources at
hand: the node factory is a record of its lookup results, node creation is a
parameter, a points-to set is the sequence its iterator produces, and the ordering
`operator<` of constraints is a parameter of the sort.  The Mach-O binary, the stack
access analysis and the LLVM context are records of the answers they give.  The solver
`solveConstraints` is not part of the sources either and is modelled from the spec.
-/

namespace AndersenInit

/-- Identity of an `llvm::Value` (the address a `const llvm::Value *` holds). -/
abbrev Value := Nat

/-- Index of a node in the node factory (`NodeIndex`). -/
abbrev NodeIndex := Nat

/-- The four constraint kinds, `AndersConstraint::ConstraintType`. -/
inductive ConstraintType where
  | ADDR_OF
  | COPY
  | LOAD
  | STORE
  deriving DecidableEq, Repr

/-- One constraint `(type, dest, src)`, as built by `constraints.emplace_back(Ty, D, S)`. -/
structure AndersConstraint where
  type : ConstraintType
  dest : NodeIndex
  src : NodeIndex
  deriving DecidableEq, Repr

/-- A points-to set, given by the sequence of node indices its iterator yields. -/
abbrev AndersPtsSet := List NodeIndex

/-- The lookups of `AndersNodeFactory` that the embedded code calls.  Every field is the
result of the member function of the same name; `InvalidIndex` is the sentinel
`AndersNodeFactory::InvalidIndex`, and `getValueForNode n = none` stands for a null
`llvm::Value *`. -/
structure AndersNodeFactory where
  InvalidIndex : NodeIndex
  getUniversalPtrNode : NodeIndex
  getUniversalObjNode : NodeIndex
  getNullPtrNode : NodeIndex
  getNullObjectNode : NodeIndex
  getValueNodeFor : Value → NodeIndex
  getObjectNodeFor : Value → NodeIndex
  getMergeTarget : NodeIndex → NodeIndex
  getValueForNode : NodeIndex → Option Value
  getObjectNodeForConstant : Value → NodeIndex

/-- The members of the analysis object that the embedded functions read or write:
`nodeFactory`, the constraint vector `constraints` and the map `ptsGraph`
(an association list, searched from the front as `std::map::find` searches by key), the
map `ObjectTypes` from abstract locations to sets of type names, the map `ivarMap` from
addresses to values, the set `handledAliases`, and the call graph `CallGraph`.  The class
`SimpleCallGraph` is not among the sources: the call graph is kept as the calls
`addCallEdge(Inst, name)` made on it so far, in their order, and what `containtsEdge`
answers for such a call graph is a parameter of the functions that ask. -/
structure Andersen where
  nodeFactory : AndersNodeFactory
  constraints : List AndersConstraint
  ptsGraph : List (NodeIndex × AndersPtsSet)
  ObjectTypes : List (Value × List String) := []
  ivarMap : List (Nat × Value) := []
  handledAliases : List Value := []
  CallGraph : List (Value × String) := []

/-- Outcome of a call of `getPointsToSet`: the returned flag, the contents of the
reference argument `ptsSet` after the call, and the analysis object after the call. -/
structure PtsQuery where
  ret : Bool
  ptsSet : List Value
  self : Andersen

/-- Body of the range-for of `getPointsToSet` (lines 63-70) for one member `n` of the
points-to set: the null object is skipped, and a member with a non-null value has that
value pushed to the back of `ptsSet`. -/
def getPointsToSetStep (nf : AndersNodeFactory) (ptsSet : List Value) (n : NodeIndex) :
    List Value :=
  if n = nf.getNullObjectNode then ptsSet
  else
    match nf.getValueForNode n with
    | some val => ptsSet ++ [val]
    | none => ptsSet

/-- Embedding of `AndersenInit::getPointsToSet(v, ptsSet)`, IntraDFAInit.cpp lines 42-72:
the value node of `v` is looked up, the object node if there is none; an invalid index or
the universal pointer node gives `false` with `ptsSet` untouched; otherwise `ptsSet` is
cleared, the merge target is searched in `ptsGraph`, and the values of the members found
are pushed back. -/
def getPointsToSet (self : Andersen) (v : Value) (ptsSet : List Value) : PtsQuery :=
  let nf := self.nodeFactory
  let ptrIndex := nf.getValueNodeFor v
  let ptrIndex := if ptrIndex = nf.InvalidIndex then nf.getObjectNodeFor v else ptrIndex
  if ptrIndex = nf.InvalidIndex ∨ ptrIndex = nf.getUniversalPtrNode then
    ⟨false, ptsSet, self⟩
  else
    let ptrTgt := nf.getMergeTarget ptrIndex
    let ptsSet : List Value := []
    match self.ptsGraph.lookup ptrTgt with
    | none => ⟨true, ptsSet, self⟩
    | some s => ⟨true, s.foldl (getPointsToSetStep nf) ptsSet, self⟩

/-- The search loop of `pointsTo` (Andersen.h lines 231-235): `true` at the first
element equal to `loc`, `false` when the vector is exhausted. -/
def pointsToLoop (loc : Value) : List Value → Bool
  | [] => false
  | p :: ps => if p = loc then true else pointsToLoop loc ps

/-- Embedding of `Andersen::pointsTo(v, loc)`, Andersen.h lines 228-236: the returned flag
and the analysis object after the call.  The flag returned by `getPointsToSet` is not
used. -/
def pointsTo (self : Andersen) (v loc : Value) : Bool × Andersen :=
  let PtsTo : List Value := []
  let q := getPointsToSet self v PtsTo
  (pointsToLoop loc q.ptsSet, q.self)

/-- Embedding of `Andersen::addConstraint(Ty, D, S)`, Andersen.h lines 238-242:
`emplace_back` on the constraint vector (the lock has no effect on a single thread of
control). -/
def addConstraint (self : Andersen) (Ty : ConstraintType) (D S : NodeIndex) : Andersen :=
  { self with constraints := self.constraints ++ [⟨Ty, D, S⟩] }

/-- The node `getPointsToSet` looks up for `v`: its value node if it has one, otherwise
its object node. -/
def lookedUpNode (nf : AndersNodeFactory) (v : Value) : NodeIndex :=
  if nf.getValueNodeFor v = nf.InvalidIndex then nf.getObjectNodeFor v
  else nf.getValueNodeFor v

/-- The values of the members of a points-to set, in iteration order, leaving out the
null object and the members without a value. -/
def valuesOfPtsSet (nf : AndersNodeFactory) (s : AndersPtsSet) : List Value :=
  s.filterMap (fun o => if o = nf.getNullObjectNode then none else nf.getValueForNode o)

/-- Insertion of `x` into a list ordered by `lt`, before the first element that is not
smaller than `x`. -/
def sortInsert (lt : AndersConstraint → AndersConstraint → Bool) (x : AndersConstraint) :
    List AndersConstraint → List AndersConstraint
  | [] => [x]
  | y :: ys => if lt y x then y :: sortInsert lt x ys else x :: y :: ys

/-- Result of `std::sort(constraints.begin(), constraints.end())` with `operator<` given by
`lt`: the elements of the vector in ascending order.  For a strict total order the
ascending arrangement is unique, so the sorting algorithm does not matter. -/
def stdSort (lt : AndersConstraint → AndersConstraint → Bool) :
    List AndersConstraint → List AndersConstraint
  | [] => []
  | x :: xs => sortInsert lt x (stdSort lt xs)

/-- The scan of `std::unique` once the element `prev` has been kept: elements equal to the
last kept element are dropped, any other element is kept and becomes the last kept one.
`operator==` of constraints is the structural comparison of (type, dest, src). -/
def uniqueFrom (prev : AndersConstraint) : List AndersConstraint → List AndersConstraint
  | [] => [prev]
  | y :: ys => if prev = y then uniqueFrom prev ys else prev :: uniqueFrom y ys

/-- Result of `constraints.erase(std::unique(constraints.begin(), constraints.end()),
constraints.end())`: of every run of consecutive equal elements the first is kept and the
tail left behind by `std::unique` is erased. -/
def stdUnique : List AndersConstraint → List AndersConstraint
  | [] => []
  | x :: xs => uniqueFrom x xs

/-- The deduplication step of `runOnModule`, IntraDFAInit.cpp lines 306-308: sort, then
unique and erase, on the constraint vector. -/
def dedupConstraints (lt : AndersConstraint → AndersConstraint → Bool) (self : Andersen) :
    Andersen :=
  { self with constraints := stdUnique (stdSort lt self.constraints) }

/-- Position of a constraint kind in the enumeration `ADDR_OF, COPY, LOAD, STORE`. -/
def ConstraintType.toNat : ConstraintType → Nat
  | .ADDR_OF => 0
  | .COPY => 1
  | .LOAD => 2
  | .STORE => 3

/-- Modelled from the spec: `AndersConstraint::operator<` (Constraint.h is not among the
sources).  The spec compares constraints structurally on (kind, dst, src); this is the
lexicographic order on that triple, one strict total order of that kind. -/
def constraintLess (a b : AndersConstraint) : Bool :=
  decide (a.type.toNat < b.type.toNat ∨
    (a.type.toNat = b.type.toNat ∧ (a.dest < b.dest ∨ (a.dest = b.dest ∧ a.src < b.src))))

/-- A node factory for the examples: special nodes 0..3, value nodes 4, 5, 6 for the values
10, 11, 12, object node 7 for the value 13 (which has no value node), object nodes 8, 9 of
the allocation sites 20, 21; the special nodes have no value; node 6 has been merged into
the universal pointer node. -/
def exampleFactory : AndersNodeFactory where
  InvalidIndex := 4294967295
  getUniversalPtrNode := 0
  getUniversalObjNode := 1
  getNullPtrNode := 2
  getNullObjectNode := 3
  getValueNodeFor := fun v =>
    if v = 10 then 4 else if v = 11 then 5 else if v = 12 then 6 else 4294967295
  getObjectNodeFor := fun v =>
    if v = 13 then 7 else if v = 20 then 8 else if v = 21 then 9 else 4294967295
  getMergeTarget := fun n => if n = 6 then 0 else n
  getValueForNode := fun n =>
    if n = 4 then some 10 else if n = 5 then some 11 else if n = 6 then some 12
    else if n = 7 then some 13 else if n = 8 then some 20 else if n = 9 then some 21
    else none
  getObjectNodeForConstant := fun v =>
    if v = 13 then 7 else if v = 20 then 8 else if v = 21 then 9 else 4294967295

/-- An analysis object for the examples: the universal pointer points to the universal
object, node 4 points to the objects 8 and 9 and to the null object, node 5 has an empty
points-to set, and node 7 has no entry in the points-to graph. -/
def exampleAnalysis : Andersen where
  nodeFactory := exampleFactory
  constraints := [⟨.ADDR_OF, 0, 1⟩, ⟨.STORE, 1, 1⟩, ⟨.ADDR_OF, 2, 3⟩]
  ptsGraph := [(0, [1]), (4, [8, 3, 9]), (5, [])]

/-- An `llvm::Constant` as `addGlobalInitializerConstraints` inspects it: its identity, the
answers of `getType()->isSingleValueType()`, `isa<PointerType>(getType())`, `isNullValue()`
and `isa<UndefValue>`, the answer `isAggregate` of `isa<ConstantArray>(c) ||
isa<ConstantDataSequential>(c) || isa<ConstantStruct>(c)`, and its operands. -/
inductive Constant where
  | mk (id : Value) (isSingleValueType isPointerTy isNullValue isUndefValue isAggregate : Bool)
      (operands : List Constant)

mutual
/-- Embedding of `AndersenInit::addGlobalInitializerConstraints(objNode, c)`,
IntraDFAInit.cpp lines 469-493.  The result is `none` where an assertion fails: a
pointer-typed scalar has no object node (line 476), or a constant that is neither scalar
nor null nor undef is not an array, a data sequence or a struct (lines 486-487). -/
def addGlobalInitializerConstraints (self : Andersen) (objNode : NodeIndex) :
    Constant → Option Andersen
  | .mk id isSingleValueType isPointerTy isNullValue isUndefValue isAggregate operands =>
    if isSingleValueType then
      if isPointerTy then
        let rhsNode := self.nodeFactory.getObjectNodeForConstant id
        if rhsNode = self.nodeFactory.InvalidIndex then none
        else some (addConstraint self .ADDR_OF objNode rhsNode)
      else some self
    else if isNullValue then
      some (addConstraint self .COPY objNode self.nodeFactory.getNullObjectNode)
    else if !isUndefValue then
      if isAggregate then addGlobalInitializerOperands self objNode operands else none
    else some self
/-- The loop over the operands in `addGlobalInitializerConstraints` (lines 489-491). -/
def addGlobalInitializerOperands (self : Andersen) (objNode : NodeIndex) :
    List Constant → Option Andersen
  | [] => some self
  | c :: cs =>
    match addGlobalInitializerConstraints self objNode c with
    | none => none
    | some a => addGlobalInitializerOperands a objNode cs
end

mutual
/-- The function `addGlobalInitializerConstraints` as the build without assertions runs
it: where an assertion would fail, the call goes on with the index it has, so there is a
result for every constant.  This is the variant that `collectConstraints` is embedded
with. -/
def addGlobalInitializerConstraintsNDEBUG (self : Andersen) (objNode : NodeIndex) :
    Constant → Andersen
  | .mk id isSingleValueType isPointerTy isNullValue isUndefValue _ operands =>
    if isSingleValueType then
      if isPointerTy then
        addConstraint self .ADDR_OF objNode (self.nodeFactory.getObjectNodeForConstant id)
      else self
    else if isNullValue then
      addConstraint self .COPY objNode self.nodeFactory.getNullObjectNode
    else if !isUndefValue then
      addGlobalInitializerOperandsNDEBUG self objNode operands
    else self
/-- The loop over the operands in `addGlobalInitializerConstraints` (lines 489-491), in the
build without assertions. -/
def addGlobalInitializerOperandsNDEBUG (self : Andersen) (objNode : NodeIndex) :
    List Constant → Andersen
  | [] => self
  | c :: cs =>
    addGlobalInitializerOperandsNDEBUG (addGlobalInitializerConstraintsNDEBUG self objNode c)
      objNode cs
end

mutual
/-- The assertions of `addGlobalInitializerConstraints` hold on the constant tree: every
pointer-typed scalar that is reached has an object node, and every constant that is
reached and is neither scalar nor null nor undef is an array, a data sequence or a
struct. -/
def initializerAssertionsHold (nf : AndersNodeFactory) : Constant → Bool
  | .mk id isSingleValueType isPointerTy isNullValue isUndefValue isAggregate operands =>
    if isSingleValueType then
      if isPointerTy then decide (nf.getObjectNodeForConstant id ≠ nf.InvalidIndex) else true
    else if isNullValue then true
    else if isUndefValue then true
    else isAggregate && initializerAssertionsHoldList nf operands
/-- The assertions hold on every constant of the list. -/
def initializerAssertionsHoldList (nf : AndersNodeFactory) : List Constant → Bool
  | [] => true
  | c :: cs => initializerAssertionsHold nf c && initializerAssertionsHoldList nf cs
end

/-- A sequence of `addConstraint` calls, one for each element of `cs`, in order. -/
def addConstraints (self : Andersen) (cs : List AndersConstraint) : Andersen :=
  cs.foldl (fun a c => addConstraint a c.type c.dest c.src) self

/-- What one iteration of the loop over `FunctionsName` in `runOnModule` contributes to the
constraint store: `typeConstraints` are the constraints added by the `addConstraint` calls
of lines 111-270 (before the solver runs), `callConstraints` those added while the call
worklist is drained through `addConstraintForCall` (lines 299-305). -/
structure FunctionRound where
  typeConstraints : List AndersConstraint
  callConstraints : List AndersConstraint

/-- The analysis object during `runOnModule`, together with the constraint store as it was
at each call of `optimizeConstraints` and at each call of `solveConstraints`, in call
order. -/
structure RunLog where
  self : Andersen
  atOptimize : List (List AndersConstraint)
  atSolve : List (List AndersConstraint)

/-- One iteration of the loop over `FunctionsName` in `runOnModule` (lines 109-310).
`optimizeConstraints` and `solveConstraints` are not among the sources and are parameters;
the stack-offset bookkeeping of lines 277-297 only queries `getPointsToSet`. -/
def runOnModuleRound (optimizeConstraints solveConstraints : Andersen → Andersen)
    (lt : AndersConstraint → AndersConstraint → Bool) (log : RunLog) (f : FunctionRound) :
    RunLog :=
  let a1 := addConstraints log.self f.typeConstraints
  let a2 := optimizeConstraints a1
  let a3 := solveConstraints a2
  let a4 := addConstraints a3 f.callConstraints
  let a5 := dedupConstraints lt a4
  ⟨a5, log.atOptimize ++ [a1.constraints], log.atSolve ++ [a2.constraints]⟩

/-- Embedding of `AndersenInit::runOnModule`, IntraDFAInit.cpp lines 74-324, as far as the
constraint store is concerned: nothing happens for an empty `FunctionsName`; otherwise
`collectConstraints` runs once, every function gets one round, and the store is cleared at
the end.  The effect of `collectConstraints(M, FunctionsName)` on the analysis object is
the parameter `collectConstraints`. -/
def runOnModule (optimizeConstraints solveConstraints : Andersen → Andersen)
    (lt : AndersConstraint → AndersConstraint → Bool)
    (collectConstraints : Andersen → Andersen) (FunctionsName : List FunctionRound)
    (self : Andersen) : Bool × RunLog :=
  match FunctionsName with
  | [] => (false, ⟨self, [], []⟩)
  | _ :: _ =>
    let log := FunctionsName.foldl
      (runOnModuleRound optimizeConstraints solveConstraints lt)
      ⟨collectConstraints self, [], []⟩
    (false, ⟨{ log.self with constraints := [] }, log.atOptimize, log.atSolve⟩)

/-- No two constraints of the list are structurally equal in (type, dest, src). -/
def NoStructuralDuplicates (cs : List AndersConstraint) : Prop :=
  cs.Pairwise (fun a b => ¬ (a.type = b.type ∧ a.dest = b.dest ∧ a.src = b.src))

/-- Node factory of the module `@G = global [2 x i8*] [i8* @H, i8* @H]`, `@H = global i8 0`
after `collectConstraints` has created the nodes of the globals: `@G` is the value 30 with
value node 4 and object node 5, `@H` the value 31 with value node 6 and object node 7. -/
def moduleFactory : AndersNodeFactory where
  InvalidIndex := 4294967295
  getUniversalPtrNode := 0
  getUniversalObjNode := 1
  getNullPtrNode := 2
  getNullObjectNode := 3
  getValueNodeFor := fun v => if v = 30 then 4 else if v = 31 then 6 else 4294967295
  getObjectNodeFor := fun v => if v = 30 then 5 else if v = 31 then 7 else 4294967295
  getMergeTarget := fun n => n
  getValueForNode := fun n =>
    if n = 4 then some 30 else if n = 5 then some 30 else if n = 6 then some 31
    else if n = 7 then some 31 else none
  getObjectNodeForConstant := fun v =>
    if v = 30 then 5 else if v = 31 then 7 else 4294967295

/-- The analysis object at the start of `runOnModule` on that module: no constraint, no
points-to information. -/
def moduleAnalysis : Andersen where
  nodeFactory := moduleFactory
  constraints := []
  ptsGraph := []

/-- The initializer `[i8* @H, i8* @H]` of `@G`: an array constant whose two operands are
the pointer constant `@H`. -/
def initializerOfG : Constant :=
  .mk 40 false false false false true
    [.mk 31 true true false false false [], .mk 31 true true false false false []]

/-- The initializer `i8 0` of `@H`: a scalar that is not a pointer. -/
def initializerOfH : Constant := .mk 41 true false true false false []

/-- The run of `collectConstraints` (lines 380-466) on that module, with a single function
whose body is `ret void` and without Objective-C classes: the three seed constraints
(lines 384-391), `ADDR_OF(gVal, gObj)` for `@G` and `@H` (line 400), then the initializer
constraints of `@G` and `@H` (line 413); the function body adds nothing. -/
def collectConstraintsOfModule (self : Andersen) : Andersen :=
  let nf := self.nodeFactory
  let a := addConstraint self .ADDR_OF nf.getUniversalPtrNode nf.getUniversalObjNode
  let a := addConstraint a .STORE nf.getUniversalObjNode nf.getUniversalObjNode
  let a := addConstraint a .ADDR_OF nf.getNullPtrNode nf.getNullObjectNode
  let a := addConstraint a .ADDR_OF (nf.getValueNodeFor 30) (nf.getObjectNodeFor 30)
  let a := addConstraint a .ADDR_OF (nf.getValueNodeFor 31) (nf.getObjectNodeFor 31)
  let a := addGlobalInitializerConstraintsNDEBUG a (nf.getObjectNodeFor 30) initializerOfG
  addGlobalInitializerConstraintsNDEBUG a (nf.getObjectNodeFor 31) initializerOfH


mutual
/-- Reference definition of the constraints of a global initializer, after the wording of
the field-insensitive rule: a pointer-typed scalar gives `ADDR_OF(objNode, object node of
the constant)`, any other scalar nothing, a non-scalar null value `COPY(objNode,
NullObject)`, an undef aggregate nothing, and any other aggregate the concatenation, in
operand order, of the constraints of its operands. -/
def initializerConstraintsReference (nf : AndersNodeFactory) (objNode : NodeIndex) :
    Constant → List AndersConstraint
  | .mk id isSingleValueType isPointerTy isNullValue isUndefValue _ operands =>
    if isSingleValueType then
      if isPointerTy then [⟨.ADDR_OF, objNode, nf.getObjectNodeForConstant id⟩] else []
    else if isNullValue then [⟨.COPY, objNode, nf.getNullObjectNode⟩]
    else if isUndefValue then []
    else initializerConstraintsReferenceList nf objNode operands
/-- Concatenation, in operand order, of the reference constraints of the operands. -/
def initializerConstraintsReferenceList (nf : AndersNodeFactory) (objNode : NodeIndex) :
    List Constant → List AndersConstraint
  | [] => []
  | c :: cs =>
    initializerConstraintsReference nf objNode c ++
      initializerConstraintsReferenceList nf objNode cs
end


/-- The member functions of `AndersNodeFactory` that create nodes or look up more than the
record `AndersNodeFactory` holds (NodeFactory.h is not among the sources): each one takes
the node factory before the call and, for a creation, returns the index together with the
node factory after the call. -/
structure NodeFactoryOps where
  createValueNode : AndersNodeFactory → Value → NodeIndex × AndersNodeFactory
  createObjectNode : AndersNodeFactory → Value → NodeIndex × AndersNodeFactory
  createObjectNodeDummy : AndersNodeFactory → Value → NodeIndex × AndersNodeFactory
  getAbstractLocation : AndersNodeFactory → Value → Value
  getVarargNodeFor : AndersNodeFactory → Value → NodeIndex

/-- The call `nodeFactory.createValueNode(v)` on the analysis object. -/
def createValueNode (ops : NodeFactoryOps) (self : Andersen) (v : Value) :
    NodeIndex × Andersen :=
  ((ops.createValueNode self.nodeFactory v).1,
    { self with nodeFactory := (ops.createValueNode self.nodeFactory v).2 })

/-- The call `nodeFactory.createObjectNode(v)` on the analysis object. -/
def createObjectNode (ops : NodeFactoryOps) (self : Andersen) (v : Value) :
    NodeIndex × Andersen :=
  ((ops.createObjectNode self.nodeFactory v).1,
    { self with nodeFactory := (ops.createObjectNode self.nodeFactory v).2 })

/-- The call `nodeFactory.createObjectNodeDummy(v, M)` on the analysis object. -/
def createObjectNodeDummy (ops : NodeFactoryOps) (self : Andersen) (v : Value) :
    NodeIndex × Andersen :=
  ((ops.createObjectNodeDummy self.nodeFactory v).1,
    { self with nodeFactory := (ops.createObjectNodeDummy self.nodeFactory v).2 })

/-- The recurring lookup `idx = getValueNodeFor(v); if (idx == InvalidIndex) idx =
createValueNode(v);`. -/
def valueNodeOrCreate (ops : NodeFactoryOps) (self : Andersen) (v : Value) :
    NodeIndex × Andersen :=
  if self.nodeFactory.getValueNodeFor v = self.nodeFactory.InvalidIndex then
    createValueNode ops self v
  else (self.nodeFactory.getValueNodeFor v, self)

/-- A global variable of the module as `collectConstraints` inspects it: its identity,
`hasDefinitiveInitializer()` and `getInitializer()`. -/
structure GlobalVariable where
  id : Value
  hasDefinitiveInitializer : Bool
  initializer : Constant

/-- Body of the first loop over `M.globals()` in `collectConstraints` (lines 396-401). -/
def collectGlobalNodes (ops : NodeFactoryOps) (self : Andersen) (globalVal : GlobalVariable) :
    Andersen :=
  let r₁ := createValueNode ops self globalVal.id
  let r₂ := createObjectNode ops r₁.2 globalVal.id
  addConstraint r₂.2 .ADDR_OF r₁.1 r₂.1

/-- Body of the second loop over `M.globals()` in `collectConstraints` (lines 407-420), as
the build without assertions runs it: the assertion on `gObj` and those of
`addGlobalInitializerConstraints` are not represented. -/
def collectGlobalInitializer (self : Andersen) (globalVal : GlobalVariable) : Andersen :=
  let gObj := self.nodeFactory.getObjectNodeFor globalVal.id
  if globalVal.hasDefinitiveInitializer then
    addGlobalInitializerConstraintsNDEBUG self gObj globalVal.initializer
  else
    addConstraint self .COPY gObj self.nodeFactory.getUniversalObjNode

/-- Embedding of `AndersenInit::collectConstraints(M, Functions)`, IntraDFAInit.cpp lines
380-466.  The seeds and the two loops over the globals are translated; the call
`collectionConstraintsForGlobals()` (line 403) and everything from line 422 on (the
protocol constraints of the Objective-C classes and the scan of the function bodies) are
the parameters `collectionConstraintsForGlobals` and `classesAndFunctions`. -/
def collectConstraints (ops : NodeFactoryOps)
    (collectionConstraintsForGlobals classesAndFunctions : Andersen → Andersen)
    (globals : List GlobalVariable) (self : Andersen) : Andersen :=
  let a := addConstraint self .ADDR_OF self.nodeFactory.getUniversalPtrNode
    self.nodeFactory.getUniversalObjNode
  let a := addConstraint a .STORE a.nodeFactory.getUniversalObjNode
    a.nodeFactory.getUniversalObjNode
  let a := addConstraint a .ADDR_OF a.nodeFactory.getNullPtrNode
    a.nodeFactory.getNullObjectNode
  let a := globals.foldl (collectGlobalNodes ops) a
  let a := collectionConstraintsForGlobals a
  let a := globals.foldl collectGlobalInitializer a
  classesAndFunctions a

/-- Modelled from the spec: the meaning of one constraint for a points-to assignment `pts`
(`pts n o` says that `o` is in the points-to set of `n`), section 3 of the spec.
`ADDR_OF(dst, src)`: `src` is in the set of `dst`; `COPY(dst, src)`: the set of `dst`
contains the set of `src`; `LOAD(dst, src)`: for every `o` in the set of `src` the set of
`dst` contains the set of `o`; `STORE(dst, src)`: for every `o` in the set of `dst` the set
of `o` contains the set of `src`. -/
def Satisfies (pts : NodeIndex → NodeIndex → Prop) (c : AndersConstraint) : Prop :=
  match c.type with
  | .ADDR_OF => pts c.dest c.src
  | .COPY => ∀ o, pts c.src o → pts c.dest o
  | .LOAD => ∀ o x, pts c.src o → pts o x → pts c.dest x
  | .STORE => ∀ o x, pts c.dest o → pts c.src x → pts o x

/-- The assignment `pts` is the least one that satisfies all constraints of `cs`: it
satisfies them and is contained in every assignment that does. -/
def IsLeastSolution (cs : List AndersConstraint) (pts : NodeIndex → NodeIndex → Prop) :
    Prop :=
  (∀ c ∈ cs, Satisfies pts c) ∧
    ∀ q : NodeIndex → NodeIndex → Prop, (∀ c ∈ cs, Satisfies q c) → ∀ n o, pts n o → q n o

/-- Node creation for the examples: a value without value node gets the node `100 + 2 v`,
a value without object node the node `101 + 2 v`, and the lookups of the factory are
extended by the new node; a value that has the node already keeps it. -/
def exampleOps : NodeFactoryOps where
  createValueNode := fun nf v =>
    if nf.getValueNodeFor v = nf.InvalidIndex then
      (100 + 2 * v,
        { nf with
          getValueNodeFor := fun x => if x = v then 100 + 2 * v else nf.getValueNodeFor x
          getValueForNode := fun n =>
            if n = 100 + 2 * v then some v else nf.getValueForNode n })
    else (nf.getValueNodeFor v, nf)
  createObjectNode := fun nf v =>
    if nf.getObjectNodeFor v = nf.InvalidIndex then
      (101 + 2 * v,
        { nf with
          getObjectNodeFor := fun x => if x = v then 101 + 2 * v else nf.getObjectNodeFor x
          getValueForNode := fun n =>
            if n = 101 + 2 * v then some v else nf.getValueForNode n })
    else (nf.getObjectNodeFor v, nf)
  createObjectNodeDummy := fun nf v =>
    if nf.getObjectNodeFor v = nf.InvalidIndex then
      (101 + 2 * v,
        { nf with
          getObjectNodeFor := fun x => if x = v then 101 + 2 * v else nf.getObjectNodeFor x
          getValueForNode := fun n =>
            if n = 101 + 2 * v then some v else nf.getValueForNode n })
    else (nf.getObjectNodeFor v, nf)
  getAbstractLocation := fun _ v => v
  getVarargNodeFor := fun nf _ => nf.InvalidIndex

/-- A node factory that holds the four special nodes 0..3 and no other node. -/
def emptyFactory : AndersNodeFactory where
  InvalidIndex := 4294967295
  getUniversalPtrNode := 0
  getUniversalObjNode := 1
  getNullPtrNode := 2
  getNullObjectNode := 3
  getValueNodeFor := fun _ => 4294967295
  getObjectNodeFor := fun _ => 4294967295
  getMergeTarget := fun n => n
  getValueForNode := fun _ => none
  getObjectNodeForConstant := fun _ => 4294967295

/-- The analysis object before constraint collection: special nodes only, no constraint,
no points-to information. -/
def emptyAnalysis : Andersen where
  nodeFactory := emptyFactory
  constraints := []
  ptsGraph := []


/-- Modelled from the spec: the working state of the solver (section 4.4; neither
`solveConstraints` nor `PtsSet.h` is among the sources), the points-to graph as the list of
its pairs `(n, o)` with `o` in the points-to set of `n`, in the order of insertion.  This
is the points-to set of the node `n`. -/
def ptsOf (P : List (NodeIndex × NodeIndex)) (n : NodeIndex) : AndersPtsSet :=
  (P.filter (fun p => decide (p.1 = n))).map Prod.snd

/-- Modelled from the spec: insertion of one object into one points-to set; sets only grow
and hold no element twice. -/
def insertPair (P : List (NodeIndex × NodeIndex)) (p : NodeIndex × NodeIndex) :
    List (NodeIndex × NodeIndex) :=
  if p ∈ P then P else P ++ [p]

/-- Modelled from the spec: the union of the set `objs` into the points-to set of `dst`. -/
def unionInto (P : List (NodeIndex × NodeIndex)) (dst : NodeIndex) (objs : List NodeIndex) :
    List (NodeIndex × NodeIndex) :=
  objs.foldl (fun Q o => insertPair Q (dst, o)) P

/-- Modelled from the spec: the propagation step for one constraint (section 4.4).
`COPY(dst, src)` unions pts(src) into pts(dst); `LOAD(dst, src)` unions pts(o) into
pts(dst) for every `o` currently in pts(src); `STORE(dst, src)` unions pts(src) into pts(o)
for every `o` currently in pts(dst); `ADDR_OF` has been dealt with at setup. -/
def propagate (P : List (NodeIndex × NodeIndex)) (c : AndersConstraint) :
    List (NodeIndex × NodeIndex) :=
  match c.type with
  | .ADDR_OF => P
  | .COPY => unionInto P c.dest (ptsOf P c.src)
  | .LOAD => (ptsOf P c.src).foldl (fun Q o => unionInto Q c.dest (ptsOf Q o)) P
  | .STORE => (ptsOf P c.dest).foldl (fun Q o => unionInto Q o (ptsOf Q c.src)) P

/-- Modelled from the spec: one round of propagation over all constraints of the store. -/
def propagateAll (cs : List AndersConstraint) (P : List (NodeIndex × NodeIndex)) :
    List (NodeIndex × NodeIndex) :=
  cs.foldl propagate P

/-- Modelled from the spec: the initial state of the solver, in which every set is empty
except that `ADDR_OF(dst, src)` has inserted `src` into the set of `dst`. -/
def seedAddrOf (cs : List AndersConstraint) : List (NodeIndex × NodeIndex) :=
  cs.foldl (fun P c => if c.type = .ADDR_OF then insertPair P (c.dest, c.src) else P) []

/-- Modelled from the spec: the convergence loop of the solver, rounds of propagation until
a round changes no set, with a bound `fuel` on the number of rounds. -/
def solveLoop (cs : List AndersConstraint) :
    Nat → List (NodeIndex × NodeIndex) → List (NodeIndex × NodeIndex)
  | 0, P => P
  | fuel + 1, P =>
    if propagateAll cs P = P then P else solveLoop cs fuel (propagateAll cs P)

/-- The node indices that occur in the constraints. -/
def constraintNodes (cs : List AndersConstraint) : List NodeIndex :=
  cs.flatMap (fun c => [c.dest, c.src])

/-- Modelled from the spec: the points-to graph as a map from node index to points-to set,
with one entry for every node whose set is not empty. -/
def toPtsGraph (P : List (NodeIndex × NodeIndex)) : List (NodeIndex × AndersPtsSet) :=
  ((P.map Prod.fst).dedup).map (fun n => (n, ptsOf P n))

/-- Modelled from the spec: `solveConstraints` (section 4.4), which is declared in
Andersen.h and defined in a file that is not among the sources.  The points-to graph is
rebuilt from the constraint store: setup from the `ADDR_OF` constraints, then rounds of
propagation; the number of rounds is bounded by the number of pairs of nodes of the store
plus one, which is enough to reach the round that changes nothing. -/
def solveConstraints (self : Andersen) : Andersen :=
  { self with
    ptsGraph := toPtsGraph (solveLoop self.constraints
      ((constraintNodes self.constraints).length * (constraintNodes self.constraints).length + 1)
      (seedAddrOf self.constraints)) }

/-- The points-to set recorded for the node `n` in the points-to graph; empty when the graph
has no entry for `n`. -/
def ptsSetOfNode (self : Andersen) (n : NodeIndex) : AndersPtsSet :=
  (self.ptsGraph.lookup n).getD []


/-- The property of a solver state that every round preserves: no pair occurs twice, every
pair consists of nodes of `N`, and every pair belongs to the assignment `q`. -/
def SolverInvariant (N : List NodeIndex) (q : NodeIndex → NodeIndex → Prop)
    (P : List (NodeIndex × NodeIndex)) : Prop :=
  P.Nodup ∧ ∀ p ∈ P, p.1 ∈ N ∧ p.2 ∈ N ∧ q p.1 p.2


/-- The instruction opcodes that the embedded code tells apart; `OtherBinary` stands for
the binary operators other than `Add` and `Sub`, `OtherOpcode` for every opcode not
listed. -/
inductive Opcode where
  | Alloca
  | Call
  | Ret
  | Load
  | Store
  | GetElementPtr
  | PHI
  | BitCast
  | IntToPtr
  | PtrToInt
  | Select
  | SExt
  | Add
  | Sub
  | OtherBinary
  | OtherOpcode
  deriving DecidableEq, Repr

/-- The opcodes of `llvm::BinaryOperator`. -/
def Opcode.isBinaryOp : Opcode → Bool
  | .Add => true
  | .Sub => true
  | .OtherBinary => true
  | _ => false

/-- The dynamic class of an `llvm::Value` as far as `isa`, `dyn_cast` and `PatternMatch`
look at it: an instruction or a constant expression with its opcode, a `ConstantInt` with
`getZExtValue()` and the bit width of its type, a `ConstantFP`, a `ConstantPointerNull`, a
function argument, a global value, or anything else. -/
inductive ValueKind where
  | Instruction (opcode : Opcode)
  | ConstantExpr (opcode : Opcode)
  | ConstantInt (zext : Nat) (bits : Nat)
  | ConstantFP
  | ConstantPointerNull
  | Argument
  | GlobalValue
  | OtherValue
  deriving DecidableEq, Repr

/-- An `llvm::Value` as the constraint generation sees it: its identity (the pointer), its
dynamic class, `getType()->isPointerTy()`, and its operands (for a PHI node its incoming
values), each again with what is visible of it. -/
inductive LLValue where
  | mk (id : Value) (kind : ValueKind) (isPointerTy : Bool) (operands : List LLValue)

/-- The pointer identity of the value. -/
def LLValue.id : LLValue → Value
  | .mk id _ _ _ => id

/-- The dynamic class of the value. -/
def LLValue.kind : LLValue → ValueKind
  | .mk _ kind _ _ => kind

/-- The answer of `getType()->isPointerTy()`. -/
def LLValue.isPointerTy : LLValue → Bool
  | .mk _ _ isPointerTy _ => isPointerTy

/-- The operands of the value (`getOperand(i)`, for a PHI node `getIncomingValue(i)`). -/
def LLValue.operands : LLValue → List LLValue
  | .mk _ _ _ operands => operands

/-- A function as `addArgumentConstraintForCall` inspects it: its identity, its formal
arguments and `getFunctionType()->isVarArg()`. -/
structure LLFunction where
  id : Value
  args : List LLValue
  isVarArg : Bool

/-- The first loop of `addArgumentConstraintForCall` (lines 1333-1351): formals and
actuals are walked in step until one of the two runs out; the result is the analysis
object together with the actuals that `aItr` has not passed.  The result is `none` where
an assertion fails: the formal or the actual of a position has no value node. -/
def addArgumentConstraintLoop (self : Andersen) :
    List LLValue → List LLValue → Option (Andersen × List LLValue)
  | formal :: formals, actual :: actuals =>
    let a : Option Andersen :=
      if formal.isPointerTy then
        let fIndex := self.nodeFactory.getValueNodeFor formal.id
        if fIndex = self.nodeFactory.InvalidIndex then none
        else if actual.isPointerTy then
          let aIndex := self.nodeFactory.getValueNodeFor actual.id
          if aIndex = self.nodeFactory.InvalidIndex then none
          else some (addConstraint self .COPY fIndex aIndex)
        else
          some (addConstraint self .COPY fIndex self.nodeFactory.getUniversalPtrNode)
      else some self
    match a with
    | none => none
    | some a => addArgumentConstraintLoop a formals actuals
  | [], actuals => some (self, actuals)
  | _ :: _, [] => some (self, [])

/-- The body of the second loop of `addArgumentConstraintForCall` (lines 1355-1368), for
one actual passed through the varargs section.  The result is `none` where an assertion
fails: the actual has no value node, or the function has no vararg node. -/
def addVarargConstraint (ops : NodeFactoryOps) (f : LLFunction) (self : Andersen)
    (actual : LLValue) : Option Andersen :=
  if actual.isPointerTy then
    let aIndex := self.nodeFactory.getValueNodeFor actual.id
    if aIndex = self.nodeFactory.InvalidIndex then none
    else
      let vaIndex := ops.getVarargNodeFor self.nodeFactory f.id
      if vaIndex = self.nodeFactory.InvalidIndex then none
      else some (addConstraint self .COPY vaIndex aIndex)
  else some self

/-- Embedding of `AndersenInit::addArgumentConstraintForCall(cs, f)`, IntraDFAInit.cpp lines
1328-1370; `actuals` are the arguments of the call site `cs` from `arg_begin()` to
`arg_end()`.  The result is `none` where an assertion of the function fails. -/
def addArgumentConstraintForCall (ops : NodeFactoryOps) (self : Andersen)
    (actuals : List LLValue) (f : LLFunction) : Option Andersen :=
  match addArgumentConstraintLoop self f.args actuals with
  | none => none
  | some r => if f.isVarArg then r.2.foldlM (addVarargConstraint ops f) r.1 else some r.1

/-- The assertions of `addArgumentConstraintForCall` for one position with formal and
actual: a pointer-typed formal has a value node, and so has a pointer-typed actual that
meets it. -/
def argumentNodesFound (nf : AndersNodeFactory) (pair : LLValue × LLValue) : Bool :=
  !pair.1.isPointerTy ||
    (decide (nf.getValueNodeFor pair.1.id ≠ nf.InvalidIndex) &&
      (!pair.2.isPointerTy || decide (nf.getValueNodeFor pair.2.id ≠ nf.InvalidIndex)))

/-- The assertions of `addArgumentConstraintForCall(cs, f)` hold: at every position with
formal and actual the nodes asserted are found, and, if `f` is variadic, every
pointer-typed surplus actual has a value node and `f` a vararg node. -/
def argumentAssertionsHold (ops : NodeFactoryOps) (nf : AndersNodeFactory)
    (actuals : List LLValue) (f : LLFunction) : Bool :=
  (f.args.zip actuals).all (argumentNodesFound nf) &&
    (!f.isVarArg ||
      ((actuals.drop f.args.length).filter (fun a => a.isPointerTy)).all (fun a =>
        decide (nf.getValueNodeFor a.id ≠ nf.InvalidIndex) &&
          decide (ops.getVarargNodeFor nf f.id ≠ nf.InvalidIndex)))

/-- Reference for `addArgumentConstraintForCall`: the constraint of one position with
formal and actual, if any. -/
def argumentConstraintReference (nf : AndersNodeFactory) (pair : LLValue × LLValue) :
    Option AndersConstraint :=
  if pair.1.isPointerTy then
    if pair.2.isPointerTy then
      some ⟨.COPY, nf.getValueNodeFor pair.1.id, nf.getValueNodeFor pair.2.id⟩
    else some ⟨.COPY, nf.getValueNodeFor pair.1.id, nf.getUniversalPtrNode⟩
  else none

/-- Reference for `addArgumentConstraintForCall`: positional pairing of formals and actuals
up to the shorter of the two lists, followed, for a variadic function, by one constraint
into the vararg node for every pointer-typed surplus actual. -/
def argumentConstraintsReference (ops : NodeFactoryOps) (nf : AndersNodeFactory)
    (actuals : List LLValue) (f : LLFunction) : List AndersConstraint :=
  (f.args.zip actuals).filterMap (argumentConstraintReference nf) ++
    (if f.isVarArg then
      ((actuals.drop f.args.length).filter (fun a => a.isPointerTy)).map
        (fun a => ⟨.COPY, ops.getVarargNodeFor nf f.id, nf.getValueNodeFor a.id⟩)
    else [])


/-- The queries of the Mach-O binary (`llvm::ObjectiveCBinary`, not among the sources)
that the embedded code makes, each as a function of the address: `getValue` gives the
returned flag and the contents of its reference argument after the call. -/
structure ObjectiveCBinary where
  getValue : Nat → Bool × Nat
  isIVAR : Nat → Bool
  getString : Nat → String
  getRAWData : Nat → Nat
  isCFString : Nat → Bool
  getSectionName : Nat → String
  isSelectorRef : Nat → Bool

/-- The uniqued constants that the embedded code asks the LLVM context for: the identity
of the 64-bit `ConstantInt` with a given value and of the `ConstantDataArray` with a given
string. -/
structure LLVMContext where
  constantInt64 : Nat → Value
  constantString : String → Value

/-- Assignment `m[k] = v` on a `std::map` kept as an association list. -/
def mapAssign {α : Type} (m : List (Nat × α)) (k : Nat) (v : α) : List (Nat × α) :=
  match m with
  | [] => [(k, v)]
  | (k', v') :: rest => if k' = k then (k, v) :: rest else (k', v') :: mapAssign rest k v

/-- The statement `ObjectTypes[V].insert(Typename)`: the set of `V` gains `Typename` unless
it holds it already; a missing entry is created. -/
def insertType (m : List (Value × List String)) (V : Value) (Typename : String) :
    List (Value × List String) :=
  match m with
  | [] => [(V, [Typename])]
  | (k, types) :: rest =>
    if k = V then (k, if Typename ∈ types then types else types ++ [Typename]) :: rest
    else (k, types) :: insertType rest V Typename

/-- Embedding of `AndersenInit::setType(V, Typename)`, IntraDFAInit.cpp lines 328-336. -/
def setType (ops : NodeFactoryOps) (self : Andersen) (V : Value) (Typename : String) :
    Andersen :=
  if Typename.length = 0 then self
  else
    let V := ops.getAbstractLocation self.nodeFactory V
    { self with ObjectTypes := insertType self.ObjectTypes V Typename }

/-- The recurring lookup `idx = getObjectNodeFor(v); if (idx == InvalidIndex) idx =
createObjectNode(v);`. -/
def objectNodeOrCreate (ops : NodeFactoryOps) (self : Andersen) (v : Value) :
    NodeIndex × Andersen :=
  if self.nodeFactory.getObjectNodeFor v = self.nodeFactory.InvalidIndex then
    createObjectNode ops self v
  else (self.nodeFactory.getObjectNodeFor v, self)

/-- The recurring lookup `idx = getObjectNodeFor(v); if (idx == InvalidIndex) idx =
createObjectNodeDummy(v, M);`. -/
def objectNodeOrCreateDummy (ops : NodeFactoryOps) (self : Andersen) (v : Value) :
    NodeIndex × Andersen :=
  if self.nodeFactory.getObjectNodeFor v = self.nodeFactory.InvalidIndex then
    createObjectNodeDummy ops self v
  else (self.nodeFactory.getObjectNodeFor v, self)

/-- The first part of `addConstraintsForConstIntToPtr` (lines 1666-1697), which records an
instance variable in `ivarMap` and determines `PointsToData`: the string constant found at
the address when there is one and the address is not an instance variable, otherwise the
abstract location of `Const`, for which a dummy object node is created unless `Const` has
an abstract location other than itself.  The result is `PointsToData` and the analysis
object. -/
def constIntToPtrPointsToData (ops : NodeFactoryOps) (MachO : ObjectiveCBinary)
    (ctx : LLVMContext) (self : Andersen) (IntToPtr : Value) (Const : Value) (zext : Nat) :
    Value × Andersen :=
  let V := (MachO.getValue zext).2
  let isIVAR := MachO.isIVAR zext
  let a := if isIVAR then { self with ivarMap := mapAssign self.ivarMap zext IntToPtr }
    else self
  let Data := MachO.getString (if V ≠ 0 then V else zext)
  if Data.length > 0 ∧ ¬ isIVAR then (ctx.constantString Data, a)
  else
    let a' :=
      if ops.getAbstractLocation a.nodeFactory Const ≠ Const then a
      else (createObjectNodeDummy ops a Const).2
    (ops.getAbstractLocation a'.nodeFactory Const, a')

/-- Embedding of `AndersenInit::addConstraintsForConstIntToPtr(IntToPtr, Const)`,
IntraDFAInit.cpp lines 1664-1710; `Const` is the identity of the `ConstantInt` and `zext`
its `getZExtValue()`. -/
def addConstraintsForConstIntToPtr (ops : NodeFactoryOps) (MachO : ObjectiveCBinary)
    (ctx : LLVMContext) (self : Andersen) (IntToPtr : Value) (Const : Value) (zext : Nat) :
    Andersen :=
  let r := constIntToPtrPointsToData ops MachO ctx self IntToPtr Const zext
  let dataObject := objectNodeOrCreate ops r.2 r.1
  let dstIdx := valueNodeOrCreate ops dataObject.2 IntToPtr
  addConstraint dstIdx.2 .ADDR_OF dstIdx.1 dataObject.1

/-- The matcher `m_IntToPtr(m_Value(X))`: an instruction or constant expression with opcode
`IntToPtr`; the result is its operand 0. -/
def matchIntToPtr (v : LLValue) : Option LLValue :=
  match v.kind with
  | .Instruction .IntToPtr => v.operands.head?
  | .ConstantExpr .IntToPtr => v.operands.head?
  | _ => none

/-- The matcher `m_SExt(m_Value(X))`: an instruction or constant expression with opcode
`SExt`; the result is its operand 0. -/
def matchSExt (v : LLValue) : Option LLValue :=
  match v.kind with
  | .Instruction .SExt => v.operands.head?
  | .ConstantExpr .SExt => v.operands.head?
  | _ => none

/-- The matcher `m_BinOp(m_Value(L), m_Value(R))`: a `BinaryOperator` instruction; the
result is the pair of its operands 0 and 1. -/
def matchBinOp (v : LLValue) : Option (LLValue × LLValue) :=
  match v.kind with
  | .Instruction op =>
    if op.isBinaryOp then
      match v.operands with
      | l :: r :: _ => some (l, r)
      | _ => none
    else none
  | _ => none

/-- The test `isa<Instruction>`. -/
def LLValue.isInstruction (v : LLValue) : Bool :=
  match v.kind with
  | .Instruction _ => true
  | _ => false

/-- The test `isa<ConstantInt>`. -/
def LLValue.isConstantInt (v : LLValue) : Bool :=
  match v.kind with
  | .ConstantInt _ _ => true
  | _ => false

/-- The value of `getZExtValue()` for a `ConstantInt`, 0 for any other value. -/
def LLValue.zext (v : LLValue) : Nat :=
  match v.kind with
  | .ConstantInt z _ => z
  | _ => 0

/-- The bit width of the type of a `ConstantInt`, 0 for any other value. -/
def LLValue.bits (v : LLValue) : Nat :=
  match v.kind with
  | .ConstantInt _ b => b
  | _ => 0

/-- The matcher `m_IntToPtr(m_BinOp(m_Value(Base), m_SExt(m_Instruction(IVARPtr))))`: the
result is the pair `(Base, IVARPtr)`. -/
def matchIVARAccess (v : LLValue) : Option (LLValue × LLValue) :=
  match matchIntToPtr v with
  | none => none
  | some x =>
    match matchBinOp x with
    | none => none
    | some (Base, r) =>
      match matchSExt r with
      | none => none
      | some IVARPtr => if IVARPtr.isInstruction then some (Base, IVARPtr) else none

/-- The matcher `m_IntToPtr(m_ConstantInt(Const))`: the result is the `ConstantInt`. -/
def matchIntToPtrConstantInt (v : LLValue) : Option LLValue :=
  match matchIntToPtr v with
  | none => none
  | some x => if x.isConstantInt then some x else none

/-- The body of the loop over the incoming values in the PHI case of
`collectConstraintsForInstruction` (lines 906-918). -/
def collectConstraintsForPHIIncoming (ops : NodeFactoryOps) (dstIndex : NodeIndex)
    (self : Andersen) (incoming : LLValue) : Andersen :=
  if incoming.kind = .ConstantFP then self
  else
    let srcIndex := valueNodeOrCreate ops self incoming.id
    addConstraint srcIndex.2 .COPY dstIndex srcIndex.1

/-- The case `Instruction::PHI` of `collectConstraintsForInstruction`, IntraDFAInit.cpp
lines 898-921; the assertion is not represented. -/
def collectConstraintsForPHI (ops : NodeFactoryOps) (self : Andersen) (inst : LLValue) :
    Andersen :=
  if inst.isPointerTy then self
  else
    let dstIndex := valueNodeOrCreate ops self inst.id
    inst.operands.foldl (collectConstraintsForPHIIncoming ops dstIndex.1) dstIndex.2


mutual
/-- The number of values in the visible part of a value: the value itself and, recursively,
its operands. -/
def LLValue.size : LLValue → Nat
  | .mk _ _ _ operands => 1 + LLValue.sizeList operands
/-- The sum of the sizes of the values of a list. -/
def LLValue.sizeList : List LLValue → Nat
  | [] => 0
  | v :: vs => v.size + LLValue.sizeList vs
end

/-- The worklist loop over `ivarOps` in the Load case (lines 567-598): `queue` holds the
entries of `ivarOps` from index `opNum` on, `visited` the set `visited`; `inst` is the
identity of the load and `Base` the base matched by the pattern.  Every round removes one
entry from the queue, and `fuel` bounds the number of rounds. -/
def loadIVARWorklist (ops : NodeFactoryOps) (inst : Value) (Base : LLValue) :
    Nat → List LLValue → List Value → Andersen → Andersen
  | 0, _, _, self => self
  | _ + 1, [], _, self => self
  | fuel + 1, cur :: rest, visited, self =>
    if cur.id ∈ visited then loadIVARWorklist ops inst Base fuel rest visited self
    else if cur.kind = .Instruction .PHI then
      loadIVARWorklist ops inst Base fuel
        (rest ++ cur.operands.filter (fun v => v.isInstruction)) (cur.id :: visited) self
    else if ¬ Base.isConstantInt ∧ cur.kind = .Instruction .Load then
      let srcIndex := valueNodeOrCreate ops self cur.id
      let dstIndex := valueNodeOrCreate ops srcIndex.2 inst
      loadIVARWorklist ops inst Base fuel rest (cur.id :: visited)
        (addConstraint dstIndex.2 .LOAD dstIndex.1 srcIndex.1)
    else loadIVARWorklist ops inst Base fuel rest (cur.id :: visited) self

/-- The body of the loop over `operands` in the Load case of
`collectConstraintsForInstruction` (lines 552-673), for the entry `op`.  The result is
`none` where the code reads operand 0 of `op` through the cast `(Instruction *)op` and
`op` has no operand, which the language leaves undefined; the assertions are not
represented. -/
def collectConstraintsForLoadOperand (ops : NodeFactoryOps) (MachO : ObjectiveCBinary)
    (ctx : LLVMContext) (inst : LLValue) (self : Andersen) (op : LLValue) :
    Option Andersen :=
  if op.kind = .ConstantPointerNull then some self
  else
    match matchIVARAccess op with
    | some (Base, IVARPtr) =>
      some (loadIVARWorklist ops inst.id Base (IVARPtr.size + 1) [IVARPtr] [] self)
    | none =>
      let valIndex := valueNodeOrCreate ops self inst.id
      match op.operands with
      | [] => none
      | q :: _ =>
        let opIndex := valueNodeOrCreate ops valIndex.2 q.id
        match matchIntToPtrConstantInt op with
        | some Const =>
          let a := addConstraintsForConstIntToPtr ops MachO ctx opIndex.2 op.id Const.id
            Const.zext
          let idx2 := a.nodeFactory.getValueNodeFor op.id
          let content := MachO.getRAWData Const.zext
          if MachO.isCFString content then
            let stringAddress := ctx.constantInt64 content
            let stringValIdx := valueNodeOrCreate ops a stringAddress
            let stringObjIdx := objectNodeOrCreateDummy ops stringValIdx.2 stringAddress
            let a := addConstraint stringObjIdx.2 .ADDR_OF valIndex.1 stringObjIdx.1
            some (setType ops a stringAddress "NSString")
          else
            let sectionName := MachO.getSectionName Const.zext
            if sectionName = "" ∨ sectionName = "__bss" ∨ sectionName = "__common" then
              some (addConstraint a .LOAD valIndex.1 idx2)
            else some (addConstraint a .COPY valIndex.1 idx2)
        | none => some (addConstraint opIndex.2 .LOAD valIndex.1 opIndex.1)

/-- The case `Instruction::Load` of `collectConstraintsForInstruction`, IntraDFAInit.cpp
lines 523-676.  The branch guarded by `isPointerTy() && false` is never taken.  The result
is `none` for a load without operand and where an operand step is undefined. -/
def collectConstraintsForLoad (ops : NodeFactoryOps) (MachO : ObjectiveCBinary)
    (ctx : LLVMContext) (self : Andersen) (inst : LLValue) : Option Andersen :=
  match inst.operands with
  | [] => none
  | p :: _ =>
    if p.kind = .Instruction .GetElementPtr then some self
    else
      let operands :=
        if p.kind = .Instruction .PHI then p.operands
        else if p.kind = .Instruction .Select then (p.operands.drop 1).take 2
        else [p]
      operands.foldlM (collectConstraintsForLoadOperand ops MachO ctx inst) self

/-- The results of the stack access analysis (`StackAccessPass`, not among the sources) for
the function at hand: `getOffsets v` is `none` when the offset map has no entry for `v`,
`some none` when the entry is a null pointer, and `some (some l)` when it points to the
list `l`; `getOffsetValues o` is the list behind the entry for the offset `o`, `none` when
there is none. -/
structure StackAccessPass where
  getOffsets : Value → Option (Option (List Int))
  getOffsetValues : Int → Option (List Value)
  runOnFunction : Nat → (Value → Option (Option (List Int))) × (Int → Option (List Value))

/-- The statement `handledAliases.insert(V)`. -/
def insertHandledAlias (self : Andersen) (V : Value) : Andersen :=
  if V ∈ self.handledAliases then self
  else { self with handledAliases := self.handledAliases ++ [V] }

/-- The body of the inner loop of `findAliases` in the sharp case (lines 1403-1412). -/
def findAliasesValue (ops : NodeFactoryOps) (Address : Value) (self : Andersen) (V : Value) :
    Andersen :=
  if Address = V then self
  else
    let idxA := self.nodeFactory.getValueNodeFor Address
    let idxB := valueNodeOrCreate ops self V
    insertHandledAlias (addConstraint idxB.2 .COPY idxB.1 idxA) V

/-- Embedding of `AndersenInit::findAliases(Address, Sharp, SPIdx)`, IntraDFAInit.cpp lines
1372-1458: the returned flag and the analysis object after the call.  The result is `none`
where the code dereferences the entry of an offset that has no value list. -/
def findAliases (ops : NodeFactoryOps) (SAP : StackAccessPass) (self : Andersen)
    (Address : LLValue) (Sharp : Bool) (SPIdx : Nat) : Option (Bool × Andersen) :=
  if Address.isInstruction then
    let Offsets := if SPIdx = 3 then SAP.getOffsets else (SAP.runOnFunction SPIdx).1
    let OffsetValues := if SPIdx = 3 then SAP.getOffsetValues else (SAP.runOnFunction SPIdx).2
    if Sharp then
      match Offsets Address.id with
      | none => some (false, self)
      | some none => some (false, self)
      | some (some offsets) =>
        (offsets.foldlM (fun (a : Andersen) (offset : Int) =>
          match OffsetValues offset with
          | none => none
          | some values => some (values.foldl (findAliasesValue ops Address.id) a))
          self).map (fun a => (false, a))
    else some (false, self)
  else some (false, self)


/-- The part of the Store case of `collectConstraintsForInstruction` that treats a stored
constant integer `v` as a pointer (lines 780-831). -/
def collectConstraintsForStoredConstant (ops : NodeFactoryOps) (MachO : ObjectiveCBinary)
    (ctx : LLVMContext) (self : Andersen) (v : LLValue) : Andersen :=
  if v.isConstantInt ∧ v.bits ≤ 64 then
    if v.zext ≥ 4294967296 then
      if MachO.isSelectorRef v.zext then
        let selName := MachO.getString v.zext
        let PointsToData := ctx.constantString selName
        let dataObject := objectNodeOrCreate ops self PointsToData
        let dstIdx := valueNodeOrCreate ops dataObject.2 v.id
        addConstraint dstIdx.2 .ADDR_OF dstIdx.1 dataObject.1
      else
        let valIdx := valueNodeOrCreate ops self v.id
        let objIdx := objectNodeOrCreateDummy ops valIdx.2 v.id
        let a := addConstraint objIdx.2 .ADDR_OF valIdx.1 objIdx.1
        if MachO.isCFString v.zext then setType ops a v.id "NSString" else a
    else self
  else self

/-- The part of the Store case of `collectConstraintsForInstruction` that looks at the
address `p` of a stored value `v` that is not pointer-typed (lines 833-891): the access to
an instance variable, the constant address, the GEP, and every other address. -/
def collectConstraintsForStoreAddress (ops : NodeFactoryOps) (a : Andersen)
    (v p : LLValue) : Andersen :=
  match matchIVARAccess p with
  | some (Base, IVARPtr) =>
    if ¬ Base.isConstantInt ∧ IVARPtr.kind = .Instruction .Load then
      let dstIndex := valueNodeOrCreate ops a IVARPtr.id
      let srcIndex := valueNodeOrCreate ops dstIndex.2 v.id
      let a := addConstraint srcIndex.2 .STORE dstIndex.1 srcIndex.1
      let iToPIdx := valueNodeOrCreate ops a p.id
      addConstraint iToPIdx.2 .COPY iToPIdx.1 dstIndex.1
    else a
  | none =>
    match matchIntToPtrConstantInt p with
    | some _ =>
      let srcIndex := valueNodeOrCreate ops a v.id
      let dstIndex := valueNodeOrCreate ops srcIndex.2 p.id
      addConstraint dstIndex.2 .STORE dstIndex.1 srcIndex.1
    | none =>
      if p.kind = .Instruction .GetElementPtr then a
      else
        let srcIndex := valueNodeOrCreate ops a v.id
        let dstIndex := srcIndex.2.nodeFactory.getValueNodeFor p.id
        addConstraint srcIndex.2 .STORE dstIndex srcIndex.1

/-- The part of the Store case of `collectConstraintsForInstruction` for a stored value `v`
that is not pointer-typed (lines 746-891), `p` being the address operand. -/
def collectConstraintsForStoreOfNonPointer (ops : NodeFactoryOps) (MachO : ObjectiveCBinary)
    (ctx : LLVMContext) (self : Andersen) (v p : LLValue) : Andersen :=
  if v.kind = .ConstantFP then self
  else
    collectConstraintsForStoreAddress ops
      (collectConstraintsForStoredConstant ops MachO ctx self v) v p

/-- The part of the Store case of `collectConstraintsForInstruction` from line 711 on, which
is reached unless the address is a GEP and the stored value is not a `ConstantInt`: the
constant address (lines 711-737), then a pointer-typed stored value (lines 738-745) or any
other stored value (lines 746-891).  For a pointer-typed stored value the result is `none`
where an assertion of lines 740-744 fails: the stored value or the address has no value
node.  The assertions of lines 884-888, which come after the constraints for a stored
constant, are not represented. -/
def collectConstraintsForStoreTail (ops : NodeFactoryOps) (MachO : ObjectiveCBinary)
    (ctx : LLVMContext) (self : Andersen) (v p : LLValue) : Option Andersen :=
  let a :=
    match matchIntToPtrConstantInt p with
    | some constDst => addConstraintsForConstIntToPtr ops MachO ctx self p.id constDst.id
        constDst.zext
    | none => self
  if v.isPointerTy then
    let srcIndex := a.nodeFactory.getValueNodeFor v.id
    if srcIndex = a.nodeFactory.InvalidIndex then none
    else
      let dstIndex := a.nodeFactory.getValueNodeFor p.id
      if dstIndex = a.nodeFactory.InvalidIndex then none
      else some (addConstraint a .STORE dstIndex srcIndex)
  else some (collectConstraintsForStoreOfNonPointer ops MachO ctx a v p)

/-- The case `Instruction::Store` of `collectConstraintsForInstruction`, IntraDFAInit.cpp
lines 677-893; `v` is operand 0, the stored value, and `p` operand 1, the address.  The
result is `none` for a store without its two operands, where `findAliases` is undefined,
and where an assertion on the nodes of a pointer-typed stored value and its address
fails. -/
def collectConstraintsForStore (ops : NodeFactoryOps) (MachO : ObjectiveCBinary)
    (ctx : LLVMContext) (SAP : StackAccessPass) (self : Andersen) (inst : LLValue) :
    Option Andersen :=
  match inst.operands with
  | v :: p :: _ =>
    if p.kind = .Instruction .GetElementPtr ∧ ¬ v.isConstantInt then
      if (SAP.getOffsets v.id).isSome then
        if v.id ∉ self.handledAliases then
          let valIdx := valueNodeOrCreate ops self v.id
          let objIdx := objectNodeOrCreateDummy ops valIdx.2 v.id
          let a := addConstraint objIdx.2 .ADDR_OF valIdx.1 objIdx.1
          (findAliases ops SAP a v true 3).map (fun r => insertHandledAlias r.2 v.id)
        else some self
      else some self
    else collectConstraintsForStoreTail ops MachO ctx self v p
  | _ => none

/-- The matcher `m_PtrToInt(m_Value(X))`: an instruction or constant expression with opcode
`PtrToInt`; the result is its operand 0. -/
def matchPtrToInt (v : LLValue) : Option LLValue :=
  match v.kind with
  | .Instruction .PtrToInt => v.operands.head?
  | .ConstantExpr .PtrToInt => v.operands.head?
  | _ => none

/-- The matcher `m_Add(m_Value(L), m_Value(R))`: an instruction or constant expression with
opcode `Add`; the result is the pair of its operands 0 and 1. -/
def matchAdd (v : LLValue) : Option (LLValue × LLValue) :=
  match v.kind with
  | .Instruction .Add =>
    match v.operands with
    | l :: r :: _ => some (l, r)
    | _ => none
  | .ConstantExpr .Add =>
    match v.operands with
    | l :: r :: _ => some (l, r)
    | _ => none
  | _ => none

/-- The matcher `m_ConstantInt(ConstantOffset)` with a `uint64_t` to bind: a `ConstantInt`
of a type of at most 64 bits. -/
def matchConstantInt64 (v : LLValue) : Bool :=
  match v.kind with
  | .ConstantInt _ bits => decide (bits ≤ 64)
  | _ => false

/-- The matcher `m_BinOp()`, the test `isa<BinaryOperator>`. -/
def LLValue.isBinaryOperator (v : LLValue) : Bool :=
  match v.kind with
  | .Instruction op => op.isBinaryOp
  | _ => false

/-- The matcher `m_Add(m_Value(srcValue), m_ConstantInt(ConstantOffset))`. -/
def matchAddConstant (op : LLValue) : Bool :=
  match matchAdd op with
  | some (_, r) => matchConstantInt64 r
  | none => false

/-- The matcher `m_Add(m_Value(srcValue), m_SExt(m_ConstantInt(ConstantOffset)))`. -/
def matchAddSExtConstant (op : LLValue) : Bool :=
  match matchAdd op with
  | some (_, r) =>
    match matchSExt r with
    | some c => matchConstantInt64 c
    | none => false
  | none => false

/-- The condition of the IntToPtr case at lines 987-998: `op` is an add of a value and a
constant, plain or sign-extended, or `op` is not a `BinaryOperator`. -/
def intToPtrSourceIsValue (op : LLValue) : Bool :=
  matchAddConstant op || matchAddSExtConstant op || !op.isBinaryOperator

/-- The branch of the IntToPtr case for an entry `op` that is a plain value or an add with
a constant (lines 999-1021).  The result is `none` where `findAliases` is undefined. -/
def collectConstraintsForIntToPtrValue (ops : NodeFactoryOps) (SAP : StackAccessPass)
    (dstIndex : NodeIndex) (self : Andersen) (op : LLValue) : Option Andersen :=
  let srcIndex := valueNodeOrCreate ops self op.id
  let objNode := srcIndex.2.nodeFactory.getObjectNodeFor op.id
  let r : Option (NodeIndex × Andersen) :=
    if objNode = srcIndex.2.nodeFactory.InvalidIndex ∧ op.id ∉ srcIndex.2.handledAliases then
      let created := createObjectNodeDummy ops srcIndex.2 op.id
      (findAliases ops SAP created.2 op true 3).map (fun r => (created.1, r.2))
    else some (objNode, srcIndex.2)
  r.map (fun r =>
    let a :=
      if op.id ∉ r.2.handledAliases then
        addConstraint (insertHandledAlias r.2 op.id) .ADDR_OF srcIndex.1 r.1
      else r.2
    addConstraint a .COPY dstIndex srcIndex.1)

/-- The branch of the IntToPtr case for an entry whose operand 0, `Base`, is itself a
`BinaryOperator` (lines 1029-1046).  The result is `none` where `findAliases` is
undefined. -/
def collectConstraintsForIntToPtrBase (ops : NodeFactoryOps) (SAP : StackAccessPass)
    (dstIndex : NodeIndex) (self : Andersen) (Base : LLValue) : Option Andersen :=
  let srcIndex := valueNodeOrCreate ops self Base.id
  let objNode := objectNodeOrCreateDummy ops srcIndex.2 Base.id
  let a := addConstraint objNode.2 .ADDR_OF srcIndex.1 objNode.1
  let a := addConstraint a .COPY dstIndex srcIndex.1
  (findAliases ops SAP a Base true 3).map (fun r => r.2)

/-- The body of the loop over `opList` in the IntToPtr case (lines 978-1058) for an entry
`op` that is not a select instruction; `inst` is the identity of the inttoptr and
`dstIndex` its value node.  The test of line 1047, which only guards a debug message, is
not represented.  The result is `none` where a step is undefined. -/
def collectConstraintsForIntToPtrOperand (ops : NodeFactoryOps) (MachO : ObjectiveCBinary)
    (ctx : LLVMContext) (SAP : StackAccessPass) (inst : Value) (dstIndex : NodeIndex)
    (self : Andersen) (op : LLValue) : Option Andersen :=
  if op.isConstantInt then
    some (addConstraintsForConstIntToPtr ops MachO ctx self inst op.id op.zext)
  else if intToPtrSourceIsValue op then
    collectConstraintsForIntToPtrValue ops SAP dstIndex self op
  else
    match op.operands with
    | [] => none
    | Base :: _ =>
      if op.isBinaryOperator ∧ Base.isBinaryOperator then
        collectConstraintsForIntToPtrBase ops SAP dstIndex self Base
      else
        some (addConstraint self .COPY dstIndex self.nodeFactory.getUniversalPtrNode)

/-- The loop over `opList` in the IntToPtr case (lines 975-1058): `queue` holds the entries
of `opList` from index `i` on.  A select instruction is replaced by its operands 1 and 2,
which are pushed to the back; every other entry is handled by
`collectConstraintsForIntToPtrOperand`.  Every round removes one entry from the queue, and
`fuel` bounds the number of rounds.  The result is `none` for a select instruction without
its three operands and where a step is undefined. -/
def collectConstraintsForIntToPtrWorklist (ops : NodeFactoryOps) (MachO : ObjectiveCBinary)
    (ctx : LLVMContext) (SAP : StackAccessPass) (inst : Value) (dstIndex : NodeIndex) :
    Nat → List LLValue → Andersen → Option Andersen
  | 0, _, self => some self
  | _ + 1, [], self => some self
  | fuel + 1, op :: rest, self =>
    if op.kind = .Instruction .Select then
      match op.operands with
      | _ :: t :: f :: _ =>
        collectConstraintsForIntToPtrWorklist ops MachO ctx SAP inst dstIndex fuel
          (rest ++ [t, f]) self
      | _ => none
    else
      match collectConstraintsForIntToPtrOperand ops MachO ctx SAP inst dstIndex self op with
      | none => none
      | some a =>
        collectConstraintsForIntToPtrWorklist ops MachO ctx SAP inst dstIndex fuel rest a

/-- The case `Instruction::IntToPtr` of `collectConstraintsForInstruction`, IntraDFAInit.cpp
lines 934-1062.  The worklist gets as many rounds as the operand has values, which is
enough for it to run empty.  The result is `none` for an inttoptr without operand, where a
step is undefined, and where an assertion fails: the inttoptr is not of pointer type, it
has no value node, or the source of a matched ptrtoint has none. -/
def collectConstraintsForIntToPtr (ops : NodeFactoryOps) (MachO : ObjectiveCBinary)
    (ctx : LLVMContext) (SAP : StackAccessPass) (self : Andersen) (inst : LLValue) :
    Option Andersen :=
  let dstIndex := self.nodeFactory.getValueNodeFor inst.id
  if inst.isPointerTy = false then none
  else if dstIndex = self.nodeFactory.InvalidIndex then none
  else
    match inst.operands with
    | [] => none
    | operand :: _ =>
      match matchPtrToInt operand with
      | some srcValue =>
        let srcIndex := self.nodeFactory.getValueNodeFor srcValue.id
        if srcIndex = self.nodeFactory.InvalidIndex then none
        else some (addConstraint self .COPY dstIndex srcIndex)
      | none =>
        match (matchAdd operand).bind (fun lr => matchPtrToInt lr.1) with
        | some srcValue =>
          let srcIndex := self.nodeFactory.getValueNodeFor srcValue.id
          if srcIndex = self.nodeFactory.InvalidIndex then none
          else some (addConstraint self .COPY dstIndex srcIndex)
        | none =>
          collectConstraintsForIntToPtrWorklist ops MachO ctx SAP inst.id dstIndex
            operand.size [operand] self

/-- Embedding of `Andersen::collectConstraintsForInstruction(inst)`, IntraDFAInit.cpp lines
495-1175, for the opcodes `Alloca`, `Call`, `Load`, `Store`, `GetElementPtr`, `PHI`,
`BitCast` and `IntToPtr`; the cases of the other opcodes are the parameter `otherCases`.
The assertions of the Store and IntToPtr cases are represented as their definitions say,
those of the other cases are not. -/
def collectConstraintsForInstruction (ops : NodeFactoryOps) (MachO : ObjectiveCBinary)
    (ctx : LLVMContext) (SAP : StackAccessPass)
    (otherCases : Andersen → LLValue → Option Andersen) (self : Andersen) (inst : LLValue) :
    Option Andersen :=
  match inst.kind with
  | .Instruction .Alloca =>
    let valNode := self.nodeFactory.getValueNodeFor inst.id
    let objNode := createObjectNode ops self inst.id
    some (addConstraint objNode.2 .ADDR_OF valNode objNode.1)
  | .Instruction .Call => some self
  | .Instruction .Load => collectConstraintsForLoad ops MachO ctx self inst
  | .Instruction .Store => collectConstraintsForStore ops MachO ctx SAP self inst
  | .Instruction .GetElementPtr => some self
  | .Instruction .PHI => some (collectConstraintsForPHI ops self inst)
  | .Instruction .BitCast =>
    if inst.isPointerTy then
      match inst.operands with
      | [] => none
      | op :: _ =>
        let srcIndex := self.nodeFactory.getValueNodeFor op.id
        let dstIndex := self.nodeFactory.getValueNodeFor inst.id
        some (addConstraint self .COPY dstIndex srcIndex)
    else some self
  | .Instruction .IntToPtr => collectConstraintsForIntToPtr ops MachO ctx SAP self inst
  | _ => otherCases self inst

/-- The property of node creation that section 4.1 of the spec states, for the node
factories whose sentinel is `invalid`: `createValueNode` returns a valid index, which the
value node lookup of the key returns from then on; it leaves the sentinel alone, and every
value that had a value node keeps it. -/
def NodeFactoryOps.CreatesValueNodes (ops : NodeFactoryOps) (invalid : NodeIndex) : Prop :=
  ∀ (nf : AndersNodeFactory) (v : Value), nf.InvalidIndex = invalid →
    (ops.createValueNode nf v).2.getValueNodeFor v = (ops.createValueNode nf v).1 ∧
    (ops.createValueNode nf v).1 ≠ invalid ∧
    (ops.createValueNode nf v).2.InvalidIndex = invalid ∧
    ∀ x, nf.getValueNodeFor x ≠ invalid →
      (ops.createValueNode nf v).2.getValueNodeFor x = nf.getValueNodeFor x

/-- A Mach-O binary for the examples: no address holds a value, a string, an instance
variable, a selector reference or a `CFString`, and no address lies in a named section. -/
def exampleMachO : ObjectiveCBinary where
  getValue := fun _ => (false, 0)
  isIVAR := fun _ => false
  getString := fun _ => ""
  getRAWData := fun _ => 0
  isCFString := fun _ => false
  getSectionName := fun _ => ""
  isSelectorRef := fun _ => false

/-- A context for the examples: the constant with the value `n` has the identity
`1000000 + n`, the string constant `s` the identity `2000000 + s.length`. -/
def exampleContext : LLVMContext where
  constantInt64 := fun n => 1000000 + n
  constantString := fun s => 2000000 + s.length

/-- A stack access analysis for the examples that has found no stack access. -/
def exampleSAP : StackAccessPass where
  getOffsets := fun _ => none
  getOffsetValues := fun _ => none
  runOnFunction := fun _ => (fun _ => none, fun _ => none)

/-- The instruction `%50 = phi i8* [ %51, .. ], [ %52, .. ]`, a pointer-typed PHI node with
two pointer-typed arguments of the function as incoming values. -/
def pointerPHI : LLValue :=
  .mk 50 (.Instruction .PHI) true [.mk 51 .Argument true [], .mk 52 .Argument true []]

/-- The instruction `%53 = phi i64 [ %54, .. ], [ %55, .. ]`, a PHI node of integer type. -/
def integerPHI : LLValue :=
  .mk 53 (.Instruction .PHI) false [.mk 54 .Argument false [], .mk 55 .Argument false []]

/-- The address `%61 = inttoptr i64 %62 to i64*`, with `%62` an argument of the function. -/
def loadAddress : LLValue :=
  .mk 61 (.Instruction .IntToPtr) true [.mk 62 .Argument false []]

/-- The instruction `%60 = load i64, i64* %61`. -/
def loadInstruction : LLValue :=
  .mk 60 (.Instruction .Load) false [loadAddress]

/-- Embedding of `AndersenInit::getType(V, Typename)`, IntraDFAInit.cpp lines 338-344: the
returned flag and the contents of the reference argument `Typename` after the call.  The
key `V` is searched as it is given. -/
def getType (self : Andersen) (V : Value) (Typename : List String) : Bool × List String :=
  match self.ObjectTypes.lookup V with
  | none => (false, Typename)
  | some types => (true, types)

/-- An analysis object with recorded types: the location 8 is known as `NSObject`. -/
def typedAnalysis : Andersen :=
  { exampleAnalysis with ObjectTypes := [(8, ["NSObject"])] }

/-- Node creation as in `exampleOps`, except that the abstract location of the value 20 is
the value 8. -/
def aliasingOps : NodeFactoryOps :=
  { exampleOps with getAbstractLocation := fun _ v => if v = 20 then 8 else v }


/-- The property of object-node creation that section 4.1 of the spec states, for the node
factories whose sentinel is `invalid`: `createObjectNode` and `createObjectNodeDummy` return
a valid index and leave the sentinel, the value node of every value and the object node of
every value that had one as they are; the object node lookup of the key returns the index
of `createObjectNode` from then on; and `createValueNode` leaves the object node of every
value as it is. -/
def NodeFactoryOps.CreatesObjectNodes (ops : NodeFactoryOps) (invalid : NodeIndex) : Prop :=
  ∀ (nf : AndersNodeFactory) (v : Value), nf.InvalidIndex = invalid →
    ((ops.createObjectNode nf v).2.getObjectNodeFor v = (ops.createObjectNode nf v).1 ∧
      (ops.createObjectNode nf v).1 ≠ invalid ∧
      (ops.createObjectNode nf v).2.InvalidIndex = invalid ∧
      (∀ x, (ops.createObjectNode nf v).2.getValueNodeFor x = nf.getValueNodeFor x) ∧
      ∀ x, nf.getObjectNodeFor x ≠ invalid →
        (ops.createObjectNode nf v).2.getObjectNodeFor x = nf.getObjectNodeFor x) ∧
    ((ops.createObjectNodeDummy nf v).1 ≠ invalid ∧
      (ops.createObjectNodeDummy nf v).2.InvalidIndex = invalid ∧
      (∀ x, (ops.createObjectNodeDummy nf v).2.getValueNodeFor x = nf.getValueNodeFor x) ∧
      ∀ x, nf.getObjectNodeFor x ≠ invalid →
        (ops.createObjectNodeDummy nf v).2.getObjectNodeFor x = nf.getObjectNodeFor x) ∧
    ∀ x, (ops.createValueNode nf v).2.getObjectNodeFor x = nf.getObjectNodeFor x

/-- Node creation for the examples with separate index ranges: a value without value node
gets the node `100 + 4 v`, a value without object node the node `102 + 4 v`, and the
lookups of the factory are extended by the new node; a value that has the node already
keeps it. -/
def spacedOps : NodeFactoryOps where
  createValueNode := fun nf v =>
    if nf.getValueNodeFor v = nf.InvalidIndex then
      (100 + 4 * v,
        { nf with
          getValueNodeFor := fun x => if x = v then 100 + 4 * v else nf.getValueNodeFor x
          getValueForNode := fun n =>
            if n = 100 + 4 * v then some v else nf.getValueForNode n })
    else (nf.getValueNodeFor v, nf)
  createObjectNode := fun nf v =>
    if nf.getObjectNodeFor v = nf.InvalidIndex then
      (102 + 4 * v,
        { nf with
          getObjectNodeFor := fun x => if x = v then 102 + 4 * v else nf.getObjectNodeFor x
          getValueForNode := fun n =>
            if n = 102 + 4 * v then some v else nf.getValueForNode n })
    else (nf.getObjectNodeFor v, nf)
  createObjectNodeDummy := fun nf v =>
    if nf.getObjectNodeFor v = nf.InvalidIndex then
      (102 + 4 * v,
        { nf with
          getObjectNodeFor := fun x => if x = v then 102 + 4 * v else nf.getObjectNodeFor x
          getValueForNode := fun n =>
            if n = 102 + 4 * v then some v else nf.getValueForNode n })
    else (nf.getObjectNodeFor v, nf)
  getAbstractLocation := fun _ v => v
  getVarargNodeFor := fun nf _ => nf.InvalidIndex


/-- The analysis object `t` continues `s`: its constraints are those of `s`, in their
order, followed by further constraints, each of which satisfies `P`. -/
def Appends (P : AndersConstraint → Prop) (s t : Andersen) : Prop :=
  ∃ more, t.constraints = s.constraints ++ more ∧ ∀ c ∈ more, P c

/-- The node factory of `t` has the sentinel `invalid`, and every value that has a value
node in `s` has the same value node in `t`. -/
def KeepsValueNodes (invalid : NodeIndex) (s t : Andersen) : Prop :=
  t.nodeFactory.InvalidIndex = invalid ∧
    ∀ x, s.nodeFactory.getValueNodeFor x ≠ invalid →
      t.nodeFactory.getValueNodeFor x = s.nodeFactory.getValueNodeFor x

/-- The instruction `store i64 5, i64* %72`, with the argument `%72` of the function as
address. -/
def smallConstantStore : LLValue :=
  .mk 73 (.Instruction .Store) false
    [.mk 74 (.ConstantInt 5 64) false [], .mk 72 .Argument true []]

/-- The instruction `store i64 4294967400, i64* %72`, with the argument `%72` of the
function as address. -/
def largeConstantStore : LLValue :=
  .mk 75 (.Instruction .Store) false
    [.mk 76 (.ConstantInt 4294967400 64) false [], .mk 72 .Argument true []]

/-- The instruction `store i64 4294967400, i64* %78`, with
`%78 = getelementptr i64, i64* %72, i64 1` as address. -/
def gepStore : LLValue :=
  .mk 77 (.Instruction .Store) false
    [.mk 76 (.ConstantInt 4294967400 64) false [],
      .mk 78 (.Instruction .GetElementPtr) true
        [.mk 72 .Argument true [], .mk 79 (.ConstantInt 1 64) false []]]


/-- The conversion of an integer to `int64_t`: the value modulo 2^64 in the range from
-2^63 to 2^63 - 1. -/
def toInt64 (x : Int) : Int :=
  (x + 9223372036854775808) % 18446744073709551616 - 9223372036854775808

/-- The conversion of an integer to `int`: the value modulo 2^32 in the range from -2^31
to 2^31 - 1. -/
def toInt32 (x : Int) : Int :=
  (x + 2147483648) % 4294967296 - 2147483648

/-- The value of the expression `-1U`: the negation of 1 in `unsigned int`, modulo 2^32. -/
def minusOneUnsigned : Int := (0 - 1) % 4294967296

/-- The condition `StackSize != -1U` of `addConstraintsForCall` (line 1287) for a
`StackSize` of type `int64_t`: the right operand is converted to `int64_t`, which holds
every value of `unsigned int`. -/
def stackSizeIsSet (StackSize : Int) : Bool :=
  decide (StackSize ≠ toInt64 minusOneUnsigned)

/-- What `addConstraintsForCall(Inst, F)` and the functions it calls ask of
`DetectParametersPass` and `StackAccessPass` (not among the sources) and of the use lists
of the IR, for the call instruction `Inst` and the callee `F` at hand: `Inst`, the name of
`F`, the sets of pairs `getParameterStackOffsets(F)`, `getParameterRegisterIndexes(F)` and
`getReturnRegisterIndexes(F)` in iteration order, `getStackPointerValue(Inst)`, the sets
`getRegisterValuesBeforeCall(i, Inst)` and `getRegisterValuesAfterCall(i, Inst)` in
iteration order, the map `OffsetValueListMap_param` that the static
`StackAccessPass::runOnFunction` fills for the function of a parameter pair (keys in
iteration order, a null entry as `none`), and for a value the users of its uses from
`use_begin()` to `use_end()`. -/
structure CallSite where
  Inst : Value
  name : String
  getParameterStackOffsets : List (Int × LLValue)
  getStackPointerValue : Int
  getParameterRegisterIndexes : List (Int × LLValue)
  getReturnRegisterIndexes : List (Int × LLValue)
  getRegisterValuesBeforeCall : Int → List LLValue
  getRegisterValuesAfterCall : Int → List Value
  runOnFunction : Int × LLValue → List (Int × Option (List Value))
  users : Value → List LLValue

/-- The first part of `findSetStackParameterInstruction` (lines 1464-1479): `Address` is
operand 0 of the `IntToPtr` instruction that is the address operand of the load or store
`Parameter.second`, and null (`none`) when there is no such instruction. -/
def stackParameterAddress (Parameter : Int × LLValue) : Option LLValue :=
  let AddressPtr :=
    if Parameter.2.kind = .Instruction .Load then Parameter.2.operands.head?
    else if Parameter.2.kind = .Instruction .Store then Parameter.2.operands.get? 1
    else none
  match AddressPtr with
  | none => none
  | some ap => if ap.kind = .Instruction .IntToPtr then ap.operands.head? else none

/-- The body of the innermost loop of the `CopyInParent` part of
`findSetStackParameterInstruction` (lines 1547-1560), for the user `AI` of a use of the
load.  The result is `none` where the code reads operand 1 of an instruction that has
none, or the first element of an empty `VList2`. -/
def copyInParentAdd (idxB : NodeIndex) (VList2 : List Value) (CopyInParent : Int)
    (a : Andersen) (AI : LLValue) : Option Andersen :=
  if AI.kind ≠ .Instruction .Add then some a
  else
    match AI.operands.get? 1 with
    | none => none
    | some C =>
      if ¬ C.isConstantInt then some a
      else if toInt64 (C.zext % 18446744073709551616) ≠ CopyInParent then some a
      else
        match VList2 with
        | [] => none
        | v2 :: _ =>
          let dst := a.nodeFactory.getValueNodeFor AI.id
          let src := a.nodeFactory.getValueNodeFor v2
          let a := addConstraint a .COPY dst src
          some (addConstraint a .COPY idxB src)

/-- The loops over the uses of the elements of `VList1` in the `CopyInParent` part of
`findSetStackParameterInstruction` (lines 1530-1562): for every element of `VList1`, every
`IntToPtrInst` that uses it, every `LoadInst` that uses that, and every user of the
load. -/
def copyInParentValues (site : CallSite) (idxB : NodeIndex) (VList1 VList2 : List Value)
    (CopyInParent : Int) (a : Andersen) : Option Andersen :=
  VList1.foldlM (fun a V1 =>
    (site.users V1).foldlM (fun a (ItoP : LLValue) =>
      if ItoP.kind = .Instruction .IntToPtr then
        (site.users ItoP.id).foldlM (fun a (LI : LLValue) =>
          if LI.kind = .Instruction .Load then
            (site.users LI.id).foldlM (copyInParentAdd idxB VList2 CopyInParent) a
          else some a) a
      else some a) a) a

/-- The body of the loop over the offsets of the stored value in the `CopyInParent` part of
`findSetStackParameterInstruction` (lines 1519-1563), for the offset `O`. -/
def copyInParentOffset (SAP : StackAccessPass) (site : CallSite) (idxB : NodeIndex)
    (CopyInParent : Int) (a : Andersen) (O : Int) : Option Andersen :=
  let O1 := toInt64 (O + 8)
  let O2 := toInt64 (O + CopyInParent)
  match SAP.getOffsetValues O1 with
  | none => some a
  | some VList1 =>
    match SAP.getOffsetValues O2 with
    | none => some a
    | some VList2 => copyInParentValues site idxB VList1 VList2 CopyInParent a

/-- The `CopyInParent` part of `findSetStackParameterInstruction` (lines 1506-1567): for
every element of `Values`, every `IntToPtr` instruction that uses it and every store that
uses that, the offsets of operand 0 of the store are walked.  The result is `none` where
the code dereferences the entry of `Offsets` for a value without offset list, or reads an
operand that an instruction does not have. -/
def copyInParent (SAP : StackAccessPass) (site : CallSite) (idxB : NodeIndex)
    (Values : List Value) (CopyInParent : Int) (a : Andersen) : Option Andersen :=
  Values.foldlM (fun a V =>
    (site.users V).foldlM (fun a (ItoP : LLValue) =>
      if ItoP.kind = .Instruction .IntToPtr then
        (site.users ItoP.id).foldlM (fun a (S : LLValue) =>
          if S.kind = .Instruction .Store then
            match S.operands.head? with
            | none => none
            | some op0 =>
              match SAP.getOffsets op0.id with
              | some (some offsets) =>
                offsets.foldlM (copyInParentOffset SAP site idxB CopyInParent) a
              | _ => none
          else some a) a
      else some a) a) a

/-- Embedding of `AndersenInit::findSetStackParameterInstruction(CallInst, Parameter,
StackSize, CopyInParent)`, IntraDFAInit.cpp lines 1460-1571: the returned instruction
(`none` for a null pointer) and the analysis object after the call.  Sums of offsets are
taken in `int64_t`.  The result is `none` where the code reaches `llvm_unreachable`, where
`Address` is null at line 1500, and where the `CopyInParent` part is undefined; the
assertions are not represented. -/
def findSetStackParameterInstruction (ops : NodeFactoryOps) (SAP : StackAccessPass)
    (site : CallSite) (self : Andersen) (Parameter : Int × LLValue)
    (StackSize CopyInParent : Int) : Option (Option LLValue × Andersen) :=
  let Offset := toInt64 (Parameter.1 + StackSize)
  match SAP.getOffsetValues Offset with
  | none => some (none, self)
  | some Values =>
    match Values with
    | [] => none
    | first :: _ =>
      match stackParameterAddress Parameter with
      | none => none
      | some Address =>
        let idxA := valueNodeOrCreate ops self first
        let idxB := valueNodeOrCreate ops idxA.2 Address.id
        let a := addConstraint idxB.2 .COPY idxB.1 idxA.1
        let r :=
          if CopyInParent ≠ 0 then copyInParent SAP site idxB.1 Values CopyInParent a
          else some a
        r.map (fun a => (if Address.isInstruction then some Address else none, a))


/-- The innermost loops of `findSetRegisterParameterInstruction` (lines 1637-1648): for
every value `OV_caller` at the offset of the caller and every value `OV_param` at the
offset of the parameter, `COPY(node(OV_param), node(OV_caller))`.  The result is `none`
where the code dereferences a null entry of `OffsetValueListMap_param`. -/
def copyStructMembers (ops : NodeFactoryOps) (paramValues : Option (List Value))
    (callerValues : List Value) (a : Andersen) : Option Andersen :=
  callerValues.foldlM (fun a OV_caller =>
    match paramValues with
    | none => none
    | some params =>
      some (params.foldl (fun a OV_param =>
        let dstIndex2 := valueNodeOrCreate ops a OV_param
        let srcIndex2 := valueNodeOrCreate ops dstIndex2.2 OV_caller
        addConstraint srcIndex2.2 .COPY dstIndex2.1 srcIndex2.1) a)) a

/-- The loops over `OffsetsToFind` and over the offsets of the caller's value in
`findSetRegisterParameterInstruction` (lines 1632-1660); `paramMap` is
`OffsetValueListMap_param` and `callerOffsets` the offset list of the value before the
call.  The sum of the two offsets is converted to `int`. -/
def copyStructOffsets (ops : NodeFactoryOps) (SAP : StackAccessPass)
    (paramMap : List (Int × Option (List Value))) (callerOffsets : List Int)
    (a : Andersen) : Option Andersen :=
  ((paramMap.map (fun e => e.1)).filter (fun O => O ≠ 0)).foldlM (fun a O =>
    callerOffsets.foldlM (fun a O_C =>
      let Find := toInt32 (O_C + O)
      match SAP.getOffsetValues Find with
      | some callerValues =>
        copyStructMembers ops ((paramMap.lookup O).getD none) callerValues a
      | none => some a) a) a

/-- The body of the loop over `Pre` in `findSetRegisterParameterInstruction` (lines
1608-1661), for the value `Pre` that the register holds before the call. -/
def findSetRegisterParameterValue (ops : NodeFactoryOps) (SAP : StackAccessPass)
    (site : CallSite) (Parameter : Int × LLValue) (a : Andersen) (Pre : LLValue) :
    Option Andersen :=
  let dstIndex := valueNodeOrCreate ops a Parameter.2.id
  let srcIndex := valueNodeOrCreate ops dstIndex.2 Pre.id
  let a := addConstraint srcIndex.2 .COPY dstIndex.1 srcIndex.1
  match SAP.getOffsets Pre.id with
  | none => some a
  | some none => some a
  | some (some callerOffsets) =>
    let r :=
      if callerOffsets.length ≠ 0 then
        let q := getPointsToSet a Pre.id []
        if q.ptsSet.length = 0 then
          let valIdx := q.self.nodeFactory.getValueNodeFor Pre.id
          let objIdx := createObjectNodeDummy ops q.self Pre.id
          let a := addConstraint objIdx.2 .ADDR_OF valIdx objIdx.1
          if Pre.id ∉ a.handledAliases then
            (findAliases ops SAP a Pre true 3).map (fun r => r.2)
          else some a
        else some q.self
      else some a
    r.bind (copyStructOffsets ops SAP (site.runOnFunction Parameter) callerOffsets)

/-- Embedding of `AndersenInit::findSetRegisterParameterInstruction(CallInst, Parameter)`,
IntraDFAInit.cpp lines 1573-1662; the function returns a null pointer, so the result is
the analysis object after the call, and `none` where a step is undefined.  The lock and
the assertions are not represented. -/
def findSetRegisterParameterInstruction (ops : NodeFactoryOps) (SAP : StackAccessPass)
    (site : CallSite) (self : Andersen) (Parameter : Int × LLValue) : Option Andersen :=
  (site.getRegisterValuesBeforeCall Parameter.1).foldlM
    (findSetRegisterParameterValue ops SAP site Parameter) self

/-- The loop over the stack parameters in `addConstraintsForCall` (lines 1281-1291). -/
def addConstraintsForCallStack (ops : NodeFactoryOps) (SAP : StackAccessPass)
    (site : CallSite) (self : Andersen) : Option Andersen :=
  let S := site.getParameterStackOffsets
  if S.length ≠ 0 then
    let StackSize := toInt64 site.getStackPointerValue
    S.foldlM (fun a PA =>
      if stackSizeIsSet StackSize then
        (findSetStackParameterInstruction ops SAP site a PA StackSize 0).map (fun r => r.2)
      else some a) self
  else some self

/-- The loop over the return registers in `addConstraintsForCall` (lines 1300-1320).  The
result is `none` where the code reads operand 0 of an instruction that has none. -/
def addConstraintsForCallReturn (ops : NodeFactoryOps) (site : CallSite) (self : Andersen) :
    Option Andersen :=
  site.getReturnRegisterIndexes.foldlM (fun a Ret =>
    (site.getRegisterValuesAfterCall Ret.1).foldlM (fun a P =>
      match Ret.2.operands.head? with
      | none => none
      | some op0 =>
        let srcIndex := valueNodeOrCreate ops a op0.id
        let dstIndex := valueNodeOrCreate ops srcIndex.2 P
        some (addConstraint dstIndex.2 .COPY dstIndex.1 srcIndex.1)) a) self

/-- Embedding of `AndersenInit::addConstraintsForCall(Inst, F)`, IntraDFAInit.cpp lines
1259-1326; `containtsEdge` is the answer of `CallGraph->containtsEdge(Inst, name)` for the
call graph given by the calls of `addCallEdge` made so far.  The result is `none` where a
step is undefined. -/
def addConstraintsForCall (ops : NodeFactoryOps) (SAP : StackAccessPass)
    (containtsEdge : List (Value × String) → Value → String → Bool) (site : CallSite)
    (self : Andersen) : Option Andersen :=
  if containtsEdge self.CallGraph site.Inst site.name then some self
  else
    let a := { self with CallGraph := self.CallGraph ++ [(site.Inst, site.name)] }
    (addConstraintsForCallStack ops SAP site a).bind fun a =>
      (site.getParameterRegisterIndexes.foldlM
        (findSetRegisterParameterInstruction ops SAP site) a).bind
        (addConstraintsForCallReturn ops site)


/-- The parameter access `%301 = load i64, i64* %302` of a callee, with
`%302 = inttoptr i64 %303 to i64*` and `%303 = add i64 %304, 8`, `%304` being the stack
pointer on entry. -/
def stackParameterLoad : LLValue :=
  .mk 301 (.Instruction .Load) false
    [.mk 302 (.Instruction .IntToPtr) true
      [.mk 303 (.Instruction .Add) false
        [.mk 304 .Argument false [], .mk 305 (.ConstantInt 8 64) false []]]]

/-- A stack access analysis of a caller for the examples: the value 210 is stored at the
stack offsets 7 and 72, the value 220 at the offset 40 and the value 230 at the offset 48;
the value 213 is the stack address with the offset 32. -/
def exampleStackSAP : StackAccessPass where
  getOffsets := fun v => if v = 213 then some (some [32]) else none
  getOffsetValues := fun o =>
    if o = 7 then some [210] else if o = 72 then some [210]
    else if o = 40 then some [220] else if o = 48 then some [230] else none
  runOnFunction := fun _ => (fun _ => none, fun _ => none)

/-- The users in the caller of the examples: `%211 = inttoptr i64 %210 to i64*` uses 210
and is the address of `store i64 %213, i64* %211`; `%221 = inttoptr i64 %220 to i64*`
uses 220 and is loaded by `%222 = load i64, i64* %221`, which is used by
`%223 = add i64 %222, 16`. -/
def exampleUsers (v : Value) : List LLValue :=
  if v = 210 then [.mk 211 (.Instruction .IntToPtr) true [.mk 210 .OtherValue false []]]
  else if v = 211 then
    [.mk 212 (.Instruction .Store) false
      [.mk 213 .OtherValue false [], .mk 211 (.Instruction .IntToPtr) true []]]
  else if v = 220 then [.mk 221 (.Instruction .IntToPtr) true [.mk 220 .OtherValue false []]]
  else if v = 221 then
    [.mk 222 (.Instruction .Load) false [.mk 221 (.Instruction .IntToPtr) true []]]
  else if v = 222 then
    [.mk 223 (.Instruction .Add) false
      [.mk 222 (.Instruction .Load) false [], .mk 224 (.ConstantInt 16 64) false []]]
  else []

/-- The call `call void @callee()` of the examples, the instruction 200: the callee reads
one stack parameter at the offset 8 through `stackParameterLoad`, one parameter from
register 6 through the instruction 320, and returns in register 5 through
`store i64 %311, i64* %312`; before the call register 6 holds the value 250, after the call
register 5 is read as the value 240; the stack pointer value of the call is not known
(-1). -/
def exampleCallSite : CallSite where
  Inst := 200
  name := "callee"
  getParameterStackOffsets := [(8, stackParameterLoad)]
  getStackPointerValue := -1
  getParameterRegisterIndexes := [(6, .mk 320 (.Instruction .Load) false [])]
  getReturnRegisterIndexes :=
    [(5, .mk 310 (.Instruction .Store) false
      [.mk 311 .OtherValue false [], .mk 312 .OtherValue true []])]
  getRegisterValuesBeforeCall := fun i => if i = 6 then [.mk 250 .OtherValue false []] else []
  getRegisterValuesAfterCall := fun i => if i = 5 then [240] else []
  runOnFunction := fun _ => []
  users := exampleUsers

/-- A call graph for the examples: `containtsEdge` holds for the edges that `addCallEdge`
has recorded. -/
def exampleContaintsEdge (g : List (Value × String)) (i : Value) (n : String) : Bool :=
  g.contains (i, n)

/-- The analysis object of the examples in which the pointer-typed instructions 211, 221
and 302 of the caller and the callee have their value nodes. -/
def callerAnalysis : Andersen :=
  (createValueNode spacedOps (createValueNode spacedOps
    (createValueNode spacedOps emptyAnalysis 211).2 221).2 302).2


/-- A constant integer, plain or sign-extended, in the words of the claim: a `ConstantInt`
of any width, or the sign extension of one. -/
def isConstantIntegerOperand (v : LLValue) : Bool :=
  v.isConstantInt ||
    (match matchSExt v with
      | some c => c.isConstantInt
      | none => false)

/-- An add of a value and a constant integer, in the words of the claim: an add one of
whose two operands is a constant integer, plain or sign-extended. -/
def isAddOfValueAndConstant (op : LLValue) : Bool :=
  match matchAdd op with
  | some (l, r) => isConstantIntegerOperand l || isConstantIntegerOperand r
  | none => false

/-- The entries of the IntToPtr case that the claim about the universal pointer singles
out, in the words of the claim: `op` is a binary operator, it is not an add of a value and
a constant integer, plain or sign-extended, and its first operand is not itself a binary
operator. -/
def sourceCannotBeIdentified (op : LLValue) : Bool :=
  op.isBinaryOperator && !isAddOfValueAndConstant op &&
    !(match op.operands.head? with
      | some first => first.isBinaryOperator
      | none => false)

/-- The entries of the IntToPtr case that the amended claim about the universal pointer
singles out: `op` is a binary operator, it is not an add whose second operand is a constant
integer of at most 64 bits, plain or sign-extended, and its first operand is not itself a
binary operator. -/
def sourceIsNotMatched (op : LLValue) : Bool :=
  op.isBinaryOperator && !(matchAddConstant op || matchAddSExtConstant op) &&
    !(match op.operands.head? with
      | some first => first.isBinaryOperator
      | none => false)

/-- The instruction `%85 = inttoptr i64 %86 to i8*` with `%86 = add i64 16, %92`, an add
with the constant as its first operand. -/
def intToPtrOfConstantFirst : LLValue :=
  .mk 85 (.Instruction .IntToPtr) true
    [.mk 86 (.Instruction .Add) false
      [.mk 96 (.ConstantInt 16 64) false [], .mk 92 .Argument false []]]

/-- The instruction `%87 = inttoptr i128 %88 to i8*` with `%88 = add i128 %89, 16`, an add
with a constant of 128 bits. -/
def intToPtrOfWideSum : LLValue :=
  .mk 87 (.Instruction .IntToPtr) true
    [.mk 88 (.Instruction .Add) false
      [.mk 89 .Argument false [], .mk 99 (.ConstantInt 16 128) false []]]

/-- While the value `x` has the valid value node `n`, the step from `s` to `t` keeps the
sentinel and this value node, and every constraint it appends is a `COPY` from `n`. -/
def CopiesFrom (invalid n : NodeIndex) (x : Value) (s t : Andersen) : Prop :=
  s.nodeFactory.InvalidIndex = invalid ∧ s.nodeFactory.getValueNodeFor x = n →
    t.nodeFactory.InvalidIndex = invalid ∧ t.nodeFactory.getValueNodeFor x = n ∧
      Appends (fun c => c.type = .COPY ∧ c.src = n) s t

/-- The instruction `%90 = inttoptr i64 %91 to i8*` with `%91 = mul i64 %92, %93`, a
product of two arguments of the function. -/
def intToPtrOfProduct : LLValue :=
  .mk 90 (.Instruction .IntToPtr) true
    [.mk 91 (.Instruction .OtherBinary) false
      [.mk 92 .Argument false [], .mk 93 .Argument false []]]

/-- The instruction `%94 = inttoptr i64 %95 to i8*` with `%95 = add i64 %92, 16`. -/
def intToPtrOfSum : LLValue :=
  .mk 94 (.Instruction .IntToPtr) true
    [.mk 95 (.Instruction .Add) false
      [.mk 92 .Argument false [], .mk 96 (.ConstantInt 16 64) false []]]


/-- The data that `addConstraintsForConstIntToPtr` lets the constant refer to, stated on
the node factory `nf` of the start of the call: the string constant made of the string that
the binary has at the value stored at the address when that value is not 0, and at the
address itself otherwise, when that string is not empty and the address is not an instance
variable; otherwise the abstract location of `Const`, taken after a dummy object node has
been created for `Const` when `Const` is its own abstract location. -/
def constIntToPtrDataReference (ops : NodeFactoryOps) (MachO : ObjectiveCBinary)
    (ctx : LLVMContext) (nf : AndersNodeFactory) (Const : Value) (zext : Nat) : Value :=
  let stringAddress := if (MachO.getValue zext).2 ≠ 0 then (MachO.getValue zext).2 else zext
  if (MachO.getString stringAddress).length > 0 ∧ MachO.isIVAR zext = false then
    ctx.constantString (MachO.getString stringAddress)
  else if ops.getAbstractLocation nf Const ≠ Const then ops.getAbstractLocation nf Const
  else ops.getAbstractLocation (ops.createObjectNodeDummy nf Const).2 Const

/-- A Mach-O binary for the examples in which the address 4294967400 holds the pointer
4294967500 and the string `hello` lies at 4294967500: there is no string at the address
4294967400 itself, and no instance variable. -/
def indirectStringMachO : ObjectiveCBinary where
  getValue := fun a => if a = 4294967400 then (true, 4294967500) else (false, 0)
  isIVAR := fun _ => false
  getString := fun a => if a = 4294967500 then "hello" else ""
  getRAWData := fun _ => 0
  isCFString := fun _ => false
  getSectionName := fun _ => ""
  isSelectorRef := fun _ => false


/-- Node creation as in `spacedOps`, with the vararg node `101 + 4 f` for the function
`f`. -/
def varargOps : NodeFactoryOps :=
  { spacedOps with getVarargNodeFor := fun _ f => 101 + 4 * f }

/-- The variadic function `declare void @f400(i8* %401, i64 %402, ...)`. -/
def variadicFunction : LLFunction where
  id := 400
  args := [.mk 401 .Argument true [], .mk 402 .Argument false []]
  isVarArg := true

/-- The actuals of a call of the variadic function of the examples: the pointer `%71`, the
integer `%403`, and in the varargs section the pointer `%72` and the integer `%404`. -/
def variadicActuals : List LLValue :=
  [.mk 71 .Argument true [], .mk 403 .Argument false [], .mk 72 .Argument true [],
    .mk 404 .Argument false []]

/-- The analysis object of the examples in which the formal `%401` and the actuals `%71`
and `%72` have their value nodes. -/
def argumentAnalysis : Andersen :=
  (createValueNode spacedOps (createValueNode spacedOps
    (createValueNode spacedOps emptyAnalysis 401).2 71).2 72).2

/-! ## Theorems -/

theorem foldl_getPointsToSetStep (nf : AndersNodeFactory) (s : AndersPtsSet) :
    ∀ acc : List Value, s.foldl (getPointsToSetStep nf) acc = acc ++ valuesOfPtsSet nf s := by
  induction s with
  | nil => intro acc; simp [valuesOfPtsSet]
  | cons n ns ih =>
    intro acc
    rw [List.foldl_cons, ih]
    unfold getPointsToSetStep valuesOfPtsSet
    by_cases h : n = nf.getNullObjectNode
    · simp [h]
    · cases hv : nf.getValueForNode n <;> simp [h, hv, List.filterMap_cons]

theorem getPointsToSet_unknown (self : Andersen) (v : Value) (ptsSet : List Value)
    (h : lookedUpNode self.nodeFactory v = self.nodeFactory.InvalidIndex ∨
      lookedUpNode self.nodeFactory v = self.nodeFactory.getUniversalPtrNode) :
    getPointsToSet self v ptsSet = ⟨false, ptsSet, self⟩ := by
  unfold lookedUpNode at h
  unfold getPointsToSet
  simp only [h, if_true]

theorem getPointsToSet_known (self : Andersen) (v : Value) (ptsSet : List Value)
    (h : ¬ (lookedUpNode self.nodeFactory v = self.nodeFactory.InvalidIndex ∨
      lookedUpNode self.nodeFactory v = self.nodeFactory.getUniversalPtrNode)) :
    getPointsToSet self v ptsSet =
      ⟨true,
        match self.ptsGraph.lookup
            (self.nodeFactory.getMergeTarget (lookedUpNode self.nodeFactory v)) with
        | none => []
        | some s => valuesOfPtsSet self.nodeFactory s,
        self⟩ := by
  unfold lookedUpNode at h ⊢
  unfold getPointsToSet
  simp only [h, if_false]
  split <;> simp_all [foldl_getPointsToSetStep]

theorem lookedUpNode_invalid_iff (nf : AndersNodeFactory) (v : Value) :
    lookedUpNode nf v = nf.InvalidIndex ↔
      (nf.getValueNodeFor v = nf.InvalidIndex ∧ nf.getObjectNodeFor v = nf.InvalidIndex) := by
  unfold lookedUpNode
  by_cases h : nf.getValueNodeFor v = nf.InvalidIndex <;> simp [h]

/-- C1: `getPointsToSet(v, ptsSet)` returns false exactly when `v` has neither a value node
nor an object node, or the node looked up for `v` (value node if present, otherwise object
node) is the universal pointer node; for every other `v` it returns true. -/
theorem getPointsToSet_false_iff_unknown (self : Andersen) (v : Value) (ptsSet : List Value) :
    ((getPointsToSet self v ptsSet).ret = false ↔
      ((self.nodeFactory.getValueNodeFor v = self.nodeFactory.InvalidIndex ∧
          self.nodeFactory.getObjectNodeFor v = self.nodeFactory.InvalidIndex) ∨
        lookedUpNode self.nodeFactory v = self.nodeFactory.getUniversalPtrNode)) ∧
    ((getPointsToSet self v ptsSet).ret = true ↔
      ¬ ((self.nodeFactory.getValueNodeFor v = self.nodeFactory.InvalidIndex ∧
          self.nodeFactory.getObjectNodeFor v = self.nodeFactory.InvalidIndex) ∨
        lookedUpNode self.nodeFactory v = self.nodeFactory.getUniversalPtrNode)) := by
  rw [← lookedUpNode_invalid_iff]
  by_cases h : lookedUpNode self.nodeFactory v = self.nodeFactory.InvalidIndex ∨
      lookedUpNode self.nodeFactory v = self.nodeFactory.getUniversalPtrNode
  · rw [getPointsToSet_unknown self v ptsSet h]
    simp [h]
  · rw [getPointsToSet_known self v ptsSet h]
    simp [h]

/-- C2: whenever `getPointsToSet(v, ptsSet)` returns true, the vector holds exactly the
values of the points-to set of the merge representative of the node of `v`, in iteration
order, without the null object and without members whose value is null; it is empty when
the representative has no entry in `ptsGraph`; the previous contents play no part. -/
theorem getPointsToSet_true_ptsSet (self : Andersen) (v : Value) (ptsSet : List Value)
    (h : (getPointsToSet self v ptsSet).ret = true) :
    (getPointsToSet self v ptsSet).ptsSet =
      match self.ptsGraph.lookup
          (self.nodeFactory.getMergeTarget (lookedUpNode self.nodeFactory v)) with
      | none => []
      | some s =>
        s.filterMap (fun o =>
          if o = self.nodeFactory.getNullObjectNode then none
          else self.nodeFactory.getValueForNode o) := by
  by_cases hu : lookedUpNode self.nodeFactory v = self.nodeFactory.InvalidIndex ∨
      lookedUpNode self.nodeFactory v = self.nodeFactory.getUniversalPtrNode
  · rw [getPointsToSet_unknown self v ptsSet hu] at h
    simp at h
  · rw [getPointsToSet_known self v ptsSet hu]
    rfl

/-- Witness of C2: the value 10 of the example analysis, queried with a vector that is not
empty, yields the values 20 and 21 of the objects 8 and 9 (the null object 3 is left out). -/
theorem getPointsToSet_true_ptsSet_witness :
    (getPointsToSet exampleAnalysis 10 [99]).ret = true ∧
      (getPointsToSet exampleAnalysis 10 [99]).ptsSet = [20, 21] :=
  ⟨by decide, (getPointsToSet_true_ptsSet exampleAnalysis 10 [99] (by decide)).trans (by decide)⟩

/-- C3: `getPointsToSet` leaves the analysis object (points-to graph, node factory with its
merge relation and node tables, constraint store) unchanged, so no entry is inserted into
the points-to graph, and a second call with the same `v` returns the same flag and the
same set, be it on the vector left by the first call or on a vector with the contents the
first call started from. -/
theorem getPointsToSet_readonly (self : Andersen) (v : Value) (ptsSet : List Value) :
    (getPointsToSet self v ptsSet).self = self ∧
    (getPointsToSet self v ptsSet).self.ptsGraph = self.ptsGraph ∧
    (getPointsToSet self v ptsSet).self.nodeFactory = self.nodeFactory ∧
    (getPointsToSet self v ptsSet).self.constraints = self.constraints ∧
    getPointsToSet (getPointsToSet self v ptsSet).self v (getPointsToSet self v ptsSet).ptsSet
      = getPointsToSet self v ptsSet ∧
    (∀ other : List Value,
      getPointsToSet (getPointsToSet self v ptsSet).self v other
        = getPointsToSet self v other) := by
  by_cases hu : lookedUpNode self.nodeFactory v = self.nodeFactory.InvalidIndex ∨
      lookedUpNode self.nodeFactory v = self.nodeFactory.getUniversalPtrNode
  · simp only [getPointsToSet_unknown self v _ hu, and_self, implies_true]
  · simp only [getPointsToSet_known self v _ hu, and_self, implies_true]

/-- C4, counterexample: in the example analysis the value 13 has a node (7) whose
representative has no entry in the points-to graph, the value 11 has a node (5) whose
entry is the empty set, and the two outcomes (flag and returned set) do not differ. -/
theorem getPointsToSet_missing_entry_not_distinguished :
    lookedUpNode exampleAnalysis.nodeFactory 13 ≠ exampleAnalysis.nodeFactory.InvalidIndex ∧
    exampleAnalysis.ptsGraph.lookup
      (exampleAnalysis.nodeFactory.getMergeTarget
        (lookedUpNode exampleAnalysis.nodeFactory 13)) = none ∧
    exampleAnalysis.ptsGraph.lookup
      (exampleAnalysis.nodeFactory.getMergeTarget
        (lookedUpNode exampleAnalysis.nodeFactory 11)) = some [] ∧
    ¬ (((getPointsToSet exampleAnalysis 13 []).ret, (getPointsToSet exampleAnalysis 13 []).ptsSet)
        ≠ ((getPointsToSet exampleAnalysis 11 []).ret,
            (getPointsToSet exampleAnalysis 11 []).ptsSet)) := by
  decide

/-- C4, amended: the flag reports only an unknown value.  For a value whose node exists and
is not the universal pointer node, a representative without an entry in the points-to graph
gives the outcome (true, empty vector), which is also the outcome for a representative whose
entry is the empty set. -/
theorem getPointsToSet_missing_entry_as_empty (self : Andersen) (v w : Value)
    (p q : List Value)
    (hv : ¬ (lookedUpNode self.nodeFactory v = self.nodeFactory.InvalidIndex ∨
      lookedUpNode self.nodeFactory v = self.nodeFactory.getUniversalPtrNode))
    (hw : ¬ (lookedUpNode self.nodeFactory w = self.nodeFactory.InvalidIndex ∨
      lookedUpNode self.nodeFactory w = self.nodeFactory.getUniversalPtrNode))
    (hmiss : self.ptsGraph.lookup
      (self.nodeFactory.getMergeTarget (lookedUpNode self.nodeFactory v)) = none)
    (hempty : self.ptsGraph.lookup
      (self.nodeFactory.getMergeTarget (lookedUpNode self.nodeFactory w)) = some []) :
    (getPointsToSet self v p).ret = true ∧ (getPointsToSet self v p).ptsSet = [] ∧
    (getPointsToSet self w q).ret = true ∧ (getPointsToSet self w q).ptsSet = [] := by
  rw [getPointsToSet_known self v p hv, getPointsToSet_known self w q hw, hmiss, hempty]
  simp [valuesOfPtsSet]

/-- Witness of the amended C4 at the values 13 (no entry) and 11 (empty entry) of the
example analysis, each queried with a vector that is not empty. -/
theorem getPointsToSet_missing_entry_as_empty_witness :
    (getPointsToSet exampleAnalysis 13 [1]).ret = true ∧
    (getPointsToSet exampleAnalysis 13 [1]).ptsSet = [] ∧
    (getPointsToSet exampleAnalysis 11 [2]).ret = true ∧
    (getPointsToSet exampleAnalysis 11 [2]).ptsSet = [] :=
  getPointsToSet_missing_entry_as_empty exampleAnalysis 13 11 [1] [2]
    (by decide) (by decide) (by decide) (by decide)

/-- C5, evaluation at the failing input: the value 12 of the example analysis has the value
node 6, whose merge target is the universal pointer node 0, and `getPointsToSet` returns
true for it, with an empty vector. -/
theorem getPointsToSet_merged_into_universal :
    exampleAnalysis.nodeFactory.getMergeTarget (lookedUpNode exampleAnalysis.nodeFactory 12)
      = exampleAnalysis.nodeFactory.getUniversalPtrNode ∧
    (getPointsToSet exampleAnalysis 12 []).ret = true ∧
    (getPointsToSet exampleAnalysis 12 []).ptsSet = [] := by
  decide

theorem pointsToLoop_iff (loc : Value) (l : List Value) :
    pointsToLoop loc l = true ↔ loc ∈ l := by
  induction l with
  | nil => simp [pointsToLoop]
  | cons p ps ih =>
    unfold pointsToLoop
    by_cases h : p = loc
    · simp [h]
    · have h' : ¬ loc = p := fun e => h e.symm
      simp [h, h', ih]

/-- C6: `pointsTo(v, loc)` returns true if and only if `loc` occurs in the vector that
`getPointsToSet(v, .)` fills when started from an empty vector, and it leaves the analysis
object unchanged. -/
theorem pointsTo_iff_mem_getPointsToSet (self : Andersen) (v loc : Value) :
    ((pointsTo self v loc).1 = true ↔ loc ∈ (getPointsToSet self v []).ptsSet) ∧
    (pointsTo self v loc).2 = self := by
  unfold pointsTo
  refine ⟨pointsToLoop_iff loc _, ?_⟩
  by_cases hu : lookedUpNode self.nodeFactory v = self.nodeFactory.InvalidIndex ∨
      lookedUpNode self.nodeFactory v = self.nodeFactory.getUniversalPtrNode
  · simp only [getPointsToSet_unknown self v _ hu]
  · simp only [getPointsToSet_known self v _ hu]

/-- C7, evaluation at the failing input: the value 99 has no node in the example analysis,
`getPointsToSet` returns false for it, and `pointsTo(99, 20)` returns false. -/
theorem pointsTo_unknown_value_false :
    (getPointsToSet exampleAnalysis 99 []).ret = false ∧
    (pointsTo exampleAnalysis 99 20).1 = false := by
  decide

/-- C8: `addConstraint(Ty, D, S)` appends exactly the constraint (Ty, D, S): the store is
the old store followed by it, the length grows by one, every earlier element keeps its
position and value, and the other members of the analysis object are untouched. -/
theorem addConstraint_appends_one (self : Andersen) (Ty : ConstraintType) (D S : NodeIndex) :
    (addConstraint self Ty D S).constraints = self.constraints ++ [⟨Ty, D, S⟩] ∧
    (addConstraint self Ty D S).constraints.length = self.constraints.length + 1 ∧
    (∀ i, i < self.constraints.length →
      (addConstraint self Ty D S).constraints[i]? = self.constraints[i]?) ∧
    (addConstraint self Ty D S).constraints[self.constraints.length]? = some ⟨Ty, D, S⟩ ∧
    (addConstraint self Ty D S).nodeFactory = self.nodeFactory ∧
    (addConstraint self Ty D S).ptsGraph = self.ptsGraph := by
  refine ⟨rfl, ?_, ?_, ?_, rfl, rfl⟩
  · simp [addConstraint]
  · intro i hi
    simp [addConstraint, List.getElem?_append_left hi]
  · simp [addConstraint]

theorem mem_sortInsert (lt : AndersConstraint → AndersConstraint → Bool)
    (x a : AndersConstraint) (l : List AndersConstraint) :
    a ∈ sortInsert lt x l ↔ a = x ∨ a ∈ l := by
  induction l with
  | nil => simp [sortInsert]
  | cons y ys ih =>
    unfold sortInsert
    by_cases h : lt y x = true
    · rw [if_pos h]
      simp only [List.mem_cons, ih]
      tauto
    · rw [if_neg h]
      simp only [List.mem_cons]

theorem mem_stdSort (lt : AndersConstraint → AndersConstraint → Bool)
    (a : AndersConstraint) (l : List AndersConstraint) :
    a ∈ stdSort lt l ↔ a ∈ l := by
  induction l with
  | nil => simp [stdSort]
  | cons x xs ih => simp [stdSort, mem_sortInsert, ih]

theorem mem_uniqueFrom (a : AndersConstraint) (l : List AndersConstraint) :
    ∀ prev : AndersConstraint, a ∈ uniqueFrom prev l ↔ a = prev ∨ a ∈ l := by
  induction l with
  | nil => intro prev; simp [uniqueFrom]
  | cons y ys ih =>
    intro prev
    unfold uniqueFrom
    by_cases h : prev = y
    · subst h
      simp only [if_true, ih, List.mem_cons]
      tauto
    · simp only [h, if_false, List.mem_cons, ih]

theorem mem_stdUnique (a : AndersConstraint) (l : List AndersConstraint) :
    a ∈ stdUnique l ↔ a ∈ l := by
  cases l with
  | nil => simp [stdUnique]
  | cons x xs => simp [stdUnique, mem_uniqueFrom]

/-- With a strict total order, `b` not below `a` and `c` not below `b` give `c` not below
`a`. -/
theorem notLess_trans (lt : AndersConstraint → AndersConstraint → Bool)
    (htr : ∀ a b c, lt a b = true → lt b c = true → lt a c = true)
    (htri : ∀ a b, lt a b = true ∨ a = b ∨ lt b a = true)
    (a b c : AndersConstraint) (hab : lt b a = false) (hbc : lt c b = false) :
    lt c a = false := by
  cases hca : lt c a with
  | false => rfl
  | true =>
    rcases htri b c with h | h | h
    · have := htr b c a h hca
      simp [hab] at this
    · subst h
      simp [hab] at hca
    · simp [hbc] at h

theorem sortInsert_sorted (lt : AndersConstraint → AndersConstraint → Bool)
    (hirr : ∀ a, lt a a = false)
    (htr : ∀ a b c, lt a b = true → lt b c = true → lt a c = true)
    (htri : ∀ a b, lt a b = true ∨ a = b ∨ lt b a = true)
    (x : AndersConstraint) (l : List AndersConstraint)
    (hl : l.Pairwise (fun a b => lt b a = false)) :
    (sortInsert lt x l).Pairwise (fun a b => lt b a = false) := by
  induction l with
  | nil => simp [sortInsert]
  | cons y ys ih =>
    rw [List.pairwise_cons] at hl
    unfold sortInsert
    by_cases h : lt y x = true
    · rw [if_pos h, List.pairwise_cons]
      refine ⟨?_, ih hl.2⟩
      intro b hb
      rcases (mem_sortInsert lt x b ys).1 hb with e | hmem
      · subst e
        cases hxy : lt b y with
        | false => rfl
        | true =>
          have := htr y b y h hxy
          simp [hirr y] at this
      · exact hl.1 b hmem
    · have hyx : lt y x = false := by simpa using h
      rw [if_neg h, List.pairwise_cons, List.pairwise_cons]
      refine ⟨?_, hl.1, hl.2⟩
      intro b hb
      rcases List.mem_cons.1 hb with e | hmem
      · subst e; exact hyx
      · exact notLess_trans lt htr htri x y b hyx (hl.1 b hmem)

theorem stdSort_sorted (lt : AndersConstraint → AndersConstraint → Bool)
    (hirr : ∀ a, lt a a = false)
    (htr : ∀ a b c, lt a b = true → lt b c = true → lt a c = true)
    (htri : ∀ a b, lt a b = true ∨ a = b ∨ lt b a = true)
    (l : List AndersConstraint) :
    (stdSort lt l).Pairwise (fun a b => lt b a = false) := by
  induction l with
  | nil => simp [stdSort]
  | cons x xs ih => exact sortInsert_sorted lt hirr htr htri x _ ih

theorem uniqueFrom_strict (lt : AndersConstraint → AndersConstraint → Bool)
    (htri : ∀ a b, lt a b = true ∨ a = b ∨ lt b a = true)
    (l : List AndersConstraint) :
    ∀ prev : AndersConstraint, (prev :: l).Pairwise (fun a b => lt b a = false) →
      (uniqueFrom prev l).Pairwise (fun a b => lt a b = true) := by
  induction l with
  | nil => intro prev _; simp [uniqueFrom]
  | cons y ys ih =>
    intro prev hp
    rw [List.pairwise_cons] at hp
    obtain ⟨hprev, htail⟩ := hp
    unfold uniqueFrom
    by_cases h : prev = y
    · subst h
      simp only [if_true]
      apply ih
      rw [List.pairwise_cons]
      exact ⟨fun b hb => hprev b (List.mem_cons_of_mem _ hb), (List.pairwise_cons.1 htail).2⟩
    · simp only [h, if_false, List.pairwise_cons]
      refine ⟨?_, ih y htail⟩
      intro b hb
      have hb' : b ∈ y :: ys := by
        rcases (mem_uniqueFrom b ys y).1 hb with e | hm
        · subst e; exact List.mem_cons_self _ _
        · exact List.mem_cons_of_mem _ hm
      have hnot := hprev b hb'
      rcases htri prev b with h1 | h1 | h1
      · exact h1
      · subst h1
        -- `prev` occurs in `y :: ys` and differs from `y`: it lies in `ys`, after `y`
        rcases List.mem_cons.1 hb' with e | hm
        · exact absurd e h
        · have hy := (List.pairwise_cons.1 htail).1 prev hm
          have hy' := hprev y (List.mem_cons_self _ _)
          rcases htri prev y with h2 | h2 | h2
          · simp [hy] at h2
          · exact absurd h2 h
          · simp [hy'] at h2
      · simp [hnot] at h1

theorem stdUnique_stdSort_strict (lt : AndersConstraint → AndersConstraint → Bool)
    (hirr : ∀ a, lt a a = false)
    (htr : ∀ a b c, lt a b = true → lt b c = true → lt a c = true)
    (htri : ∀ a b, lt a b = true ∨ a = b ∨ lt b a = true)
    (l : List AndersConstraint) :
    (stdUnique (stdSort lt l)).Pairwise (fun a b => lt a b = true) := by
  have hs := stdSort_sorted lt hirr htr htri l
  cases hl : stdSort lt l with
  | nil => simp [stdUnique]
  | cons x xs =>
    rw [hl] at hs
    exact uniqueFrom_strict lt htri xs x hs

theorem constraintLess_irrefl (a : AndersConstraint) : constraintLess a a = false := by
  simp [constraintLess]

theorem constraintLess_trans (a b c : AndersConstraint)
    (hab : constraintLess a b = true) (hbc : constraintLess b c = true) :
    constraintLess a c = true := by
  simp only [constraintLess, decide_eq_true_eq] at *
  unfold NodeIndex at *
  omega

theorem ConstraintType.toNat_injective (s t : ConstraintType) (h : s.toNat = t.toNat) :
    s = t := by
  cases s <;> cases t <;> simp [ConstraintType.toNat] at h <;> rfl

theorem constraintLess_trichotomy (a b : AndersConstraint) :
    constraintLess a b = true ∨ a = b ∨ constraintLess b a = true := by
  by_cases hab : constraintLess a b = true
  · exact Or.inl hab
  by_cases hba : constraintLess b a = true
  · exact Or.inr (Or.inr hba)
  refine Or.inr (Or.inl ?_)
  simp only [constraintLess, decide_eq_true_eq] at hab hba
  obtain ⟨ta, da, sa⟩ := a
  obtain ⟨tb, db, sb⟩ := b
  simp only at hab hba
  unfold NodeIndex at *
  have ht : ta = tb := ConstraintType.toNat_injective _ _ (by omega)
  have hd : da = db := by omega
  have hs : sa = sb := by omega
  subst ht hd hs
  rfl

theorem noStructuralDuplicates_of_strict (lt : AndersConstraint → AndersConstraint → Bool)
    (hirr : ∀ a, lt a a = false) (cs : List AndersConstraint)
    (h : cs.Pairwise (fun a b => lt a b = true)) : NoStructuralDuplicates cs := by
  unfold NoStructuralDuplicates
  refine h.imp ?_
  intro a b hab heq
  obtain ⟨ta, da, sa⟩ := a
  obtain ⟨tb, db, sb⟩ := b
  obtain ⟨h1, h2, h3⟩ := heq
  simp only at h1 h2 h3
  subst h1 h2 h3
  simp [hirr] at hab

/-- C9: with `operator<` a strict total order on constraints, the deduplication step (sort,
unique, erase) leaves a store without two structurally equal constraints, and a constraint
is in the store after the step if and only if it was in the store before it; the other
members of the analysis object are not touched. -/
theorem dedupConstraints_removes_exactly_duplicates
    (lt : AndersConstraint → AndersConstraint → Bool)
    (hirr : ∀ a, lt a a = false)
    (htr : ∀ a b c, lt a b = true → lt b c = true → lt a c = true)
    (htri : ∀ a b, lt a b = true ∨ a = b ∨ lt b a = true)
    (self : Andersen) :
    (dedupConstraints lt self).constraints.Pairwise
      (fun a b => ¬ (a.type = b.type ∧ a.dest = b.dest ∧ a.src = b.src)) ∧
    (∀ c, c ∈ (dedupConstraints lt self).constraints ↔ c ∈ self.constraints) ∧
    (dedupConstraints lt self).nodeFactory = self.nodeFactory ∧
    (dedupConstraints lt self).ptsGraph = self.ptsGraph := by
  refine ⟨?_, ?_, rfl, rfl⟩
  · exact noStructuralDuplicates_of_strict lt hirr _
      (stdUnique_stdSort_strict lt hirr htr htri self.constraints)
  · intro c
    simp [dedupConstraints, mem_stdUnique, mem_stdSort]

/-- Witness of C9: the lexicographic order on (type, dest, src) is a strict total order, and
the store collected for the example module, which holds `ADDR_OF(5, 7)` twice, is
deduplicated by the step. -/
theorem dedupConstraints_removes_exactly_duplicates_witness :
    (∀ a, constraintLess a a = false) ∧
    (∀ a b c, constraintLess a b = true → constraintLess b c = true →
      constraintLess a c = true) ∧
    (∀ a b, constraintLess a b = true ∨ a = b ∨ constraintLess b a = true) ∧
    (dedupConstraints constraintLess
        (collectConstraintsOfModule moduleAnalysis)).constraints.Pairwise
      (fun a b => ¬ (a.type = b.type ∧ a.dest = b.dest ∧ a.src = b.src)) ∧
    (∀ c, c ∈ (dedupConstraints constraintLess
        (collectConstraintsOfModule moduleAnalysis)).constraints ↔
      c ∈ (collectConstraintsOfModule moduleAnalysis).constraints) ∧
    (dedupConstraints constraintLess (collectConstraintsOfModule moduleAnalysis)).nodeFactory =
      (collectConstraintsOfModule moduleAnalysis).nodeFactory ∧
    (dedupConstraints constraintLess (collectConstraintsOfModule moduleAnalysis)).ptsGraph =
      (collectConstraintsOfModule moduleAnalysis).ptsGraph :=
  ⟨constraintLess_irrefl, constraintLess_trans, constraintLess_trichotomy,
    dedupConstraints_removes_exactly_duplicates constraintLess constraintLess_irrefl
      constraintLess_trans constraintLess_trichotomy (collectConstraintsOfModule moduleAnalysis)⟩

theorem addConstraints_constraints (cs : List AndersConstraint) :
    ∀ self : Andersen, (addConstraints self cs).constraints = self.constraints ++ cs := by
  induction cs with
  | nil => intro self; simp [addConstraints]
  | cons c cs ih =>
    intro self
    have h := ih (addConstraint self c.type c.dest c.src)
    unfold addConstraints at h ⊢
    rw [List.foldl_cons, h]
    simp [addConstraint]

theorem runOnModuleRound_atOptimize (optimizeConstraints solveConstraints : Andersen → Andersen)
    (lt : AndersConstraint → AndersConstraint → Bool) (log : RunLog) (f : FunctionRound) :
    (runOnModuleRound optimizeConstraints solveConstraints lt log f).atOptimize =
      log.atOptimize ++ [log.self.constraints ++ f.typeConstraints] := by
  simp [runOnModuleRound, addConstraints_constraints]

theorem foldl_runOnModuleRound_atOptimize
    (optimizeConstraints solveConstraints : Andersen → Andersen)
    (lt : AndersConstraint → AndersConstraint → Bool) (fs : List FunctionRound) :
    ∀ log : RunLog, ∃ more,
      (fs.foldl (runOnModuleRound optimizeConstraints solveConstraints lt) log).atOptimize =
        log.atOptimize ++ more := by
  induction fs with
  | nil => intro log; exact ⟨[], by simp⟩
  | cons f fs ih =>
    intro log
    obtain ⟨more, hmore⟩ := ih (runOnModuleRound optimizeConstraints solveConstraints lt log f)
    refine ⟨(log.self.constraints ++ f.typeConstraints) :: more, ?_⟩
    rw [List.foldl_cons, hmore, runOnModuleRound_atOptimize]
    simp

/-- C10, counterexample: on the module `@G = global [2 x i8*] [i8* @H, i8* @H]`,
`@H = global i8 0` with one function, the only call of `optimizeConstraints` (and, with an
optimizer that leaves the store alone, of `solveConstraints`) happens on a store that holds
the constraint `ADDR_OF(5, 7)` twice. -/
theorem runOnModule_solves_store_with_duplicates :
    (runOnModule (fun a => a) (fun a => a) constraintLess collectConstraintsOfModule
        [⟨[], []⟩] moduleAnalysis).2.atOptimize =
      [[⟨.ADDR_OF, 0, 1⟩, ⟨.STORE, 1, 1⟩, ⟨.ADDR_OF, 2, 3⟩, ⟨.ADDR_OF, 4, 5⟩,
        ⟨.ADDR_OF, 6, 7⟩, ⟨.ADDR_OF, 5, 7⟩, ⟨.ADDR_OF, 5, 7⟩]] ∧
    (runOnModule (fun a => a) (fun a => a) constraintLess collectConstraintsOfModule
        [⟨[], []⟩] moduleAnalysis).2.atSolve =
      [[⟨.ADDR_OF, 0, 1⟩, ⟨.STORE, 1, 1⟩, ⟨.ADDR_OF, 2, 3⟩, ⟨.ADDR_OF, 4, 5⟩,
        ⟨.ADDR_OF, 6, 7⟩, ⟨.ADDR_OF, 5, 7⟩, ⟨.ADDR_OF, 5, 7⟩]] ∧
    ¬ ([⟨.ADDR_OF, 0, 1⟩, ⟨.STORE, 1, 1⟩, ⟨.ADDR_OF, 2, 3⟩, ⟨.ADDR_OF, 4, 5⟩,
        ⟨.ADDR_OF, 6, 7⟩, ⟨.ADDR_OF, 5, 7⟩, ⟨.ADDR_OF, 5, 7⟩] : List AndersConstraint).Pairwise
      (fun a b => ¬ (a.type = b.type ∧ a.dest = b.dest ∧ a.src = b.src)) := by
  refine ⟨by decide, by decide, by decide⟩

/-- C10, amended: `runOnModule` deduplicates at the end of each round of its loop over the
functions, after the calls of `optimizeConstraints` and `solveConstraints` of that round.
The store at the first call of `optimizeConstraints` is what `collectConstraints` left,
followed by the first round's own constraints, as generated; in every round the optimizer
is called on the store left by the previous round followed by the round's own constraints;
and every round ends with a store without two structurally equal constraints. -/
theorem runOnModule_dedup_at_end_of_round
    (optimizeConstraints solveConstraints : Andersen → Andersen)
    (lt : AndersConstraint → AndersConstraint → Bool)
    (hirr : ∀ a, lt a a = false)
    (htr : ∀ a b c, lt a b = true → lt b c = true → lt a c = true)
    (htri : ∀ a b, lt a b = true ∨ a = b ∨ lt b a = true)
    (collectConstraints : Andersen → Andersen) (f : FunctionRound) (fs : List FunctionRound)
    (self : Andersen) :
    (runOnModule optimizeConstraints solveConstraints lt collectConstraints (f :: fs)
        self).2.atOptimize.head? =
      some ((collectConstraints self).constraints ++ f.typeConstraints) ∧
    (∀ (log : RunLog) (g : FunctionRound),
      (runOnModuleRound optimizeConstraints solveConstraints lt log g).atOptimize =
        log.atOptimize ++ [log.self.constraints ++ g.typeConstraints] ∧
      (runOnModuleRound optimizeConstraints solveConstraints lt log g).self.constraints.Pairwise
        (fun a b => ¬ (a.type = b.type ∧ a.dest = b.dest ∧ a.src = b.src))) := by
  constructor
  · obtain ⟨more, hmore⟩ := foldl_runOnModuleRound_atOptimize optimizeConstraints
      solveConstraints lt fs
      (runOnModuleRound optimizeConstraints solveConstraints lt
        ⟨collectConstraints self, [], []⟩ f)
    simp only [runOnModule, List.foldl_cons, hmore, runOnModuleRound_atOptimize]
    simp
  · intro log g
    refine ⟨runOnModuleRound_atOptimize _ _ _ _ _, ?_⟩
    exact noStructuralDuplicates_of_strict lt hirr _
      (stdUnique_stdSort_strict lt hirr htr htri _)

/-- Witness of the amended C10 on the example module, with the lexicographic order and an
optimizer and a solver that leave the analysis object alone. -/
theorem runOnModule_dedup_at_end_of_round_witness :
    (∀ a, constraintLess a a = false) ∧
    (∀ a b c, constraintLess a b = true → constraintLess b c = true →
      constraintLess a c = true) ∧
    (∀ a b, constraintLess a b = true ∨ a = b ∨ constraintLess b a = true) ∧
    (runOnModule (fun a => a) (fun a => a) constraintLess collectConstraintsOfModule
        (⟨[], []⟩ :: []) moduleAnalysis).2.atOptimize.head? =
      some ((collectConstraintsOfModule moduleAnalysis).constraints ++
        (⟨[], []⟩ : FunctionRound).typeConstraints) ∧
    (∀ (log : RunLog) (g : FunctionRound),
      (runOnModuleRound (fun a => a) (fun a => a) constraintLess log g).atOptimize =
        log.atOptimize ++ [log.self.constraints ++ g.typeConstraints] ∧
      (runOnModuleRound (fun a => a) (fun a => a) constraintLess log g).self.constraints.Pairwise
        (fun a b => ¬ (a.type = b.type ∧ a.dest = b.dest ∧ a.src = b.src))) :=
  ⟨constraintLess_irrefl, constraintLess_trans, constraintLess_trichotomy,
    runOnModule_dedup_at_end_of_round (fun a => a) (fun a => a) constraintLess
      constraintLess_irrefl constraintLess_trans constraintLess_trichotomy
      collectConstraintsOfModule ⟨[], []⟩ [] moduleAnalysis⟩

/-- Two lists that are strictly ascending for the same strict order and have the same
members are equal. -/
theorem strictlySorted_ext (lt : AndersConstraint → AndersConstraint → Bool)
    (hirr : ∀ a, lt a a = false)
    (htr : ∀ a b c, lt a b = true → lt b c = true → lt a c = true) :
    ∀ l₁ l₂ : List AndersConstraint,
      l₁.Pairwise (fun a b => lt a b = true) → l₂.Pairwise (fun a b => lt a b = true) →
      (∀ a, a ∈ l₁ ↔ a ∈ l₂) → l₁ = l₂ := by
  intro l₁
  induction l₁ with
  | nil =>
    intro l₂ _ _ hmem
    cases l₂ with
    | nil => rfl
    | cons y ys => exact absurd ((hmem y).2 (List.mem_cons_self _ _)) (List.not_mem_nil _)
  | cons x xs ih =>
    intro l₂ h₁ h₂ hmem
    cases l₂ with
    | nil => exact absurd ((hmem x).1 (List.mem_cons_self _ _)) (List.not_mem_nil _)
    | cons y ys =>
      rw [List.pairwise_cons] at h₁ h₂
      have hxy : x = y := by
        by_contra hne
        have hx : x ∈ ys := by
          rcases List.mem_cons.1 ((hmem x).1 (List.mem_cons_self _ _)) with e | hm
          · exact absurd e hne
          · exact hm
        have hy : y ∈ xs := by
          rcases List.mem_cons.1 ((hmem y).2 (List.mem_cons_self _ _)) with e | hm
          · exact absurd e.symm hne
          · exact hm
        have := htr x y x (h₁.1 y hy) (h₂.1 x hx)
        simp [hirr x] at this
      subst hxy
      congr 1
      apply ih ys h₁.2 h₂.2
      intro a
      constructor
      · intro ha
        rcases List.mem_cons.1 ((hmem a).1 (List.mem_cons_of_mem _ ha)) with e | hm
        · subst e
          have := h₁.1 a ha
          simp [hirr a] at this
        · exact hm
      · intro ha
        rcases List.mem_cons.1 ((hmem a).2 (List.mem_cons_of_mem _ ha)) with e | hm
        · subst e
          have := h₂.1 a ha
          simp [hirr a] at this
        · exact hm

/-- C11: with `operator<` a strict total order, the deduplicated store depends only on the
set of constraints in the store: two stores with the same members are deduplicated to the
identical list, whatever the order and the multiplicity of their elements, and a second
deduplication step changes nothing. -/
theorem dedupConstraints_depends_on_set_only
    (lt : AndersConstraint → AndersConstraint → Bool)
    (hirr : ∀ a, lt a a = false)
    (htr : ∀ a b c, lt a b = true → lt b c = true → lt a c = true)
    (htri : ∀ a b, lt a b = true ∨ a = b ∨ lt b a = true)
    (self other : Andersen)
    (hset : ∀ c, c ∈ self.constraints ↔ c ∈ other.constraints) :
    (dedupConstraints lt self).constraints = (dedupConstraints lt other).constraints ∧
    dedupConstraints lt (dedupConstraints lt self) = dedupConstraints lt self := by
  have key : ∀ l₁ l₂ : List AndersConstraint, (∀ c, c ∈ l₁ ↔ c ∈ l₂) →
      stdUnique (stdSort lt l₁) = stdUnique (stdSort lt l₂) := by
    intro l₁ l₂ h
    apply strictlySorted_ext lt hirr htr _ _
      (stdUnique_stdSort_strict lt hirr htr htri l₁)
      (stdUnique_stdSort_strict lt hirr htr htri l₂)
    intro a
    simp only [mem_stdUnique, mem_stdSort]
    exact h a
  refine ⟨key _ _ hset, ?_⟩
  have h2 := key (stdUnique (stdSort lt self.constraints)) self.constraints
    (by intro c; simp only [mem_stdUnique, mem_stdSort])
  simp only [dedupConstraints, h2]

/-- Witness of C11: the stores `[c, d, c]` and `[d, d, c]` with `c = COPY(4, 5)` and
`d = ADDR_OF(5, 7)` have the same members and are both deduplicated to `[d, c]`. -/
theorem dedupConstraints_depends_on_set_only_witness :
    (dedupConstraints constraintLess
        { exampleAnalysis with
          constraints := [⟨.COPY, 4, 5⟩, ⟨.ADDR_OF, 5, 7⟩, ⟨.COPY, 4, 5⟩] }).constraints =
      (dedupConstraints constraintLess
        { exampleAnalysis with
          constraints := [⟨.ADDR_OF, 5, 7⟩, ⟨.ADDR_OF, 5, 7⟩, ⟨.COPY, 4, 5⟩] }).constraints ∧
    dedupConstraints constraintLess (dedupConstraints constraintLess
        { exampleAnalysis with
          constraints := [⟨.COPY, 4, 5⟩, ⟨.ADDR_OF, 5, 7⟩, ⟨.COPY, 4, 5⟩] }) =
      dedupConstraints constraintLess
        { exampleAnalysis with
          constraints := [⟨.COPY, 4, 5⟩, ⟨.ADDR_OF, 5, 7⟩, ⟨.COPY, 4, 5⟩] } :=
  dedupConstraints_depends_on_set_only constraintLess constraintLess_irrefl
    constraintLess_trans constraintLess_trichotomy
    { exampleAnalysis with
      constraints := [⟨.COPY, 4, 5⟩, ⟨.ADDR_OF, 5, 7⟩, ⟨.COPY, 4, 5⟩] }
    { exampleAnalysis with
      constraints := [⟨.ADDR_OF, 5, 7⟩, ⟨.ADDR_OF, 5, 7⟩, ⟨.COPY, 4, 5⟩] }
    (by intro c; simp only [List.mem_cons, List.mem_singleton, List.not_mem_nil]; tauto)

mutual
theorem addGlobalInitializerConstraintsNDEBUG_eq_reference :
    ∀ (c : Constant) (self : Andersen) (objNode : NodeIndex),
      addGlobalInitializerConstraintsNDEBUG self objNode c =
        { self with constraints := self.constraints ++
            initializerConstraintsReference self.nodeFactory objNode c }
  | .mk id isSingleValueType isPointerTy isNullValue isUndefValue isAggregate operands,
      self, objNode => by
    rw [addGlobalInitializerConstraintsNDEBUG, initializerConstraintsReference]
    cases isSingleValueType <;> cases isPointerTy <;> cases isNullValue <;>
      cases isUndefValue <;>
      simp [addConstraint, addGlobalInitializerOperandsNDEBUG_eq_reference operands self objNode]
theorem addGlobalInitializerOperandsNDEBUG_eq_reference :
    ∀ (cs : List Constant) (self : Andersen) (objNode : NodeIndex),
      addGlobalInitializerOperandsNDEBUG self objNode cs =
        { self with constraints := self.constraints ++
            initializerConstraintsReferenceList self.nodeFactory objNode cs }
  | [], self, objNode => by
    simp [addGlobalInitializerOperandsNDEBUG, initializerConstraintsReferenceList]
  | c :: cs, self, objNode => by
    rw [addGlobalInitializerOperandsNDEBUG, initializerConstraintsReferenceList,
      addGlobalInitializerConstraintsNDEBUG_eq_reference c self objNode,
      addGlobalInitializerOperandsNDEBUG_eq_reference cs _ objNode]
    simp
end

mutual
theorem addGlobalInitializerConstraints_eq_reference :
    ∀ (c : Constant) (self : Andersen) (objNode : NodeIndex),
      addGlobalInitializerConstraints self objNode c =
        if initializerAssertionsHold self.nodeFactory c = true then
          some { self with constraints := self.constraints ++
            initializerConstraintsReference self.nodeFactory objNode c }
        else none
  | .mk id isSingleValueType isPointerTy isNullValue isUndefValue isAggregate operands,
      self, objNode => by
    rw [addGlobalInitializerConstraints, initializerConstraintsReference,
      initializerAssertionsHold]
    by_cases hnode :
        self.nodeFactory.getObjectNodeForConstant id = self.nodeFactory.InvalidIndex
    · cases isSingleValueType <;> cases isPointerTy <;> cases isNullValue <;>
        cases isUndefValue <;> cases isAggregate <;>
        simp [addConstraint, hnode,
          addGlobalInitializerOperands_eq_reference operands self objNode]
    · cases isSingleValueType <;> cases isPointerTy <;> cases isNullValue <;>
        cases isUndefValue <;> cases isAggregate <;>
        simp [addConstraint, hnode,
          addGlobalInitializerOperands_eq_reference operands self objNode]
theorem addGlobalInitializerOperands_eq_reference :
    ∀ (cs : List Constant) (self : Andersen) (objNode : NodeIndex),
      addGlobalInitializerOperands self objNode cs =
        if initializerAssertionsHoldList self.nodeFactory cs = true then
          some { self with constraints := self.constraints ++
            initializerConstraintsReferenceList self.nodeFactory objNode cs }
        else none
  | [], self, objNode => by
    simp [addGlobalInitializerOperands, initializerConstraintsReferenceList,
      initializerAssertionsHoldList]
  | c :: cs, self, objNode => by
    rw [addGlobalInitializerOperands, initializerConstraintsReferenceList,
      initializerAssertionsHoldList,
      addGlobalInitializerConstraints_eq_reference c self objNode]
    by_cases hc : initializerAssertionsHold self.nodeFactory c = true
    · simp only [hc, if_true, Bool.true_and]
      rw [addGlobalInitializerOperands_eq_reference cs _ objNode]
      by_cases hcs : initializerAssertionsHoldList self.nodeFactory cs = true
      · simp [hcs]
      · simp [hcs]
    · simp [hc]
end

mutual
theorem initializerConstraintsReference_dest (nf : AndersNodeFactory) (objNode : NodeIndex) :
    ∀ (c : Constant), ∀ k ∈ initializerConstraintsReference nf objNode c, k.dest = objNode
  | .mk id isSingleValueType isPointerTy isNullValue isUndefValue isAggregate operands => by
    intro k hk
    rw [initializerConstraintsReference] at hk
    cases isSingleValueType <;> cases isPointerTy <;> cases isNullValue <;>
      cases isUndefValue <;> simp at hk <;>
      first
        | exact initializerConstraintsReferenceList_dest nf objNode operands k hk
        | (subst hk; rfl)
theorem initializerConstraintsReferenceList_dest (nf : AndersNodeFactory)
    (objNode : NodeIndex) :
    ∀ (cs : List Constant), ∀ k ∈ initializerConstraintsReferenceList nf objNode cs,
      k.dest = objNode
  | [] => by
    intro k hk
    simp [initializerConstraintsReferenceList] at hk
  | c :: cs => by
    intro k hk
    rw [initializerConstraintsReferenceList, List.mem_append] at hk
    rcases hk with h | h
    · exact initializerConstraintsReference_dest nf objNode c k h
    · exact initializerConstraintsReferenceList_dest nf objNode cs k h
end

/-- C16: where the assertions of `addGlobalInitializerConstraints` hold on the constant
tree `c` (every pointer-typed scalar reached has an object node, every constant reached
that is neither scalar nor null nor undef is an array, a data sequence or a struct),
`addGlobalInitializerConstraints(objNode, c)` returns, and it appends to the store exactly
the constraints of the reference definition on `c` (pointer scalar: `ADDR_OF(objNode,
object node of c)`; other scalar: nothing; non-scalar null value: `COPY(objNode,
NullObject)`; undef aggregate: nothing; other aggregate: the concatenation of the
constraints of its operands in operand order), it changes nothing else, and every emitted
constraint has `objNode` as its destination.  Where an assertion fails there is no
result. -/
theorem addGlobalInitializerConstraints_refines_reference (self : Andersen)
    (objNode : NodeIndex) (c : Constant) :
    (initializerAssertionsHold self.nodeFactory c = true →
      ∃ a, addGlobalInitializerConstraints self objNode c = some a ∧
        a.constraints =
          self.constraints ++ initializerConstraintsReference self.nodeFactory objNode c ∧
        a.nodeFactory = self.nodeFactory ∧
        a.ptsGraph = self.ptsGraph ∧
        ∀ k ∈ initializerConstraintsReference self.nodeFactory objNode c,
          k.dest = objNode) ∧
    (initializerAssertionsHold self.nodeFactory c = false →
      addGlobalInitializerConstraints self objNode c = none) := by
  rw [addGlobalInitializerConstraints_eq_reference c self objNode]
  constructor
  · intro h
    rw [if_pos h]
    exact ⟨_, rfl, rfl, rfl, rfl,
      initializerConstraintsReference_dest self.nodeFactory objNode c⟩
  · intro h
    rw [if_neg (by rw [h]; decide)]

/-- C16 at the initializer of `@g`, the array of two pointers to `@h`, on the analysis that
has an object node for `@h`: two `ADDR_OF(5, 7)` are appended; and on the analysis without
nodes the assertion on the object node fails. -/
theorem addGlobalInitializerConstraints_refines_reference_witness :
    initializerAssertionsHold moduleAnalysis.nodeFactory initializerOfG = true ∧
    (∃ a, addGlobalInitializerConstraints moduleAnalysis 5 initializerOfG = some a ∧
      a.constraints = moduleAnalysis.constraints ++ [⟨.ADDR_OF, 5, 7⟩, ⟨.ADDR_OF, 5, 7⟩]) ∧
    initializerAssertionsHold emptyAnalysis.nodeFactory initializerOfG = false ∧
    addGlobalInitializerConstraints emptyAnalysis 5 initializerOfG = none :=
  ⟨by decide,
    match (addGlobalInitializerConstraints_refines_reference moduleAnalysis 5
      initializerOfG).1 (by decide) with
    | ⟨a, h₁, h₂, _⟩ => ⟨a, h₁, h₂.trans (by decide)⟩,
    by decide,
    (addGlobalInitializerConstraints_refines_reference emptyAnalysis 5 initializerOfG).2
      (by decide)⟩

theorem foldl_collectGlobalNodes_appends (ops : NodeFactoryOps) (globals : List GlobalVariable) :
    ∀ self : Andersen, ∃ more,
      (globals.foldl (collectGlobalNodes ops) self).constraints = self.constraints ++ more := by
  induction globals with
  | nil => intro self; exact ⟨[], by simp⟩
  | cons g gs ih =>
    intro self
    obtain ⟨more, hmore⟩ := ih (collectGlobalNodes ops self g)
    refine ⟨(collectGlobalNodes ops self g).constraints.drop self.constraints.length ++ more,
      ?_⟩
    rw [List.foldl_cons, hmore]
    simp [collectGlobalNodes, addConstraint, createValueNode, createObjectNode]

theorem collectGlobalInitializer_appends (self : Andersen) (g : GlobalVariable) :
    ∃ more, (collectGlobalInitializer self g).constraints = self.constraints ++ more := by
  unfold collectGlobalInitializer
  by_cases h : g.hasDefinitiveInitializer = true
  · simp only [h, if_true]
    rw [addGlobalInitializerConstraintsNDEBUG_eq_reference g.initializer self _]
    exact ⟨_, rfl⟩
  · simp only [h]
    exact ⟨_, rfl⟩

theorem foldl_collectGlobalInitializer_appends (globals : List GlobalVariable) :
    ∀ self : Andersen, ∃ more,
      (globals.foldl collectGlobalInitializer self).constraints = self.constraints ++ more := by
  induction globals with
  | nil => intro self; exact ⟨[], by simp⟩
  | cons g gs ih =>
    intro self
    obtain ⟨more, hmore⟩ := ih (collectGlobalInitializer self g)
    obtain ⟨first, hfirst⟩ := collectGlobalInitializer_appends self g
    refine ⟨first ++ more, ?_⟩
    rw [List.foldl_cons, hmore, hfirst, List.append_assoc]

/-- C12: whatever the module, the first three constraints that `collectConstraints` appends
to the store are `ADDR_OF(UniversalPtr, UniversalObj)`, `STORE(UniversalObj, UniversalObj)`
and `ADDR_OF(NullPtr, NullObject)`, in this order, provided the parts of the function that
are not translated only append to the store, as every translated part does. -/
theorem collectConstraints_seeds_first (ops : NodeFactoryOps)
    (collectionConstraintsForGlobals classesAndFunctions : Andersen → Andersen)
    (hglobals : ∀ a, ∃ more,
      (collectionConstraintsForGlobals a).constraints = a.constraints ++ more)
    (hrest : ∀ a, ∃ more, (classesAndFunctions a).constraints = a.constraints ++ more)
    (globals : List GlobalVariable) (self : Andersen) :
    ∃ more,
      (collectConstraints ops collectionConstraintsForGlobals classesAndFunctions globals
          self).constraints =
        self.constraints ++
          [⟨.ADDR_OF, self.nodeFactory.getUniversalPtrNode,
              self.nodeFactory.getUniversalObjNode⟩,
            ⟨.STORE, self.nodeFactory.getUniversalObjNode,
              self.nodeFactory.getUniversalObjNode⟩,
            ⟨.ADDR_OF, self.nodeFactory.getNullPtrNode,
              self.nodeFactory.getNullObjectNode⟩] ++ more := by
  unfold collectConstraints
  obtain ⟨m₄, h₄⟩ := hrest (globals.foldl collectGlobalInitializer
    (collectionConstraintsForGlobals (globals.foldl (collectGlobalNodes ops)
      (addConstraint (addConstraint (addConstraint self .ADDR_OF
        self.nodeFactory.getUniversalPtrNode self.nodeFactory.getUniversalObjNode)
        .STORE self.nodeFactory.getUniversalObjNode self.nodeFactory.getUniversalObjNode)
        .ADDR_OF self.nodeFactory.getNullPtrNode self.nodeFactory.getNullObjectNode))))
  obtain ⟨m₃, h₃⟩ := foldl_collectGlobalInitializer_appends globals
    (collectionConstraintsForGlobals (globals.foldl (collectGlobalNodes ops)
      (addConstraint (addConstraint (addConstraint self .ADDR_OF
        self.nodeFactory.getUniversalPtrNode self.nodeFactory.getUniversalObjNode)
        .STORE self.nodeFactory.getUniversalObjNode self.nodeFactory.getUniversalObjNode)
        .ADDR_OF self.nodeFactory.getNullPtrNode self.nodeFactory.getNullObjectNode)))
  obtain ⟨m₂, h₂⟩ := hglobals (globals.foldl (collectGlobalNodes ops)
      (addConstraint (addConstraint (addConstraint self .ADDR_OF
        self.nodeFactory.getUniversalPtrNode self.nodeFactory.getUniversalObjNode)
        .STORE self.nodeFactory.getUniversalObjNode self.nodeFactory.getUniversalObjNode)
        .ADDR_OF self.nodeFactory.getNullPtrNode self.nodeFactory.getNullObjectNode))
  obtain ⟨m₁, h₁⟩ := foldl_collectGlobalNodes_appends ops globals
      (addConstraint (addConstraint (addConstraint self .ADDR_OF
        self.nodeFactory.getUniversalPtrNode self.nodeFactory.getUniversalObjNode)
        .STORE self.nodeFactory.getUniversalObjNode self.nodeFactory.getUniversalObjNode)
        .ADDR_OF self.nodeFactory.getNullPtrNode self.nodeFactory.getNullObjectNode)
  refine ⟨m₁ ++ m₂ ++ m₃ ++ m₄, ?_⟩
  simp only [addConstraint] at h₁ h₂ h₃ h₄ ⊢
  rw [h₄, h₃, h₂, h₁]
  simp

/-- Witness of C12: the module with the single global 30, which has no definitive
initializer, collected into the empty analysis object with untranslated parts that do
nothing. -/
theorem collectConstraints_seeds_first_witness :
    ∃ more,
      (collectConstraints exampleOps (fun a => a) (fun a => a)
          [⟨30, false, initializerOfH⟩] emptyAnalysis).constraints =
        emptyAnalysis.constraints ++
          [⟨.ADDR_OF, emptyAnalysis.nodeFactory.getUniversalPtrNode,
              emptyAnalysis.nodeFactory.getUniversalObjNode⟩,
            ⟨.STORE, emptyAnalysis.nodeFactory.getUniversalObjNode,
              emptyAnalysis.nodeFactory.getUniversalObjNode⟩,
            ⟨.ADDR_OF, emptyAnalysis.nodeFactory.getNullPtrNode,
              emptyAnalysis.nodeFactory.getNullObjectNode⟩] ++ more :=
  collectConstraints_seeds_first exampleOps (fun a => a) (fun a => a)
    (fun a => ⟨[], by simp⟩) (fun a => ⟨[], by simp⟩) [⟨30, false, initializerOfH⟩]
    emptyAnalysis

/-- C13, evaluation at the failing input: on a module without globals the store collected
into the empty analysis object consists of the three seeds; the least assignment that
satisfies them gives the universal pointer 0 the set {1} and the null pointer 2 the set
{3}, so the universal object 1 is in the set of the universal pointer, but it is not in its
own set: `STORE(1, 1)` constrains only the members of the set of node 1, and there are
none. -/
theorem seeds_leave_universalObj_set_empty :
    (collectConstraints exampleOps (fun a => a) (fun a => a) [] emptyAnalysis).constraints =
      [⟨.ADDR_OF, 0, 1⟩, ⟨.STORE, 1, 1⟩, ⟨.ADDR_OF, 2, 3⟩] ∧
    IsLeastSolution [⟨.ADDR_OF, 0, 1⟩, ⟨.STORE, 1, 1⟩, ⟨.ADDR_OF, 2, 3⟩]
      (fun n o => (n = 0 ∧ o = 1) ∨ (n = 2 ∧ o = 3)) ∧
    (fun n o : NodeIndex => (n = 0 ∧ o = 1) ∨ (n = 2 ∧ o = 3)) 0 1 ∧
    ¬ (fun n o : NodeIndex => (n = 0 ∧ o = 1) ∨ (n = 2 ∧ o = 3)) 1 1 := by
  refine ⟨by decide, ⟨?_, ?_⟩, by simp, by simp⟩
  · intro c hc
    simp only [List.mem_cons, List.mem_singleton, List.not_mem_nil, or_false] at hc
    rcases hc with rfl | rfl | rfl <;> simp [Satisfies]
  · intro q hq n o hno
    have h₁ := hq ⟨.ADDR_OF, 0, 1⟩ (by simp)
    have h₂ := hq ⟨.ADDR_OF, 2, 3⟩ (by simp)
    simp only [Satisfies] at h₁ h₂
    rcases hno with ⟨rfl, rfl⟩ | ⟨rfl, rfl⟩
    · exact h₁
    · exact h₂

/-- C14, evaluation at the failing input: for the module whose only global, the value 30,
has no definitive initializer, the collected store is the three seeds followed by
`ADDR_OF(160, 161)` and `COPY(161, 1)`, where 160 and 161 are the value node and the object
node of the global; in the least assignment that satisfies these constraints the set of the
object node 161 is empty, so the universal object 1 is not in it. -/
theorem global_without_initializer_set_empty :
    (collectConstraints exampleOps (fun a => a) (fun a => a)
        [⟨30, false, initializerOfH⟩] emptyAnalysis).constraints =
      [⟨.ADDR_OF, 0, 1⟩, ⟨.STORE, 1, 1⟩, ⟨.ADDR_OF, 2, 3⟩, ⟨.ADDR_OF, 160, 161⟩,
        ⟨.COPY, 161, 1⟩] ∧
    IsLeastSolution
      [⟨.ADDR_OF, 0, 1⟩, ⟨.STORE, 1, 1⟩, ⟨.ADDR_OF, 2, 3⟩, ⟨.ADDR_OF, 160, 161⟩,
        ⟨.COPY, 161, 1⟩]
      (fun n o => (n = 0 ∧ o = 1) ∨ (n = 2 ∧ o = 3) ∨ (n = 160 ∧ o = 161)) ∧
    ¬ (fun n o : NodeIndex => (n = 0 ∧ o = 1) ∨ (n = 2 ∧ o = 3) ∨ (n = 160 ∧ o = 161))
      161 1 := by
  refine ⟨by decide, ⟨?_, ?_⟩, by simp⟩
  · intro c hc
    simp only [List.mem_cons, List.mem_singleton, List.not_mem_nil, or_false] at hc
    rcases hc with rfl | rfl | rfl | rfl | rfl <;> simp [Satisfies]
  · intro q hq n o hno
    have h₁ := hq ⟨.ADDR_OF, 0, 1⟩ (by simp)
    have h₂ := hq ⟨.ADDR_OF, 2, 3⟩ (by simp)
    have h₃ := hq ⟨.ADDR_OF, 160, 161⟩ (by simp)
    simp only [Satisfies] at h₁ h₂ h₃
    rcases hno with ⟨rfl, rfl⟩ | ⟨rfl, rfl⟩ | ⟨rfl, rfl⟩
    · exact h₁
    · exact h₂
    · exact h₃

theorem mem_ptsOf (P : List (NodeIndex × NodeIndex)) (n x : NodeIndex) :
    x ∈ ptsOf P n ↔ (n, x) ∈ P := by
  unfold ptsOf
  simp only [List.mem_map, List.mem_filter, decide_eq_true_eq]
  constructor
  · rintro ⟨⟨a, b⟩, ⟨hm, ha⟩, hb⟩
    simp only at ha hb
    subst ha hb
    exact hm
  · intro h
    exact ⟨(n, x), ⟨h, rfl⟩, rfl⟩

theorem insertPair_extends (P : List (NodeIndex × NodeIndex)) (p : NodeIndex × NodeIndex) :
    P <+: insertPair P p := by
  unfold insertPair
  by_cases h : p ∈ P
  · rw [if_pos h]
  · rw [if_neg h]; exact List.prefix_append _ _

theorem mem_insertPair_self (P : List (NodeIndex × NodeIndex)) (p : NodeIndex × NodeIndex) :
    p ∈ insertPair P p := by
  unfold insertPair
  by_cases h : p ∈ P
  · rw [if_pos h]; exact h
  · rw [if_neg h]; simp

theorem insertPair_invariant (N : List NodeIndex) (q : NodeIndex → NodeIndex → Prop)
    (P : List (NodeIndex × NodeIndex)) (p : NodeIndex × NodeIndex)
    (hP : SolverInvariant N q P) (hp : p.1 ∈ N ∧ p.2 ∈ N ∧ q p.1 p.2) :
    SolverInvariant N q (insertPair P p) := by
  unfold insertPair
  by_cases h : p ∈ P
  · rw [if_pos h]; exact hP
  · rw [if_neg h]
    refine ⟨?_, ?_⟩
    · exact List.Nodup.append hP.1 (List.nodup_singleton p)
        (by simpa [List.disjoint_singleton] using h)
    · intro r hr
      rcases List.mem_append.1 hr with h₁ | h₁
      · exact hP.2 r h₁
      · rw [List.mem_singleton] at h₁
        subst h₁
        exact hp

/-- A fold whose steps only extend the list extends the list. -/
theorem foldl_extends {β : Type} (f : List (NodeIndex × NodeIndex) → β → List (NodeIndex × NodeIndex))
    (hf : ∀ Q b, Q <+: f Q b) (l : List β) :
    ∀ init, init <+: l.foldl f init := by
  induction l with
  | nil => intro init; exact List.prefix_refl _
  | cons b bs ih =>
    intro init
    rw [List.foldl_cons]
    exact (hf init b).trans (ih _)

/-- A fold preserves what each of its steps preserves. -/
theorem foldl_preserves {β : Type} (I : List (NodeIndex × NodeIndex) → Prop)
    (f : List (NodeIndex × NodeIndex) → β → List (NodeIndex × NodeIndex)) (l : List β)
    (hf : ∀ Q, ∀ b ∈ l, I Q → I (f Q b)) :
    ∀ init, I init → I (l.foldl f init) := by
  induction l with
  | nil => intro init h; exact h
  | cons b bs ih =>
    intro init h
    rw [List.foldl_cons]
    exact ih (fun Q c hc hQ => hf Q c (List.mem_cons_of_mem _ hc) hQ) _
      (hf init b (List.mem_cons_self _ _) h)

/-- In a fold whose steps only extend the list, a pair that the step for `b` puts into
every extension of the initial list is in the result. -/
theorem foldl_reaches {β : Type}
    (f : List (NodeIndex × NodeIndex) → β → List (NodeIndex × NodeIndex))
    (hf : ∀ Q b, Q <+: f Q b) (t : NodeIndex × NodeIndex) (b : β) (l : List β) (hb : b ∈ l) :
    ∀ init, (∀ Q, init <+: Q → t ∈ f Q b) → t ∈ l.foldl f init := by
  induction l with
  | nil => exact absurd hb (List.not_mem_nil _)
  | cons a as ih =>
    intro init h
    rw [List.foldl_cons]
    rcases List.mem_cons.1 hb with e | hm
    · subst e
      exact (foldl_extends f hf as (f init b)).subset (h init (List.prefix_refl _))
    · exact ih hm _ (fun Q hQ => h Q ((hf init a).trans hQ))

theorem unionInto_extends (P : List (NodeIndex × NodeIndex)) (dst : NodeIndex)
    (objs : List NodeIndex) : P <+: unionInto P dst objs :=
  foldl_extends _ (fun Q o => insertPair_extends Q (dst, o)) objs P

theorem mem_unionInto (P : List (NodeIndex × NodeIndex)) (dst o : NodeIndex)
    (objs : List NodeIndex) (ho : o ∈ objs) : (dst, o) ∈ unionInto P dst objs :=
  foldl_reaches _ (fun Q o => insertPair_extends Q (dst, o)) (dst, o) o objs ho P
    (fun Q _ => mem_insertPair_self Q (dst, o))

theorem unionInto_invariant (N : List NodeIndex) (q : NodeIndex → NodeIndex → Prop)
    (P : List (NodeIndex × NodeIndex)) (dst : NodeIndex) (objs : List NodeIndex)
    (hP : SolverInvariant N q P) (hdst : dst ∈ N) (hobjs : ∀ o ∈ objs, o ∈ N ∧ q dst o) :
    SolverInvariant N q (unionInto P dst objs) :=
  foldl_preserves (SolverInvariant N q) _ objs
    (fun Q o ho hQ => insertPair_invariant N q Q (dst, o) hQ ⟨hdst, hobjs o ho⟩) P hP

theorem propagate_extends (P : List (NodeIndex × NodeIndex)) (c : AndersConstraint) :
    P <+: propagate P c := by
  unfold propagate
  cases c.type
  · exact List.prefix_refl _
  · exact unionInto_extends _ _ _
  · exact foldl_extends _ (fun Q o => unionInto_extends Q c.dest (ptsOf Q o)) _ P
  · exact foldl_extends _ (fun Q o => unionInto_extends Q o (ptsOf Q c.src)) _ P

theorem propagate_invariant (N : List NodeIndex) (q : NodeIndex → NodeIndex → Prop)
    (P : List (NodeIndex × NodeIndex)) (c : AndersConstraint)
    (hP : SolverInvariant N q P) (hdst : c.dest ∈ N)
    (hq : Satisfies q c) : SolverInvariant N q (propagate P c) := by
  unfold propagate
  unfold Satisfies at hq
  cases hc : c.type <;> simp only [hc] at hq ⊢
  · exact hP
  · apply unionInto_invariant N q P c.dest _ hP hdst
    intro o ho
    have h := hP.2 (c.src, o) ((mem_ptsOf P c.src o).1 ho)
    exact ⟨h.2.1, hq o h.2.2⟩
  · apply foldl_preserves (SolverInvariant N q) _ (ptsOf P c.src) _ P hP
    intro Q o ho hQ
    have h₁ := hP.2 (c.src, o) ((mem_ptsOf P c.src o).1 ho)
    apply unionInto_invariant N q Q c.dest _ hQ hdst
    intro x hx
    have h₂ := hQ.2 (o, x) ((mem_ptsOf Q o x).1 hx)
    exact ⟨h₂.2.1, hq o x h₁.2.2 h₂.2.2⟩
  · apply foldl_preserves (SolverInvariant N q) _ (ptsOf P c.dest) _ P hP
    intro Q o ho hQ
    have h₁ := hP.2 (c.dest, o) ((mem_ptsOf P c.dest o).1 ho)
    apply unionInto_invariant N q Q o _ hQ h₁.2.1
    intro x hx
    have h₂ := hQ.2 (c.src, x) ((mem_ptsOf Q c.src x).1 hx)
    exact ⟨h₂.2.1, hq o x h₁.2.2 h₂.2.2⟩

/-- A constraint whose propagation step changes nothing is satisfied by the state. -/
theorem propagate_fixed_satisfies (P : List (NodeIndex × NodeIndex)) (c : AndersConstraint)
    (hfix : propagate P c = P) (hne : c.type ≠ .ADDR_OF) :
    Satisfies (fun n o => (n, o) ∈ P) c := by
  unfold propagate at hfix
  unfold Satisfies
  cases hc : c.type <;> simp only [hc] at hfix ⊢
  · exact absurd hc hne
  · intro o ho
    rw [← hfix]
    exact mem_unionInto P c.dest o _ ((mem_ptsOf P c.src o).2 ho)
  · intro o x ho hx
    rw [← hfix]
    apply foldl_reaches _ (fun Q o => unionInto_extends Q c.dest (ptsOf Q o)) (c.dest, x) o
      (ptsOf P c.src) ((mem_ptsOf P c.src o).2 ho) P
    intro Q hQ
    exact mem_unionInto Q c.dest x _ ((mem_ptsOf Q o x).2 (hQ.subset hx))
  · intro o x ho hx
    rw [← hfix]
    apply foldl_reaches _ (fun Q o => unionInto_extends Q o (ptsOf Q c.src)) (o, x) o
      (ptsOf P c.dest) ((mem_ptsOf P c.dest o).2 ho) P
    intro Q hQ
    exact mem_unionInto Q o x _ ((mem_ptsOf Q c.src x).2 (hQ.subset hx))

theorem propagateAll_extends (cs : List AndersConstraint) (P : List (NodeIndex × NodeIndex)) :
    P <+: propagateAll cs P :=
  foldl_extends _ propagate_extends cs P

theorem prefix_sandwich (P Q R : List (NodeIndex × NodeIndex)) (h₁ : P <+: Q) (h₂ : Q <+: R)
    (h : R = P) : Q = P := by
  subst h
  have hl : Q.length = R.length := Nat.le_antisymm h₂.length_le h₁.length_le
  exact h₂.eq_of_length hl

/-- A round of propagation that changes nothing leaves every constraint other than the
`ADDR_OF` constraints satisfied. -/
theorem propagateAll_fixed_satisfies (cs : List AndersConstraint) :
    ∀ P : List (NodeIndex × NodeIndex), propagateAll cs P = P →
      ∀ c ∈ cs, c.type ≠ .ADDR_OF → Satisfies (fun n o => (n, o) ∈ P) c := by
  induction cs with
  | nil => intro P _ c hc; exact absurd hc (List.not_mem_nil _)
  | cons d ds ih =>
    intro P hfix c hc hne
    have hfix' : propagateAll ds (propagate P d) = P := hfix
    have hd : propagate P d = P :=
      prefix_sandwich P _ _ (propagate_extends P d) (propagateAll_extends ds _) hfix'
    rw [hd] at hfix'
    rcases List.mem_cons.1 hc with e | hm
    · subst e; exact propagate_fixed_satisfies P c hd hne
    · exact ih P hfix' c hm hne

theorem propagateAll_invariant (N : List NodeIndex) (q : NodeIndex → NodeIndex → Prop)
    (cs : List AndersConstraint)
    (hcs : ∀ c ∈ cs, c.dest ∈ N ∧ c.src ∈ N ∧ Satisfies q c)
    (P : List (NodeIndex × NodeIndex)) (hP : SolverInvariant N q P) :
    SolverInvariant N q (propagateAll cs P) :=
  foldl_preserves (SolverInvariant N q) _ cs
    (fun Q c hc hQ => propagate_invariant N q Q c hQ (hcs c hc).1
      (hcs c hc).2.2) P hP

theorem solverInvariant_length_le (N : List NodeIndex) (q : NodeIndex → NodeIndex → Prop)
    (P : List (NodeIndex × NodeIndex)) (hP : SolverInvariant N q P) :
    P.length ≤ N.length * N.length := by
  have hsub : P ⊆ N.product N := by
    intro p hp
    obtain ⟨a, b⟩ := p
    exact List.mem_product.2 ⟨(hP.2 (a, b) hp).1, (hP.2 (a, b) hp).2.1⟩
  have hlen := (List.subperm_of_subset hP.1 hsub).length_le
  have hprod : (N.product N).length = N.length * N.length := List.length_product N N
  omega

theorem solveLoop_extends (cs : List AndersConstraint) (fuel : Nat) :
    ∀ P : List (NodeIndex × NodeIndex), P <+: solveLoop cs fuel P := by
  induction fuel with
  | zero => intro P; exact List.prefix_refl _
  | succ n ih =>
    intro P
    unfold solveLoop
    by_cases h : propagateAll cs P = P
    · rw [if_pos h]
    · rw [if_neg h]; exact (propagateAll_extends cs P).trans (ih _)

theorem solveLoop_invariant (N : List NodeIndex) (q : NodeIndex → NodeIndex → Prop)
    (cs : List AndersConstraint)
    (hcs : ∀ c ∈ cs, c.dest ∈ N ∧ c.src ∈ N ∧ Satisfies q c) (fuel : Nat) :
    ∀ P : List (NodeIndex × NodeIndex), SolverInvariant N q P →
      SolverInvariant N q (solveLoop cs fuel P) := by
  induction fuel with
  | zero => intro P hP; exact hP
  | succ n ih =>
    intro P hP
    unfold solveLoop
    by_cases h : propagateAll cs P = P
    · rw [if_pos h]; exact hP
    · rw [if_neg h]; exact ih _ (propagateAll_invariant N q cs hcs P hP)

/-- With more rounds allowed than there are pairs of nodes still to be added, the loop
ends in a state that a further round does not change. -/
theorem solveLoop_fixed (N : List NodeIndex) (cs : List AndersConstraint)
    (hcs : ∀ c ∈ cs, c.dest ∈ N ∧ c.src ∈ N) (fuel : Nat) :
    ∀ P : List (NodeIndex × NodeIndex), SolverInvariant N (fun _ _ => True) P →
      N.length * N.length < P.length + fuel →
      propagateAll cs (solveLoop cs fuel P) = solveLoop cs fuel P := by
  have hcs' : ∀ c ∈ cs, c.dest ∈ N ∧ c.src ∈ N ∧ Satisfies (fun _ _ => True) c := by
    intro c hc
    refine ⟨(hcs c hc).1, (hcs c hc).2, ?_⟩
    unfold Satisfies
    cases c.type <;> simp
  induction fuel with
  | zero =>
    intro P hP hlt
    have := solverInvariant_length_le N _ P hP
    omega
  | succ n ih =>
    intro P hP hlt
    unfold solveLoop
    by_cases h : propagateAll cs P = P
    · rw [if_pos h]; exact h
    · rw [if_neg h]
      apply ih _ (propagateAll_invariant N _ cs hcs' P hP)
      have hpre := propagateAll_extends cs P
      have hlen : P.length < (propagateAll cs P).length := by
        rcases Nat.lt_or_ge P.length (propagateAll cs P).length with h' | h'
        · exact h'
        · exact absurd (hpre.eq_of_length_le h').symm h
      omega

theorem constraintNodes_mem (cs : List AndersConstraint) :
    ∀ c ∈ cs, c.dest ∈ constraintNodes cs ∧ c.src ∈ constraintNodes cs := by
  intro c hc
  unfold constraintNodes
  simp only [List.mem_flatMap, List.mem_cons, List.mem_singleton, List.not_mem_nil, or_false]
  exact ⟨⟨c, hc, Or.inl rfl⟩, ⟨c, hc, Or.inr rfl⟩⟩

theorem seedAddrOf_invariant (N : List NodeIndex) (q : NodeIndex → NodeIndex → Prop)
    (cs : List AndersConstraint)
    (hcs : ∀ c ∈ cs, c.dest ∈ N ∧ c.src ∈ N ∧ Satisfies q c) :
    SolverInvariant N q (seedAddrOf cs) := by
  unfold seedAddrOf
  apply foldl_preserves (SolverInvariant N q) _ cs _ []
  · exact ⟨List.nodup_nil, fun p hp => absurd hp (List.not_mem_nil _)⟩
  · intro Q c hc hQ
    by_cases h : c.type = .ADDR_OF
    · rw [if_pos h]
      have hq := (hcs c hc).2.2
      unfold Satisfies at hq
      simp only [h] at hq
      exact insertPair_invariant N q Q _ hQ ⟨(hcs c hc).1, (hcs c hc).2.1, hq⟩
    · rw [if_neg h]; exact hQ

theorem mem_seedAddrOf (cs : List AndersConstraint) (c : AndersConstraint) (hc : c ∈ cs)
    (h : c.type = .ADDR_OF) : (c.dest, c.src) ∈ seedAddrOf cs := by
  unfold seedAddrOf
  apply foldl_reaches _ _ (c.dest, c.src) c cs hc []
  · intro Q _
    rw [if_pos h]
    exact mem_insertPair_self Q _
  · intro Q d
    by_cases hd : d.type = .ADDR_OF
    · rw [if_pos hd]; exact insertPair_extends Q _
    · rw [if_neg hd]

theorem lookup_map_self (f : NodeIndex → AndersPtsSet) (n : NodeIndex) (keys : List NodeIndex) :
    (keys.map (fun k => (k, f k))).lookup n = if n ∈ keys then some (f n) else none := by
  induction keys with
  | nil => simp
  | cons k ks ih =>
    rw [List.map_cons, List.lookup_cons]
    by_cases h : n = k
    · subst h; simp
    · have h' : (n == k) = false := by simpa using h
      rw [h', ih]
      simp [h]

theorem ptsSetOfNode_toPtsGraph (self : Andersen) (P : List (NodeIndex × NodeIndex))
    (n : NodeIndex) :
    ptsSetOfNode { self with ptsGraph := toPtsGraph P } n = ptsOf P n := by
  unfold ptsSetOfNode toPtsGraph
  simp only [lookup_map_self]
  by_cases h : n ∈ (P.map Prod.fst).dedup
  · rw [if_pos h]; rfl
  · rw [if_neg h]
    have hnone : ∀ p ∈ P, ¬ p.1 = n := by
      intro p hp e
      exact h (List.mem_dedup.2 (List.mem_map.2 ⟨p, hp, e⟩))
    have : ptsOf P n = [] := by
      unfold ptsOf
      rw [List.filter_eq_nil_iff.2 (fun p hp => by simpa using hnone p hp)]
      rfl
    rw [this]; rfl

theorem mem_ptsSetOfNode_solveConstraints (self : Andersen) (n o : NodeIndex) :
    o ∈ ptsSetOfNode (solveConstraints self) n ↔
      (n, o) ∈ solveLoop self.constraints
        ((constraintNodes self.constraints).length * (constraintNodes self.constraints).length
          + 1)
        (seedAddrOf self.constraints) := by
  unfold solveConstraints
  rw [ptsSetOfNode_toPtsGraph, mem_ptsOf]

theorem satisfies_congr (p q : NodeIndex → NodeIndex → Prop) (h : ∀ n o, p n o ↔ q n o)
    (c : AndersConstraint) (hp : Satisfies p c) : Satisfies q c := by
  have e : p = q := by
    funext n o
    exact propext (h n o)
  rw [← e]; exact hp

/-- The solver computes the least assignment that satisfies the constraints of the
store. -/
theorem solveConstraints_least (self : Andersen) :
    IsLeastSolution self.constraints
      (fun n o => o ∈ ptsSetOfNode (solveConstraints self) n) := by
  have hnodes := constraintNodes_mem self.constraints
  have hinv : SolverInvariant (constraintNodes self.constraints) (fun _ _ => True)
      (seedAddrOf self.constraints) := by
    apply seedAddrOf_invariant
    intro c hc
    refine ⟨(hnodes c hc).1, (hnodes c hc).2, ?_⟩
    unfold Satisfies
    cases c.type <;> simp
  have hfix := solveLoop_fixed (constraintNodes self.constraints) self.constraints hnodes
    ((constraintNodes self.constraints).length * (constraintNodes self.constraints).length + 1)
    (seedAddrOf self.constraints) hinv (by omega)
  constructor
  · intro c hc
    apply satisfies_congr _ _ (fun n o => (mem_ptsSetOfNode_solveConstraints self n o).symm)
    by_cases h : c.type = .ADDR_OF
    · unfold Satisfies
      simp only [h]
      exact (solveLoop_extends _ _ _).subset (mem_seedAddrOf self.constraints c hc h)
    · exact propagateAll_fixed_satisfies self.constraints _ hfix c hc h
  · intro q hq n o hno
    have hq' : ∀ c ∈ self.constraints, c.dest ∈ constraintNodes self.constraints ∧
        c.src ∈ constraintNodes self.constraints ∧ Satisfies q c :=
      fun c hc => ⟨(hnodes c hc).1, (hnodes c hc).2, hq c hc⟩
    have hfinal := solveLoop_invariant (constraintNodes self.constraints) q self.constraints
      hq'
      ((constraintNodes self.constraints).length * (constraintNodes self.constraints).length
        + 1)
      _ (seedAddrOf_invariant _ q self.constraints hq')
    exact (hfinal.2 (n, o) ((mem_ptsSetOfNode_solveConstraints self n o).1 hno)).2.2

/-- C15: after `solveConstraints`, as the spec describes it, every `COPY(dst, src)` of the
constraint store is satisfied (the points-to set of `src` is contained in the points-to
set of `dst`), the store itself is unchanged, and for the store `ADDR_OF(v1, o1)`,
`ADDR_OF(v2, o2)`, `COPY(v3, v1)`, `COPY(v3, v2)` the points-to set of `v3` is exactly
`{o1, o2}`. -/
theorem solveConstraints_satisfies_copy (self : Andersen) (v1 o1 v2 o2 v3 : NodeIndex) :
    (solveConstraints self).constraints = self.constraints ∧
    (∀ c ∈ (solveConstraints self).constraints, c.type = .COPY →
      ∀ o, o ∈ ptsSetOfNode (solveConstraints self) c.src →
        o ∈ ptsSetOfNode (solveConstraints self) c.dest) ∧
    (∀ o, o ∈ ptsSetOfNode
        (solveConstraints { self with
          constraints := [⟨.ADDR_OF, v1, o1⟩, ⟨.ADDR_OF, v2, o2⟩, ⟨.COPY, v3, v1⟩,
            ⟨.COPY, v3, v2⟩] }) v3 ↔
      o = o1 ∨ o = o2) := by
  refine ⟨rfl, ?_, ?_⟩
  · intro c hc hcopy o ho
    have h := (solveConstraints_least self).1 c hc
    unfold Satisfies at h
    simp only [hcopy] at h
    exact h o ho
  · intro o
    have hl := solveConstraints_least { self with
      constraints := [⟨.ADDR_OF, v1, o1⟩, ⟨.ADDR_OF, v2, o2⟩, ⟨.COPY, v3, v1⟩,
        ⟨.COPY, v3, v2⟩] }
    constructor
    · intro ho
      apply hl.2 (fun _ x => x = o1 ∨ x = o2) _ v3 o ho
      intro c hc
      simp only [List.mem_cons, List.mem_singleton, List.not_mem_nil, or_false] at hc
      rcases hc with rfl | rfl | rfl | rfl <;> simp [Satisfies]
    · intro ho
      have h₁ := hl.1 ⟨.ADDR_OF, v1, o1⟩ (by simp)
      have h₂ := hl.1 ⟨.ADDR_OF, v2, o2⟩ (by simp)
      have h₃ := hl.1 ⟨.COPY, v3, v1⟩ (by simp)
      have h₄ := hl.1 ⟨.COPY, v3, v2⟩ (by simp)
      simp only [Satisfies] at h₁ h₂ h₃ h₄
      rcases ho with rfl | rfl
      · exact h₃ _ h₁
      · exact h₄ _ h₂

theorem addArgumentConstraintLoop_eq :
    ∀ (formals actuals : List LLValue) (self : Andersen),
      addArgumentConstraintLoop self formals actuals =
        if (formals.zip actuals).all (argumentNodesFound self.nodeFactory) then
          some ({ self with constraints := self.constraints ++
            (formals.zip actuals).filterMap (argumentConstraintReference self.nodeFactory) },
            actuals.drop formals.length)
        else none
  | [], actuals, self => by
    simp [addArgumentConstraintLoop]
  | _ :: _, [], self => by
    simp [addArgumentConstraintLoop]
  | formal :: formals, actual :: actuals, self => by
    rw [addArgumentConstraintLoop]
    cases hf : formal.isPointerTy
    · have hhead : argumentNodesFound self.nodeFactory (formal, actual) = true := by
        simp [argumentNodesFound, hf]
      have href : argumentConstraintReference self.nodeFactory (formal, actual) = none := by
        simp [argumentConstraintReference, hf]
      simp only [Bool.false_eq_true, if_false]
      rw [addArgumentConstraintLoop_eq formals actuals]
      simp only [List.zip_cons_cons, List.all_cons, hhead, Bool.true_and,
        List.filterMap_cons, href, List.length_cons, List.drop_succ_cons]
    · simp only [if_true]
      by_cases hfi : self.nodeFactory.getValueNodeFor formal.id = self.nodeFactory.InvalidIndex
      · have hhead : argumentNodesFound self.nodeFactory (formal, actual) = false := by
          simp [argumentNodesFound, hf, hfi]
        simp only [hfi, if_true, List.zip_cons_cons, List.all_cons, hhead, Bool.false_and,
          Bool.false_eq_true, if_false]
      · rw [if_neg hfi]
        cases ha : actual.isPointerTy
        · have hhead : argumentNodesFound self.nodeFactory (formal, actual) = true := by
            simp [argumentNodesFound, hf, ha, hfi]
          have href : argumentConstraintReference self.nodeFactory (formal, actual) =
              some ⟨.COPY, self.nodeFactory.getValueNodeFor formal.id,
                self.nodeFactory.getUniversalPtrNode⟩ := by
            simp [argumentConstraintReference, hf, ha]
          simp only [Bool.false_eq_true, if_false]
          rw [addArgumentConstraintLoop_eq formals actuals]
          simp only [List.zip_cons_cons, List.all_cons, hhead, Bool.true_and,
            List.filterMap_cons, href, List.length_cons, List.drop_succ_cons, addConstraint,
            List.append_assoc, List.singleton_append]
        · simp only [if_true]
          by_cases hai : self.nodeFactory.getValueNodeFor actual.id =
              self.nodeFactory.InvalidIndex
          · have hhead : argumentNodesFound self.nodeFactory (formal, actual) = false := by
              simp [argumentNodesFound, hf, ha, hai]
            simp only [hai, if_true, List.zip_cons_cons, List.all_cons, hhead,
              Bool.false_and, Bool.false_eq_true, if_false]
          · have hhead : argumentNodesFound self.nodeFactory (formal, actual) = true := by
              simp [argumentNodesFound, hf, ha, hfi, hai]
            have href : argumentConstraintReference self.nodeFactory (formal, actual) =
                some ⟨.COPY, self.nodeFactory.getValueNodeFor formal.id,
                  self.nodeFactory.getValueNodeFor actual.id⟩ := by
              simp [argumentConstraintReference, hf, ha]
            rw [if_neg hai]
            simp only []
            rw [addArgumentConstraintLoop_eq formals actuals]
            simp only [List.zip_cons_cons, List.all_cons, hhead, Bool.true_and,
              List.filterMap_cons, href, List.length_cons, List.drop_succ_cons,
              addConstraint, List.append_assoc, List.singleton_append]

theorem foldlM_addVarargConstraint_eq (ops : NodeFactoryOps) (f : LLFunction) :
    ∀ (l : List LLValue) (self : Andersen),
      l.foldlM (addVarargConstraint ops f) self =
        if (l.filter (fun a => a.isPointerTy)).all (fun a =>
            decide (self.nodeFactory.getValueNodeFor a.id ≠ self.nodeFactory.InvalidIndex) &&
              decide (ops.getVarargNodeFor self.nodeFactory f.id ≠
                self.nodeFactory.InvalidIndex)) then
          some { self with constraints := (self.constraints ++
            (l.filter (fun a => a.isPointerTy)).map
              (fun a => ⟨.COPY, ops.getVarargNodeFor self.nodeFactory f.id,
                self.nodeFactory.getValueNodeFor a.id⟩)) }
        else none
  | [], self => by simp
  | a :: l, self => by
    rw [List.foldlM_cons]
    cases ha : a.isPointerTy
    · have hstep : addVarargConstraint ops f self a = some self := by
        simp [addVarargConstraint, ha]
      rw [hstep]
      simp only [Option.bind_eq_bind, Option.some_bind]
      rw [foldlM_addVarargConstraint_eq ops f l]
      simp [ha, List.filter_cons]
    · by_cases hai : self.nodeFactory.getValueNodeFor a.id = self.nodeFactory.InvalidIndex
      · have hstep : addVarargConstraint ops f self a = none := by
          simp [addVarargConstraint, ha, hai]
        rw [hstep]
        simp [ha, hai, List.filter_cons]
      · by_cases hva : ops.getVarargNodeFor self.nodeFactory f.id =
            self.nodeFactory.InvalidIndex
        · have hstep : addVarargConstraint ops f self a = none := by
            simp [addVarargConstraint, ha, hai, hva]
          rw [hstep]
          simp [ha, hva, List.filter_cons]
        · have hstep : addVarargConstraint ops f self a =
              some (addConstraint self .COPY (ops.getVarargNodeFor self.nodeFactory f.id)
                (self.nodeFactory.getValueNodeFor a.id)) := by
            simp [addVarargConstraint, ha, hai, hva]
          rw [hstep]
          simp only [Option.bind_eq_bind, Option.some_bind]
          rw [foldlM_addVarargConstraint_eq ops f l]
          simp [ha, hai, hva, addConstraint, List.filter_cons]

theorem addArgumentConstraintForCall_eq (ops : NodeFactoryOps) (self : Andersen)
    (actuals : List LLValue) (f : LLFunction) :
    addArgumentConstraintForCall ops self actuals f =
      if argumentAssertionsHold ops self.nodeFactory actuals f then
        some { self with constraints := self.constraints ++
          argumentConstraintsReference ops self.nodeFactory actuals f }
      else none := by
  unfold addArgumentConstraintForCall argumentConstraintsReference argumentAssertionsHold
  rw [addArgumentConstraintLoop_eq]
  cases hall : (f.args.zip actuals).all (argumentNodesFound self.nodeFactory)
  · simp
  · simp only [if_true, Bool.true_and]
    cases hv : f.isVarArg
    · simp
    · simp only [if_true, Bool.not_true, Bool.false_or]
      rw [foldlM_addVarargConstraint_eq]
      simp only []
      split <;> simp

/-- C17: where the assertions of `addArgumentConstraintForCall(cs, f)` hold (the formals
and actuals it looks up have value nodes, a variadic `f` with pointer-typed surplus
actuals has its vararg node), the call appends exactly the constraints of the positional
pairing: for every position below the shorter of formals and actuals whose formal is
pointer-typed one constraint, `COPY(node(formal), node(actual))` for a pointer-typed
actual and `COPY(node(formal), UniversalPtr)` otherwise, nothing for a formal that is not
pointer-typed; then, if `f` is variadic, `COPY(varargNode(f), node(actual))` for every
pointer-typed surplus actual, and nothing for surplus actuals if `f` is not variadic.
Nothing else of the analysis object changes.  Where an assertion fails the call has no
result. -/
theorem addArgumentConstraintForCall_pairs_positionally (ops : NodeFactoryOps)
    (self : Andersen) (actuals : List LLValue) (f : LLFunction) :
    (argumentAssertionsHold ops self.nodeFactory actuals f = true →
      ∃ a, addArgumentConstraintForCall ops self actuals f = some a ∧
        a.constraints =
          self.constraints ++
            ((f.args.zip actuals).filterMap (fun pair =>
                if pair.1.isPointerTy then
                  if pair.2.isPointerTy then
                    some ⟨.COPY, self.nodeFactory.getValueNodeFor pair.1.id,
                      self.nodeFactory.getValueNodeFor pair.2.id⟩
                  else
                    some ⟨.COPY, self.nodeFactory.getValueNodeFor pair.1.id,
                      self.nodeFactory.getUniversalPtrNode⟩
                else none) ++
              (if f.isVarArg then
                ((actuals.drop f.args.length).filter (fun a => a.isPointerTy)).map
                  (fun a => ⟨.COPY, ops.getVarargNodeFor self.nodeFactory f.id,
                    self.nodeFactory.getValueNodeFor a.id⟩)
              else [])) ∧
        a.constraints =
          self.constraints ++ argumentConstraintsReference ops self.nodeFactory actuals f ∧
        a.nodeFactory = self.nodeFactory ∧
        a.ptsGraph = self.ptsGraph) ∧
    (argumentAssertionsHold ops self.nodeFactory actuals f = false →
      addArgumentConstraintForCall ops self actuals f = none) := by
  rw [addArgumentConstraintForCall_eq]
  constructor
  · intro h
    rw [if_pos h]
    exact ⟨_, rfl, rfl, rfl, rfl, rfl⟩
  · intro h
    rw [h]
    rfl

theorem addArgumentConstraintForCall_pairs_positionally_witness :
    (∃ a, addArgumentConstraintForCall varargOps argumentAnalysis variadicActuals
        variadicFunction = some a ∧
      a.constraints = argumentAnalysis.constraints ++
        [⟨.COPY, 1704, 384⟩, ⟨.COPY, 1701, 388⟩]) ∧
    addArgumentConstraintForCall varargOps emptyAnalysis variadicActuals variadicFunction =
      none :=
  ⟨((addArgumentConstraintForCall_pairs_positionally varargOps argumentAnalysis
      variadicActuals variadicFunction).1 (by decide)).imp
      (fun _ h => ⟨h.1, h.2.2.1⟩),
    (addArgumentConstraintForCall_pairs_positionally varargOps emptyAnalysis
      variadicActuals variadicFunction).2 (by decide)⟩

theorem valueNodeOrCreate_frame (ops : NodeFactoryOps) (self : Andersen) (v : Value) :
    (valueNodeOrCreate ops self v).2.constraints = self.constraints ∧
    (valueNodeOrCreate ops self v).2.ptsGraph = self.ptsGraph := by
  unfold valueNodeOrCreate createValueNode
  split <;> exact ⟨rfl, rfl⟩

theorem objectNodeOrCreate_frame (ops : NodeFactoryOps) (self : Andersen) (v : Value) :
    (objectNodeOrCreate ops self v).2.constraints = self.constraints ∧
    (objectNodeOrCreate ops self v).2.ptsGraph = self.ptsGraph := by
  unfold objectNodeOrCreate createObjectNode
  split <;> exact ⟨rfl, rfl⟩

/-- What `valueNodeOrCreate` guarantees when node creation behaves as the spec says: the
index it returns is valid and is the value node of the key afterwards, the sentinel is
unchanged, and values that had a value node keep it. -/
theorem valueNodeOrCreate_spec (ops : NodeFactoryOps) (invalid : NodeIndex)
    (hops : ops.CreatesValueNodes invalid)
    (self : Andersen) (hself : self.nodeFactory.InvalidIndex = invalid) (v : Value) :
    (valueNodeOrCreate ops self v).2.nodeFactory.getValueNodeFor v =
      (valueNodeOrCreate ops self v).1 ∧
    (valueNodeOrCreate ops self v).1 ≠ invalid ∧
    (valueNodeOrCreate ops self v).2.nodeFactory.InvalidIndex = invalid ∧
    ∀ x, self.nodeFactory.getValueNodeFor x ≠ invalid →
      (valueNodeOrCreate ops self v).2.nodeFactory.getValueNodeFor x =
        self.nodeFactory.getValueNodeFor x := by
  unfold valueNodeOrCreate
  by_cases h : self.nodeFactory.getValueNodeFor v = self.nodeFactory.InvalidIndex
  · rw [if_pos h]
    exact hops self.nodeFactory v hself
  · rw [if_neg h]
    exact ⟨rfl, hself ▸ h, hself, fun _ _ => rfl⟩

theorem exampleOps_createsValueNodes : exampleOps.CreatesValueNodes 4294967295 := by
  intro nf v hnf
  unfold exampleOps
  simp only []
  by_cases h : nf.getValueNodeFor v = nf.InvalidIndex
  · rw [if_pos h]
    refine ⟨by simp, ?_, hnf, ?_⟩
    · show (100 + 2 * v : Nat) ≠ 4294967295
      intro e
      have e' : (100 + 2 * v) % 2 = 4294967295 % 2 := congrArg (· % 2) e
      rw [Nat.add_mul_mod_self_left] at e'
      exact absurd e' (by decide)
    · intro x hx
      have hxv : x ≠ v := by
        intro e
        subst e
        exact hx (hnf ▸ h)
      simp [hxv]
  · rw [if_neg h]
    exact ⟨rfl, hnf ▸ h, hnf, fun _ _ => rfl⟩

theorem constIntToPtrPointsToData_constraints (ops : NodeFactoryOps)
    (MachO : ObjectiveCBinary) (ctx : LLVMContext) (self : Andersen) (IntToPtr Const : Value)
    (zext : Nat) :
    (constIntToPtrPointsToData ops MachO ctx self IntToPtr Const zext).2.constraints =
      self.constraints := by
  unfold constIntToPtrPointsToData
  simp only []
  split <;> split <;> (try split) <;> simp [createObjectNodeDummy] <;> split <;> rfl

theorem addConstraintsForConstIntToPtr_constraints (ops : NodeFactoryOps)
    (MachO : ObjectiveCBinary) (ctx : LLVMContext) (self : Andersen) (IntToPtr Const : Value)
    (zext : Nat) :
    ∃ d o, (addConstraintsForConstIntToPtr ops MachO ctx self IntToPtr Const zext).constraints =
      self.constraints ++ [⟨.ADDR_OF, d, o⟩] := by
  refine ⟨(valueNodeOrCreate ops (objectNodeOrCreate ops
      (constIntToPtrPointsToData ops MachO ctx self IntToPtr Const zext).2
      (constIntToPtrPointsToData ops MachO ctx self IntToPtr Const zext).1).2 IntToPtr).1,
    (objectNodeOrCreate ops
      (constIntToPtrPointsToData ops MachO ctx self IntToPtr Const zext).2
      (constIntToPtrPointsToData ops MachO ctx self IntToPtr Const zext).1).1, ?_⟩
  unfold addConstraintsForConstIntToPtr
  simp only [addConstraint, (valueNodeOrCreate_frame _ _ _).1,
    (objectNodeOrCreate_frame _ _ _).1, constIntToPtrPointsToData_constraints]

/-- The loop over the incoming values of a PHI node of non-pointer type: one `COPY` into
`dstIndex` for every incoming value that is not a floating-point constant, from the value
node that the incoming value has afterwards. -/
theorem foldl_collectConstraintsForPHIIncoming (ops : NodeFactoryOps) (invalid : NodeIndex)
    (hops : ops.CreatesValueNodes invalid) (dstIndex : NodeIndex) :
    ∀ (l : List LLValue) (a : Andersen), a.nodeFactory.InvalidIndex = invalid →
      (l.foldl (collectConstraintsForPHIIncoming ops dstIndex) a).constraints =
        a.constraints ++ (l.filter (fun v => decide (v.kind ≠ .ConstantFP))).map
          (fun v => ⟨.COPY, dstIndex,
            (l.foldl (collectConstraintsForPHIIncoming ops dstIndex)
              a).nodeFactory.getValueNodeFor v.id⟩) ∧
      (l.foldl (collectConstraintsForPHIIncoming ops dstIndex) a).nodeFactory.InvalidIndex =
        invalid ∧
      ∀ x, a.nodeFactory.getValueNodeFor x ≠ invalid →
        (l.foldl (collectConstraintsForPHIIncoming ops dstIndex)
          a).nodeFactory.getValueNodeFor x = a.nodeFactory.getValueNodeFor x := by
  intro l
  induction l with
  | nil => intro a ha; exact ⟨by simp, ha, fun _ _ => rfl⟩
  | cons v vs ih =>
    intro a ha
    rw [List.foldl_cons]
    by_cases hfp : v.kind = .ConstantFP
    · have hstep : collectConstraintsForPHIIncoming ops dstIndex a v = a := by
        unfold collectConstraintsForPHIIncoming
        rw [if_pos hfp]
      rw [hstep]
      obtain ⟨h₁, h₂, h₃⟩ := ih a ha
      refine ⟨?_, h₂, h₃⟩
      rw [h₁, List.filter_cons]
      simp [hfp]
    · have hspec := valueNodeOrCreate_spec ops invalid hops a ha v.id
      have hstep : collectConstraintsForPHIIncoming ops dstIndex a v =
          addConstraint (valueNodeOrCreate ops a v.id).2 .COPY dstIndex
            (valueNodeOrCreate ops a v.id).1 := by
        unfold collectConstraintsForPHIIncoming
        rw [if_neg hfp]
      rw [hstep]
      obtain ⟨h₁, h₂, h₃⟩ := ih (addConstraint (valueNodeOrCreate ops a v.id).2 .COPY dstIndex
        (valueNodeOrCreate ops a v.id).1) hspec.2.2.1
      have hv₀ : (addConstraint (valueNodeOrCreate ops a v.id).2 .COPY dstIndex
          (valueNodeOrCreate ops a v.id).1).nodeFactory.getValueNodeFor v.id =
          (valueNodeOrCreate ops a v.id).1 := hspec.1
      have hv := h₃ v.id (by rw [hv₀]; exact hspec.2.1)
      rw [hv₀] at hv
      have e₁ : (addConstraint (valueNodeOrCreate ops a v.id).2 .COPY dstIndex
          (valueNodeOrCreate ops a v.id).1).constraints =
          a.constraints ++ [⟨.COPY, dstIndex, (valueNodeOrCreate ops a v.id).1⟩] := by
        show (valueNodeOrCreate ops a v.id).2.constraints ++ _ = _
        rw [(valueNodeOrCreate_frame ops a v.id).1]
      refine ⟨?_, h₂, ?_⟩
      · rw [h₁, e₁, List.filter_cons]
        simp only [hfp, ne_eq, not_false_eq_true, decide_True, if_true, List.map_cons]
        rw [hv]
        simp
      · intro x hx
        have hx' : (addConstraint (valueNodeOrCreate ops a v.id).2 .COPY dstIndex
            (valueNodeOrCreate ops a v.id).1).nodeFactory.getValueNodeFor x =
            a.nodeFactory.getValueNodeFor x := hspec.2.2.2 x hx
        rw [h₃ x (by rw [hx']; exact hx)]
        exact hx'

/-- C18, counterexample: for the pointer-typed PHI node `%50 = phi i8* [%51], [%52]`,
`collectConstraintsForInstruction` leaves the store of the empty analysis object empty: no
`COPY` from an incoming value is emitted. -/
theorem pointer_phi_emits_nothing :
    pointerPHI.isPointerTy = true ∧ pointerPHI.kind = .Instruction .PHI ∧
    pointerPHI.operands.length = 2 ∧
    (collectConstraintsForInstruction exampleOps exampleMachO exampleContext exampleSAP
        (fun a _ => some a) emptyAnalysis pointerPHI).map (fun a => a.constraints) =
      some [] := by
  decide

/-- C18, amended: `COPY` models the phi-merge for the PHI nodes that are not of pointer
type.  For a PHI node whose type is not a pointer type, `collectConstraintsForInstruction`
appends `COPY(node(phi), node(v))` for each incoming value `v` that is not a floating-point
constant, in the order of the incoming values, where `node` is the value node in the node
factory after the call (nodes are created on demand); for a pointer-typed PHI node it
emits nothing. -/
theorem collectConstraintsForInstruction_phi (ops : NodeFactoryOps)
    (MachO : ObjectiveCBinary) (ctx : LLVMContext) (SAP : StackAccessPass)
    (otherCases : Andersen → LLValue → Option Andersen) (self : Andersen) (inst : LLValue)
    (hops : ops.CreatesValueNodes self.nodeFactory.InvalidIndex)
    (hphi : inst.kind = .Instruction .PHI) :
    ∃ a, collectConstraintsForInstruction ops MachO ctx SAP otherCases self inst = some a ∧
      a.constraints = self.constraints ++
        (if inst.isPointerTy then []
         else (inst.operands.filter (fun v => decide (v.kind ≠ .ConstantFP))).map
          (fun v => ⟨.COPY, a.nodeFactory.getValueNodeFor inst.id,
            a.nodeFactory.getValueNodeFor v.id⟩)) := by
  refine ⟨collectConstraintsForPHI ops self inst, ?_, ?_⟩
  · unfold collectConstraintsForInstruction
    rw [hphi]
  · unfold collectConstraintsForPHI
    by_cases hp : inst.isPointerTy = true
    · simp [hp]
    · simp only [hp, if_false, Bool.false_eq_true]
      have hspec := valueNodeOrCreate_spec ops _ hops self rfl inst.id
      obtain ⟨h₁, _, h₃⟩ := foldl_collectConstraintsForPHIIncoming ops _ hops
        (valueNodeOrCreate ops self inst.id).1 inst.operands
        (valueNodeOrCreate ops self inst.id).2 hspec.2.2.1
      rw [h₁, (valueNodeOrCreate_frame ops self inst.id).1]
      rw [h₃ inst.id (by rw [hspec.1]; exact hspec.2.1), hspec.1]

/-- Witness of the amended C18: the integer PHI node `%53 = phi i64 [%54], [%55]` in the
empty analysis object, with the node creation of the examples. -/
theorem collectConstraintsForInstruction_phi_witness :
    exampleOps.CreatesValueNodes emptyAnalysis.nodeFactory.InvalidIndex ∧
    integerPHI.kind = .Instruction .PHI ∧
    ∃ a, collectConstraintsForInstruction exampleOps exampleMachO exampleContext exampleSAP
        (fun a _ => some a) emptyAnalysis integerPHI = some a ∧
      a.constraints = emptyAnalysis.constraints ++
        (if integerPHI.isPointerTy then []
         else (integerPHI.operands.filter (fun v => decide (v.kind ≠ .ConstantFP))).map
          (fun v => ⟨.COPY, a.nodeFactory.getValueNodeFor integerPHI.id,
            a.nodeFactory.getValueNodeFor v.id⟩)) :=
  ⟨exampleOps_createsValueNodes, rfl,
    collectConstraintsForInstruction_phi exampleOps exampleMachO exampleContext exampleSAP
      (fun a _ => some a) emptyAnalysis integerPHI exampleOps_createsValueNodes rfl⟩

/-- C19, counterexample: the load `%60 = load i64, i64* %61` with the address
`%61 = inttoptr i64 %62 to i64*` takes the generic path; in the analysis object in which
the pointer-typed instruction `%61` has its value node 222, the only constraint emitted is
`LOAD(220, 224)`, from the value node 224 of `%62`, the operand of the address, and not
`LOAD(220, 222)` from the value node of the address. -/
theorem load_source_is_operand_of_address :
    loadAddress.kind ≠ .Instruction .GetElementPtr ∧
    loadAddress.kind ≠ .Instruction .PHI ∧ loadAddress.kind ≠ .Instruction .Select ∧
    loadAddress.kind ≠ .ConstantPointerNull ∧
    matchIVARAccess loadAddress = none ∧ matchIntToPtrConstantInt loadAddress = none ∧
    (collectConstraintsForInstruction exampleOps exampleMachO exampleContext exampleSAP
        (fun a _ => some a) (createValueNode exampleOps emptyAnalysis 61).2
        loadInstruction).map
      (fun a => (a.constraints, a.nodeFactory.getValueNodeFor 60,
        a.nodeFactory.getValueNodeFor 61, a.nodeFactory.getValueNodeFor 62)) =
      some ([⟨.LOAD, 220, 224⟩], 220, 222, 224) := by
  refine ⟨by decide, by decide, by decide, by decide, rfl, rfl, by decide⟩

/-- C19, amended: a load `x = load p` that takes the generic path of
`collectConstraintsForInstruction` (`p` is not a GEP, PHI, select or null constant and
matches neither the IVAR pattern nor inttoptr-of-constant) and whose address `p` has an
operand 0, `q`, emits exactly one constraint, `LOAD(node(x), node(q))`: the source is the
value node of the operand of the address, not of the address; `node` is the value node in
the node factory after the call (nodes are created on demand). -/
theorem collectConstraintsForInstruction_load_generic (ops : NodeFactoryOps)
    (MachO : ObjectiveCBinary) (ctx : LLVMContext) (SAP : StackAccessPass)
    (otherCases : Andersen → LLValue → Option Andersen) (self : Andersen)
    (inst p q : LLValue) (rest more : List LLValue)
    (hops : ops.CreatesValueNodes self.nodeFactory.InvalidIndex)
    (hload : inst.kind = .Instruction .Load)
    (hoperands : inst.operands = p :: rest)
    (hgep : p.kind ≠ .Instruction .GetElementPtr)
    (hphi : p.kind ≠ .Instruction .PHI)
    (hselect : p.kind ≠ .Instruction .Select)
    (hnull : p.kind ≠ .ConstantPointerNull)
    (hivar : matchIVARAccess p = none)
    (hconst : matchIntToPtrConstantInt p = none)
    (hq : p.operands = q :: more) :
    ∃ a, collectConstraintsForInstruction ops MachO ctx SAP otherCases self inst = some a ∧
      a.constraints = self.constraints ++
        [⟨.LOAD, a.nodeFactory.getValueNodeFor inst.id, a.nodeFactory.getValueNodeFor q.id⟩] := by
  have h₁ := valueNodeOrCreate_spec ops _ hops self rfl inst.id
  have h₂ := valueNodeOrCreate_spec ops _ hops (valueNodeOrCreate ops self inst.id).2
    h₁.2.2.1 q.id
  refine ⟨addConstraint (valueNodeOrCreate ops (valueNodeOrCreate ops self inst.id).2 q.id).2
    .LOAD (valueNodeOrCreate ops self inst.id).1
    (valueNodeOrCreate ops (valueNodeOrCreate ops self inst.id).2 q.id).1, ?_, ?_⟩
  · unfold collectConstraintsForInstruction
    rw [hload]
    simp only []
    unfold collectConstraintsForLoad
    rw [hoperands]
    simp only [hgep, hphi, hselect, if_false, List.foldlM_cons, List.foldlM_nil]
    unfold collectConstraintsForLoadOperand
    simp only [hnull, if_false, hivar, hq, hconst]
    rfl
  · show (valueNodeOrCreate ops (valueNodeOrCreate ops self inst.id).2 q.id).2.constraints ++ _
      = _
    rw [(valueNodeOrCreate_frame _ _ _).1, (valueNodeOrCreate_frame _ _ _).1]
    have e₁ : (addConstraint (valueNodeOrCreate ops (valueNodeOrCreate ops self inst.id).2
        q.id).2 .LOAD (valueNodeOrCreate ops self inst.id).1
        (valueNodeOrCreate ops (valueNodeOrCreate ops self inst.id).2
          q.id).1).nodeFactory.getValueNodeFor q.id =
        (valueNodeOrCreate ops (valueNodeOrCreate ops self inst.id).2 q.id).1 := h₂.1
    have e₂ : (addConstraint (valueNodeOrCreate ops (valueNodeOrCreate ops self inst.id).2
        q.id).2 .LOAD (valueNodeOrCreate ops self inst.id).1
        (valueNodeOrCreate ops (valueNodeOrCreate ops self inst.id).2
          q.id).1).nodeFactory.getValueNodeFor inst.id =
        (valueNodeOrCreate ops self inst.id).1 := by
      have := h₂.2.2.2 inst.id (by rw [h₁.1]; exact h₁.2.1)
      rw [h₁.1] at this
      exact this
    rw [e₁, e₂]

/-- Witness of the amended C19: the load `%60 = load i64, i64* %61` of the examples. -/
theorem collectConstraintsForInstruction_load_generic_witness :
    ∃ a, collectConstraintsForInstruction exampleOps exampleMachO exampleContext exampleSAP
        (fun a _ => some a) (createValueNode exampleOps emptyAnalysis 61).2 loadInstruction =
          some a ∧
      a.constraints = (createValueNode exampleOps emptyAnalysis 61).2.constraints ++
        [⟨.LOAD, a.nodeFactory.getValueNodeFor loadInstruction.id,
          a.nodeFactory.getValueNodeFor (LLValue.mk 62 .Argument false []).id⟩] :=
  collectConstraintsForInstruction_load_generic exampleOps exampleMachO exampleContext
    exampleSAP (fun a _ => some a) (createValueNode exampleOps emptyAnalysis 61).2
    loadInstruction loadAddress (.mk 62 .Argument false []) [] []
    exampleOps_createsValueNodes rfl rfl (by decide) (by decide) (by decide) (by decide)
    rfl rfl rfl

theorem LLValue.size_eq (v : LLValue) : v.size = 1 + LLValue.sizeList v.operands := by
  cases v with
  | mk id kind isPointerTy operands => rw [LLValue.size, LLValue.operands]

theorem LLValue.sizeList_append (l₁ l₂ : List LLValue) :
    LLValue.sizeList (l₁ ++ l₂) = LLValue.sizeList l₁ + LLValue.sizeList l₂ := by
  induction l₁ with
  | nil => simp [LLValue.sizeList]
  | cons v vs ih => simp [LLValue.sizeList, ih, Nat.add_assoc]

theorem LLValue.sizeList_filter_le (f : LLValue → Bool) (l : List LLValue) :
    LLValue.sizeList (l.filter f) ≤ LLValue.sizeList l := by
  induction l with
  | nil => simp [LLValue.sizeList]
  | cons v vs ih =>
    rw [List.filter_cons]
    cases f v <;> simp only [LLValue.sizeList, if_true, if_false, Bool.false_eq_true] <;> omega

/-- The worklist loop of the Load case has rounds enough once `fuel` is at least the size
of the queue: a further round does not change the result. -/
theorem loadIVARWorklist_fuel_enough (ops : NodeFactoryOps) (inst : Value) (Base : LLValue) :
    ∀ (fuel : Nat) (queue : List LLValue) (visited : List Value) (self : Andersen),
      LLValue.sizeList queue ≤ fuel →
      loadIVARWorklist ops inst Base (fuel + 1) queue visited self =
        loadIVARWorklist ops inst Base fuel queue visited self := by
  intro fuel
  induction fuel with
  | zero =>
    intro queue visited self h
    cases queue with
    | nil => simp [loadIVARWorklist]
    | cons cur rest =>
      have := LLValue.size_eq cur
      simp only [LLValue.sizeList] at h
      omega
  | succ n ih =>
    intro queue visited self h
    cases queue with
    | nil => simp [loadIVARWorklist]
    | cons cur rest =>
      have hsize := LLValue.size_eq cur
      simp only [LLValue.sizeList] at h
      have hrest : LLValue.sizeList rest ≤ n := by omega
      rw [loadIVARWorklist]
      conv_rhs => rw [loadIVARWorklist]
      by_cases hvis : cur.id ∈ visited
      · simp only [hvis, if_true]
        exact ih rest visited self hrest
      · simp only [hvis, if_false]
        by_cases hphi : cur.kind = .Instruction .PHI
        · simp only [hphi, if_true]
          apply ih
          rw [LLValue.sizeList_append]
          have := LLValue.sizeList_filter_le (fun v => v.isInstruction) cur.operands
          omega
        · simp only [hphi, if_false]
          split
          · exact ih rest _ _ hrest
          · exact ih rest _ _ hrest


/-- C28: when `getPointsToSet(v, ptsSet)` returns false, the vector `ptsSet` is exactly
what the caller passed: it is not cleared, so the caller reads its own earlier contents. -/
theorem getPointsToSet_false_keeps_ptsSet (self : Andersen) (v : Value)
    (ptsSet : List Value) (h : (getPointsToSet self v ptsSet).ret = false) :
    (getPointsToSet self v ptsSet).ptsSet = ptsSet := by
  by_cases hk : lookedUpNode self.nodeFactory v = self.nodeFactory.InvalidIndex ∨
      lookedUpNode self.nodeFactory v = self.nodeFactory.getUniversalPtrNode
  · rw [getPointsToSet_unknown self v ptsSet hk]
  · rw [getPointsToSet_known self v ptsSet hk] at h
    simp at h

theorem getPointsToSet_false_keeps_ptsSet_witness :
    (getPointsToSet exampleAnalysis 99 [20, 21]).ret = false ∧
      (getPointsToSet exampleAnalysis 99 [20, 21]).ptsSet = [20, 21] :=
  ⟨by decide, getPointsToSet_false_keeps_ptsSet exampleAnalysis 99 [20, 21] (by decide)⟩

theorem lookup_insertType (m : List (Value × List String)) (V : Value) (T : String) :
    (insertType m V T).lookup V =
      some (if T ∈ (m.lookup V).getD [] then (m.lookup V).getD []
        else (m.lookup V).getD [] ++ [T]) := by
  induction m with
  | nil => simp [insertType, List.lookup]
  | cons p rest ih =>
    obtain ⟨k, types⟩ := p
    unfold insertType
    by_cases hk : k = V
    · subst hk
      simp [List.lookup]
    · have hk2 : (V == k) = false := by
        simp only [beq_eq_false_iff_ne, ne_eq]
        exact fun h => hk h.symm
      rw [if_neg hk]
      simp only [List.lookup, hk2]
      exact ih

theorem lookup_eq_none_of_no_key (m : List (Value × List String)) (k : Value)
    (h : ∀ p ∈ m, p.1 ≠ k) : m.lookup k = none := by
  induction m with
  | nil => rfl
  | cons p rest ih =>
    obtain ⟨k2, types⟩ := p
    have hk : (k == k2) = false := by
      simp only [beq_eq_false_iff_ne, ne_eq]
      exact fun e => h (k2, types) (List.mem_cons_self _ _) e.symm
    simp only [List.lookup, hk]
    exact ih (fun p hp => h p (List.mem_cons_of_mem _ hp))

/-- C30: after `setType(V, T)` with a non-empty `T`, `getType(L, out)` for the abstract
location `L` of `V` returns true, and `out` then holds `T` and every type name that
`getType(L, ..)` gave before; `setType` with an empty `T` leaves the analysis object as it
is; and `getType(k, out)` returns false with `out` untouched when no type is recorded under
the key `k` itself, whatever is recorded under other keys. -/
theorem setType_getType_round_trip (ops : NodeFactoryOps) (self : Andersen) (V : Value)
    (T : String) (out : List String) :
    (T.length ≠ 0 →
      (getType (setType ops self V T) (ops.getAbstractLocation self.nodeFactory V) out).1 =
          true ∧
        T ∈ (getType (setType ops self V T)
          (ops.getAbstractLocation self.nodeFactory V) out).2 ∧
        ∀ earlier : List String,
          (getType self (ops.getAbstractLocation self.nodeFactory V) earlier).1 = true →
          ∀ t ∈ (getType self (ops.getAbstractLocation self.nodeFactory V) earlier).2,
            t ∈ (getType (setType ops self V T)
              (ops.getAbstractLocation self.nodeFactory V) out).2) ∧
    (T.length = 0 → setType ops self V T = self) ∧
    ∀ k : Value, (∀ p ∈ self.ObjectTypes, p.1 ≠ k) → getType self k out = (false, out) := by
  refine ⟨?_, ?_, ?_⟩
  · intro hT
    have hget : getType (setType ops self V T) (ops.getAbstractLocation self.nodeFactory V)
        out = (true,
          if T ∈ (self.ObjectTypes.lookup
              (ops.getAbstractLocation self.nodeFactory V)).getD [] then
            (self.ObjectTypes.lookup (ops.getAbstractLocation self.nodeFactory V)).getD []
          else (self.ObjectTypes.lookup
              (ops.getAbstractLocation self.nodeFactory V)).getD [] ++ [T]) := by
      unfold getType setType
      rw [if_neg hT]
      simp only [lookup_insertType]
    rw [hget]
    refine ⟨rfl, ?_, ?_⟩
    · by_cases hmem : T ∈ (self.ObjectTypes.lookup
          (ops.getAbstractLocation self.nodeFactory V)).getD []
      · simp only [if_pos hmem]; exact hmem
      · simp only [if_neg hmem]; simp
    · intro earlier hret t ht
      unfold getType at hret ht
      cases hl : self.ObjectTypes.lookup (ops.getAbstractLocation self.nodeFactory V) with
      | none => simp [hl] at hret
      | some types =>
        simp only [hl] at ht
        simp only [Option.getD_some]
        split
        · exact ht
        · exact List.mem_append_left _ ht
  · intro hT
    unfold setType
    rw [if_pos hT]
  · intro k hk
    unfold getType
    rw [lookup_eq_none_of_no_key _ k hk]

theorem setType_getType_round_trip_witness :
    ((getType (setType aliasingOps typedAnalysis 20 "NSString") 8 []).1 = true ∧
      "NSString" ∈ (getType (setType aliasingOps typedAnalysis 20 "NSString") 8 []).2 ∧
      "NSObject" ∈ (getType (setType aliasingOps typedAnalysis 20 "NSString") 8 []).2) ∧
    setType aliasingOps typedAnalysis 20 "" = typedAnalysis ∧
    getType (setType aliasingOps typedAnalysis 20 "NSString") 20 ["stale"] =
      (false, ["stale"]) :=
  ⟨⟨((setType_getType_round_trip aliasingOps typedAnalysis 20 "NSString" []).1
        (by decide)).1,
      ((setType_getType_round_trip aliasingOps typedAnalysis 20 "NSString" []).1
        (by decide)).2.1,
      ((setType_getType_round_trip aliasingOps typedAnalysis 20 "NSString" []).1
        (by decide)).2.2 ["stale"] (by decide) "NSObject" (by decide)⟩,
    (setType_getType_round_trip aliasingOps typedAnalysis 20 "" []).2.1 (by decide),
    (setType_getType_round_trip aliasingOps
      (setType aliasingOps typedAnalysis 20 "NSString") 20 "NSString" ["stale"]).2.2 20
      (by decide)⟩



theorem even_ne_sentinel (k : Nat) : (2 * k : Nat) ≠ 4294967295 := by
  intro e
  have e' : (2 * k) % 2 = 4294967295 % 2 := congrArg (· % 2) e
  rw [Nat.mul_mod_right] at e'
  exact absurd e' (by decide)

theorem spacedOps_createsValueNodes : spacedOps.CreatesValueNodes 4294967295 := by
  intro nf v hnf
  unfold spacedOps
  simp only []
  by_cases h : nf.getValueNodeFor v = nf.InvalidIndex
  · rw [if_pos h]
    refine ⟨by simp, ?_, hnf, ?_⟩
    · show (100 + 4 * v : Nat) ≠ 4294967295
      have e : (100 + 4 * v : Nat) = 2 * (50 + 2 * v) := by ring
      rw [e]
      exact even_ne_sentinel _
    · intro x hx
      have hxv : x ≠ v := by
        intro e
        subst e
        exact hx (hnf ▸ h)
      simp [hxv]
  · rw [if_neg h]
    exact ⟨rfl, hnf ▸ h, hnf, fun _ _ => rfl⟩

theorem spacedOps_createsObjectNodes : spacedOps.CreatesObjectNodes 4294967295 := by
  intro nf v hnf
  have hne : (102 + 4 * v : Nat) ≠ 4294967295 := by
    have e : (102 + 4 * v : Nat) = 2 * (51 + 2 * v) := by ring
    rw [e]
    exact even_ne_sentinel _
  unfold spacedOps
  simp only []
  refine ⟨?_, ?_, ?_⟩
  · by_cases h : nf.getObjectNodeFor v = nf.InvalidIndex
    · rw [if_pos h]
      refine ⟨by simp, hne, hnf, fun _ => rfl, ?_⟩
      intro x hx
      have hxv : x ≠ v := by
        intro e
        subst e
        exact hx (hnf ▸ h)
      simp [hxv]
    · rw [if_neg h]
      exact ⟨rfl, hnf ▸ h, hnf, fun _ => rfl, fun _ _ => rfl⟩
  · by_cases h : nf.getObjectNodeFor v = nf.InvalidIndex
    · rw [if_pos h]
      refine ⟨hne, hnf, fun _ => rfl, ?_⟩
      intro x hx
      have hxv : x ≠ v := by
        intro e
        subst e
        exact hx (hnf ▸ h)
      simp [hxv]
    · rw [if_neg h]
      exact ⟨hnf ▸ h, hnf, fun _ => rfl, fun _ _ => rfl⟩
  · intro x
    split <;> rfl

/-- What `valueNodeOrCreate` leaves alone when node creation behaves as the spec says: the
object node of every value. -/
theorem valueNodeOrCreate_objects (ops : NodeFactoryOps) (invalid : NodeIndex)
    (hobj : ops.CreatesObjectNodes invalid)
    (self : Andersen) (hself : self.nodeFactory.InvalidIndex = invalid) (v x : Value) :
    (valueNodeOrCreate ops self v).2.nodeFactory.getObjectNodeFor x =
      self.nodeFactory.getObjectNodeFor x := by
  unfold valueNodeOrCreate
  split
  · exact (hobj self.nodeFactory v hself).2.2 x
  · rfl

/-- What `objectNodeOrCreate` guarantees when node creation behaves as the spec says. -/
theorem objectNodeOrCreate_spec (ops : NodeFactoryOps) (invalid : NodeIndex)
    (hobj : ops.CreatesObjectNodes invalid)
    (self : Andersen) (hself : self.nodeFactory.InvalidIndex = invalid) (v : Value) :
    (objectNodeOrCreate ops self v).2.nodeFactory.getObjectNodeFor v =
      (objectNodeOrCreate ops self v).1 ∧
    (objectNodeOrCreate ops self v).1 ≠ invalid ∧
    (objectNodeOrCreate ops self v).2.nodeFactory.InvalidIndex = invalid ∧
    (∀ x, (objectNodeOrCreate ops self v).2.nodeFactory.getValueNodeFor x =
      self.nodeFactory.getValueNodeFor x) ∧
    ∀ x, self.nodeFactory.getObjectNodeFor x ≠ invalid →
      (objectNodeOrCreate ops self v).2.nodeFactory.getObjectNodeFor x =
        self.nodeFactory.getObjectNodeFor x := by
  unfold objectNodeOrCreate
  by_cases h : self.nodeFactory.getObjectNodeFor v = self.nodeFactory.InvalidIndex
  · rw [if_pos h]
    exact (hobj self.nodeFactory v hself).1
  · rw [if_neg h]
    exact ⟨rfl, hself ▸ h, hself, fun _ => rfl, fun _ _ => rfl⟩

/-- What `objectNodeOrCreateDummy` guarantees when node creation behaves as the spec
says. -/
theorem objectNodeOrCreateDummy_spec (ops : NodeFactoryOps) (invalid : NodeIndex)
    (hobj : ops.CreatesObjectNodes invalid)
    (self : Andersen) (hself : self.nodeFactory.InvalidIndex = invalid) (v : Value) :
    (objectNodeOrCreateDummy ops self v).1 ≠ invalid ∧
    (objectNodeOrCreateDummy ops self v).2.nodeFactory.InvalidIndex = invalid ∧
    (∀ x, (objectNodeOrCreateDummy ops self v).2.nodeFactory.getValueNodeFor x =
      self.nodeFactory.getValueNodeFor x) ∧
    ∀ x, self.nodeFactory.getObjectNodeFor x ≠ invalid →
      (objectNodeOrCreateDummy ops self v).2.nodeFactory.getObjectNodeFor x =
        self.nodeFactory.getObjectNodeFor x := by
  unfold objectNodeOrCreateDummy
  by_cases h : self.nodeFactory.getObjectNodeFor v = self.nodeFactory.InvalidIndex
  · rw [if_pos h]
    exact (hobj self.nodeFactory v hself).2.1
  · rw [if_neg h]
    exact ⟨hself ▸ h, hself, fun _ => rfl, fun _ _ => rfl⟩

theorem constIntToPtrPointsToData_invalidIndex (ops : NodeFactoryOps) (invalid : NodeIndex)
    (hobj : ops.CreatesObjectNodes invalid)
    (MachO : ObjectiveCBinary) (ctx : LLVMContext) (self : Andersen)
    (hself : self.nodeFactory.InvalidIndex = invalid) (IntToPtr Const : Value) (zext : Nat) :
    (constIntToPtrPointsToData ops MachO ctx self IntToPtr Const zext).2.nodeFactory.InvalidIndex
      = invalid := by
  have hd := (hobj self.nodeFactory Const hself).2.1.2.1
  unfold constIntToPtrPointsToData createObjectNodeDummy
  simp only []
  split <;> split <;> (try split) <;> simp [hself] <;> split <;> simp_all



theorem constIntToPtrPointsToData_valueNodes (ops : NodeFactoryOps) (invalid : NodeIndex)
    (hobj : ops.CreatesObjectNodes invalid)
    (MachO : ObjectiveCBinary) (ctx : LLVMContext) (self : Andersen)
    (hself : self.nodeFactory.InvalidIndex = invalid) (IntToPtr Const : Value) (zext : Nat)
    (x : Value) :
    (constIntToPtrPointsToData ops MachO ctx self IntToPtr Const
      zext).2.nodeFactory.getValueNodeFor x = self.nodeFactory.getValueNodeFor x := by
  have hd := (hobj self.nodeFactory Const hself).2.1.2.2.1 x
  unfold constIntToPtrPointsToData createObjectNodeDummy
  simp only []
  split <;> split <;> (try split) <;> simp [hself] <;> split <;> simp_all

/-- The data that `addConstraintsForConstIntToPtr` determines is the data of the reference
definition, on the node factory of the start of the call. -/
theorem constIntToPtrPointsToData_eq_reference (ops : NodeFactoryOps)
    (MachO : ObjectiveCBinary) (ctx : LLVMContext) (self : Andersen) (IntToPtr Const : Value)
    (zext : Nat) :
    (constIntToPtrPointsToData ops MachO ctx self IntToPtr Const zext).1 =
      constIntToPtrDataReference ops MachO ctx self.nodeFactory Const zext := by
  unfold constIntToPtrPointsToData constIntToPtrDataReference createObjectNodeDummy
  simp only []
  by_cases hloc : ops.getAbstractLocation self.nodeFactory Const = Const <;>
    cases hivar : MachO.isIVAR zext <;>
    simp [hloc, apply_ite Prod.fst]

/-- Counterexample to C29: in a binary that has no string at the address 4294967400 itself
but holds there a pointer to the string `hello`, and no instance variable,
`addConstraintsForConstIntToPtr` appends `ADDR_OF(d, o)` with `o` the object node of the
string constant `hello`, not the object node of the abstract location of `Const`, for
which no object node exists. -/
theorem addConstraintsForConstIntToPtr_reads_string_at_stored_pointer :
    indirectStringMachO.getString 4294967400 = "" ∧
    indirectStringMachO.isIVAR 4294967400 = false ∧
    (addConstraintsForConstIntToPtr spacedOps indirectStringMachO exampleContext
      emptyAnalysis 80 81 4294967400).constraints = [⟨.ADDR_OF, 420, 8000122⟩] ∧
    (addConstraintsForConstIntToPtr spacedOps indirectStringMachO exampleContext
      emptyAnalysis 80 81 4294967400).nodeFactory.getObjectNodeFor
        (exampleContext.constantString "hello") = 8000122 ∧
    (addConstraintsForConstIntToPtr spacedOps indirectStringMachO exampleContext
      emptyAnalysis 80 81 4294967400).nodeFactory.getObjectNodeFor
        (spacedOps.getAbstractLocation
          (addConstraintsForConstIntToPtr spacedOps indirectStringMachO exampleContext
            emptyAnalysis 80 81 4294967400).nodeFactory 81) = 4294967295 :=
  ⟨by decide, rfl, rfl, rfl, rfl⟩

/-- C29, amended: `addConstraintsForConstIntToPtr(IntToPtr, Const)` appends exactly one
constraint to the constraints it finds, which it leaves as they are, and that constraint is
`ADDR_OF(d, o)`: `d` is the value node of `IntToPtr` afterwards, a valid index, and the
one `IntToPtr` had before where it had one; `o` is the object node, afterwards, of the data
the constant refers to, a valid index.  The data is the string constant made of the string
that the binary has at the value stored at the address when that value is not 0, and at the
address otherwise, when that string is not empty and the address is not an instance
variable; otherwise it is the abstract location of `Const`, taken after the creation of a
dummy object node for `Const` when `Const` is its own abstract location.  Node creation is
assumed to behave as the spec says. -/
theorem addConstraintsForConstIntToPtr_appends_addr_of (ops : NodeFactoryOps)
    (invalid : NodeIndex) (hops : ops.CreatesValueNodes invalid)
    (hobj : ops.CreatesObjectNodes invalid) (MachO : ObjectiveCBinary) (ctx : LLVMContext)
    (self : Andersen) (hself : self.nodeFactory.InvalidIndex = invalid)
    (IntToPtr Const : Value) (zext : Nat) :
    (addConstraintsForConstIntToPtr ops MachO ctx self IntToPtr Const zext).constraints =
      self.constraints ++
        [⟨.ADDR_OF,
          (addConstraintsForConstIntToPtr ops MachO ctx self IntToPtr Const
            zext).nodeFactory.getValueNodeFor IntToPtr,
          (addConstraintsForConstIntToPtr ops MachO ctx self IntToPtr Const
            zext).nodeFactory.getObjectNodeFor
              (constIntToPtrDataReference ops MachO ctx self.nodeFactory Const zext)⟩] ∧
    (addConstraintsForConstIntToPtr ops MachO ctx self IntToPtr Const
      zext).nodeFactory.getValueNodeFor IntToPtr ≠ invalid ∧
    (addConstraintsForConstIntToPtr ops MachO ctx self IntToPtr Const
      zext).nodeFactory.getObjectNodeFor
        (constIntToPtrDataReference ops MachO ctx self.nodeFactory Const zext) ≠ invalid ∧
    (self.nodeFactory.getValueNodeFor IntToPtr ≠ invalid →
      (addConstraintsForConstIntToPtr ops MachO ctx self IntToPtr Const
        zext).nodeFactory.getValueNodeFor IntToPtr =
          self.nodeFactory.getValueNodeFor IntToPtr) := by
  rw [← constIntToPtrPointsToData_eq_reference ops MachO ctx self IntToPtr Const zext]
  have h1 := constIntToPtrPointsToData_invalidIndex ops invalid hobj MachO ctx self hself
    IntToPtr Const zext
  have h2 := objectNodeOrCreate_spec ops invalid hobj _ h1
    (constIntToPtrPointsToData ops MachO ctx self IntToPtr Const zext).1
  have h3 := valueNodeOrCreate_spec ops invalid hops _ h2.2.2.1 IntToPtr
  have h4 := valueNodeOrCreate_objects ops invalid hobj _ h2.2.2.1 IntToPtr
    (constIntToPtrPointsToData ops MachO ctx self IntToPtr Const zext).1
  have hv : (addConstraintsForConstIntToPtr ops MachO ctx self IntToPtr Const
      zext).nodeFactory.getValueNodeFor IntToPtr =
      (valueNodeOrCreate ops (objectNodeOrCreate ops
        (constIntToPtrPointsToData ops MachO ctx self IntToPtr Const zext).2
        (constIntToPtrPointsToData ops MachO ctx self IntToPtr Const zext).1).2
        IntToPtr).1 := h3.1
  have ho : (addConstraintsForConstIntToPtr ops MachO ctx self IntToPtr Const
      zext).nodeFactory.getObjectNodeFor
        (constIntToPtrPointsToData ops MachO ctx self IntToPtr Const zext).1 =
      (objectNodeOrCreate ops
        (constIntToPtrPointsToData ops MachO ctx self IntToPtr Const zext).2
        (constIntToPtrPointsToData ops MachO ctx self IntToPtr Const zext).1).1 :=
    h4.trans h2.1
  refine ⟨?_, ?_, ?_, ?_⟩
  · rw [hv, ho]
    unfold addConstraintsForConstIntToPtr
    simp only [addConstraint, (valueNodeOrCreate_frame _ _ _).1,
      (objectNodeOrCreate_frame _ _ _).1, constIntToPtrPointsToData_constraints]
  · rw [hv]; exact h3.2.1
  · rw [ho]; exact h2.2.1
  · intro hex
    have e1 := constIntToPtrPointsToData_valueNodes ops invalid hobj MachO ctx self hself
      IntToPtr Const zext IntToPtr
    have e2 := h2.2.2.2.1 IntToPtr
    have hex2 : (objectNodeOrCreate ops
        (constIntToPtrPointsToData ops MachO ctx self IntToPtr Const zext).2
        (constIntToPtrPointsToData ops MachO ctx self IntToPtr Const
          zext).1).2.nodeFactory.getValueNodeFor IntToPtr ≠ invalid := by
      rw [e2, e1]; exact hex
    have e3 := h3.2.2.2 IntToPtr hex2
    show (valueNodeOrCreate ops _ IntToPtr).2.nodeFactory.getValueNodeFor IntToPtr = _
    rw [e3, e2, e1]

theorem addConstraintsForConstIntToPtr_appends_addr_of_witness :
    (addConstraintsForConstIntToPtr spacedOps indirectStringMachO exampleContext
        emptyAnalysis 80 81 4294967400).constraints =
      emptyAnalysis.constraints ++ [⟨.ADDR_OF, 420, 8000122⟩] ∧
    constIntToPtrDataReference spacedOps indirectStringMachO exampleContext
      emptyAnalysis.nodeFactory 81 4294967400 = exampleContext.constantString "hello" ∧
    (addConstraintsForConstIntToPtr spacedOps exampleMachO exampleContext emptyAnalysis 80 81
      4294967400).constraints = emptyAnalysis.constraints ++ [⟨.ADDR_OF, 420, 426⟩] ∧
    constIntToPtrDataReference spacedOps exampleMachO exampleContext
      emptyAnalysis.nodeFactory 81 4294967400 = 81 :=
  ⟨(addConstraintsForConstIntToPtr_appends_addr_of spacedOps 4294967295
      spacedOps_createsValueNodes spacedOps_createsObjectNodes indirectStringMachO
      exampleContext emptyAnalysis rfl 80 81 4294967400).1,
    rfl,
    (addConstraintsForConstIntToPtr_appends_addr_of spacedOps 4294967295
      spacedOps_createsValueNodes spacedOps_createsObjectNodes exampleMachO exampleContext
      emptyAnalysis rfl 80 81 4294967400).1,
    rfl⟩



theorem appends_refl (P : AndersConstraint → Prop) (s : Andersen) : Appends P s s :=
  ⟨[], by simp, by simp⟩

theorem appends_trans {P : AndersConstraint → Prop} {s t u : Andersen}
    (h₁ : Appends P s t) (h₂ : Appends P t u) : Appends P s u := by
  obtain ⟨m₁, e₁, p₁⟩ := h₁
  obtain ⟨m₂, e₂, p₂⟩ := h₂
  refine ⟨m₁ ++ m₂, by rw [e₂, e₁, List.append_assoc], ?_⟩
  intro c hc
  rcases List.mem_append.1 hc with h | h
  · exact p₁ c h
  · exact p₂ c h

theorem appends_mono {P Q : AndersConstraint → Prop} {s t : Andersen}
    (hPQ : ∀ c, P c → Q c) (h : Appends P s t) : Appends Q s t := by
  obtain ⟨m, e, p⟩ := h
  exact ⟨m, e, fun c hc => hPQ c (p c hc)⟩

theorem appends_of_constraints_eq (P : AndersConstraint → Prop) {s t : Andersen}
    (h : t.constraints = s.constraints) : Appends P s t :=
  ⟨[], by simp [h], by simp⟩

theorem appends_addConstraint {P : AndersConstraint → Prop} (s : Andersen)
    (Ty : ConstraintType) (D S : NodeIndex) (h : P ⟨Ty, D, S⟩) :
    Appends P s (addConstraint s Ty D S) :=
  ⟨[⟨Ty, D, S⟩], rfl, by simpa using h⟩

theorem keepsValueNodes_refl {invalid : NodeIndex} {s : Andersen}
    (h : s.nodeFactory.InvalidIndex = invalid) : KeepsValueNodes invalid s s :=
  ⟨h, fun _ _ => rfl⟩

theorem keepsValueNodes_trans {invalid : NodeIndex} {s t u : Andersen}
    (h₁ : KeepsValueNodes invalid s t) (h₂ : KeepsValueNodes invalid t u) :
    KeepsValueNodes invalid s u := by
  refine ⟨h₂.1, ?_⟩
  intro x hx
  have e₁ := h₁.2 x hx
  rw [h₂.2 x (by rw [e₁]; exact hx), e₁]

theorem keepsValueNodes_of_nodeFactory_eq {invalid : NodeIndex} {s t : Andersen}
    (hs : s.nodeFactory.InvalidIndex = invalid) (h : t.nodeFactory = s.nodeFactory) :
    KeepsValueNodes invalid s t :=
  ⟨by rw [h]; exact hs, fun _ _ => by rw [h]⟩

theorem valueNodeOrCreate_keeps (ops : NodeFactoryOps) (invalid : NodeIndex)
    (hops : ops.CreatesValueNodes invalid) (s : Andersen)
    (hs : s.nodeFactory.InvalidIndex = invalid) (v : Value) :
    KeepsValueNodes invalid s (valueNodeOrCreate ops s v).2 :=
  ⟨(valueNodeOrCreate_spec ops invalid hops s hs v).2.2.1,
    (valueNodeOrCreate_spec ops invalid hops s hs v).2.2.2⟩

theorem objectNodeOrCreate_keeps (ops : NodeFactoryOps) (invalid : NodeIndex)
    (hobj : ops.CreatesObjectNodes invalid) (s : Andersen)
    (hs : s.nodeFactory.InvalidIndex = invalid) (v : Value) :
    KeepsValueNodes invalid s (objectNodeOrCreate ops s v).2 :=
  ⟨(objectNodeOrCreate_spec ops invalid hobj s hs v).2.2.1,
    fun x _ => (objectNodeOrCreate_spec ops invalid hobj s hs v).2.2.2.1 x⟩

theorem objectNodeOrCreateDummy_keeps (ops : NodeFactoryOps) (invalid : NodeIndex)
    (hobj : ops.CreatesObjectNodes invalid) (s : Andersen)
    (hs : s.nodeFactory.InvalidIndex = invalid) (v : Value) :
    KeepsValueNodes invalid s (objectNodeOrCreateDummy ops s v).2 :=
  ⟨(objectNodeOrCreateDummy_spec ops invalid hobj s hs v).2.1,
    fun x _ => (objectNodeOrCreateDummy_spec ops invalid hobj s hs v).2.2.1 x⟩

theorem objectNodeOrCreateDummy_frame (ops : NodeFactoryOps) (self : Andersen) (v : Value) :
    (objectNodeOrCreateDummy ops self v).2.constraints = self.constraints ∧
    (objectNodeOrCreateDummy ops self v).2.handledAliases = self.handledAliases := by
  unfold objectNodeOrCreateDummy createObjectNodeDummy
  split <;> exact ⟨rfl, rfl⟩

theorem valueNodeOrCreate_handledAliases (ops : NodeFactoryOps) (self : Andersen)
    (v : Value) :
    (valueNodeOrCreate ops self v).2.handledAliases = self.handledAliases := by
  unfold valueNodeOrCreate createValueNode
  split <;> rfl

theorem setType_frame (ops : NodeFactoryOps) (self : Andersen) (V : Value) (T : String) :
    (setType ops self V T).constraints = self.constraints ∧
    (setType ops self V T).nodeFactory = self.nodeFactory := by
  unfold setType
  split <;> exact ⟨rfl, rfl⟩

theorem insertHandledAlias_frame (self : Andersen) (V : Value) :
    (insertHandledAlias self V).constraints = self.constraints ∧
    (insertHandledAlias self V).nodeFactory = self.nodeFactory := by
  unfold insertHandledAlias
  split <;> exact ⟨rfl, rfl⟩

theorem addConstraintsForConstIntToPtr_appends (ops : NodeFactoryOps)
    (MachO : ObjectiveCBinary) (ctx : LLVMContext) (self : Andersen) (IntToPtr Const : Value)
    (zext : Nat) :
    Appends (fun c => c.type = .ADDR_OF) self
      (addConstraintsForConstIntToPtr ops MachO ctx self IntToPtr Const zext) := by
  obtain ⟨d, o, h⟩ := addConstraintsForConstIntToPtr_constraints ops MachO ctx self IntToPtr
    Const zext
  exact ⟨[⟨.ADDR_OF, d, o⟩], h, by simp⟩

theorem addConstraintsForConstIntToPtr_keeps (ops : NodeFactoryOps) (invalid : NodeIndex)
    (hops : ops.CreatesValueNodes invalid) (hobj : ops.CreatesObjectNodes invalid)
    (MachO : ObjectiveCBinary) (ctx : LLVMContext) (self : Andersen)
    (hself : self.nodeFactory.InvalidIndex = invalid) (IntToPtr Const : Value) (zext : Nat) :
    KeepsValueNodes invalid self
      (addConstraintsForConstIntToPtr ops MachO ctx self IntToPtr Const zext) := by
  have h1 := constIntToPtrPointsToData_invalidIndex ops invalid hobj MachO ctx self hself
    IntToPtr Const zext
  have k1 : KeepsValueNodes invalid self
      (constIntToPtrPointsToData ops MachO ctx self IntToPtr Const zext).2 :=
    ⟨h1, fun x _ => constIntToPtrPointsToData_valueNodes ops invalid hobj MachO ctx self hself
      IntToPtr Const zext x⟩
  have k2 := objectNodeOrCreate_keeps ops invalid hobj _ h1
    (constIntToPtrPointsToData ops MachO ctx self IntToPtr Const zext).1
  have k3 := valueNodeOrCreate_keeps ops invalid hops _ k2.1 IntToPtr
  exact keepsValueNodes_trans k1 (keepsValueNodes_trans k2 k3)

theorem collectConstraintsForStoredConstant_appends (ops : NodeFactoryOps)
    (MachO : ObjectiveCBinary) (ctx : LLVMContext) (self : Andersen) (v : LLValue) :
    Appends (fun c => c.type = .ADDR_OF) self
      (collectConstraintsForStoredConstant ops MachO ctx self v) := by
  unfold collectConstraintsForStoredConstant
  simp only []
  split
  · split
    · split
      · exact appends_trans
          (appends_of_constraints_eq _ (by
            simp only [(valueNodeOrCreate_frame _ _ _).1, (objectNodeOrCreate_frame _ _ _).1]))
          (appends_addConstraint _ _ _ _ rfl)
      · have h : Appends (fun c => c.type = .ADDR_OF) self
            (addConstraint (objectNodeOrCreateDummy ops (valueNodeOrCreate ops self v.id).2
              v.id).2 .ADDR_OF (valueNodeOrCreate ops self v.id).1
              (objectNodeOrCreateDummy ops (valueNodeOrCreate ops self v.id).2 v.id).1) :=
          appends_trans
            (appends_of_constraints_eq _ (by
              simp only [(valueNodeOrCreate_frame _ _ _).1,
                (objectNodeOrCreateDummy_frame _ _ _).1]))
            (appends_addConstraint _ _ _ _ rfl)
        split
        · exact appends_trans h (appends_of_constraints_eq _ (setType_frame _ _ _ _).1)
        · exact h
    · exact appends_refl _ _
  · exact appends_refl _ _


theorem foldl_rel {β : Type} (R : Andersen → Andersen → Prop) (hrefl : ∀ a, R a a)
    (htrans : ∀ a b c, R a b → R b c → R a c) (f : Andersen → β → Andersen)
    (hstep : ∀ a x, R a (f a x)) : ∀ (l : List β) (a : Andersen), R a (l.foldl f a) := by
  intro l
  induction l with
  | nil => intro a; exact hrefl a
  | cons x xs ih =>
    intro a
    rw [List.foldl_cons]
    exact htrans _ _ _ (hstep a x) (ih (f a x))

theorem foldlM_rel {β : Type} (R : Andersen → Andersen → Prop) (hrefl : ∀ a, R a a)
    (htrans : ∀ a b c, R a b → R b c → R a c) (f : Andersen → β → Option Andersen)
    (hstep : ∀ a x a', f a x = some a' → R a a') :
    ∀ (l : List β) (a t : Andersen), l.foldlM f a = some t → R a t := by
  intro l
  induction l with
  | nil =>
    intro a t h
    simp only [List.foldlM_nil, Option.pure_def, Option.some.injEq] at h
    rw [← h]
    exact hrefl a
  | cons x xs ih =>
    intro a t h
    rw [List.foldlM_cons] at h
    cases hf : f a x with
    | none => rw [hf] at h; simp at h
    | some a' =>
      rw [hf] at h
      simp only [Option.bind_eq_bind, Option.some_bind] at h
      exact htrans _ _ _ (hstep a x a' hf) (ih a' t h)

theorem findAliasesValue_appends (ops : NodeFactoryOps) (Address : Value) (self : Andersen)
    (V : Value) :
    Appends (fun c => c.type = .COPY) self (findAliasesValue ops Address self V) := by
  unfold findAliasesValue
  split
  · exact appends_refl _ _
  · simp only []
    exact appends_trans
      (appends_trans
        (appends_of_constraints_eq _ (valueNodeOrCreate_frame _ _ _).1)
        (appends_addConstraint _ _ _ _ rfl))
      (appends_of_constraints_eq _ (insertHandledAlias_frame _ _).1)

/-- The constraints that `findAliases` appends are `COPY` constraints. -/
theorem findAliases_appends (ops : NodeFactoryOps) (SAP : StackAccessPass) (self : Andersen)
    (Address : LLValue) (Sharp : Bool) (SPIdx : Nat) (r : Bool × Andersen)
    (h : findAliases ops SAP self Address Sharp SPIdx = some r) :
    Appends (fun c => c.type = .COPY) self r.2 := by
  unfold findAliases at h
  simp only [] at h
  split at h
  · split at h
    · split at h
      · simp only [Option.some.injEq] at h; rw [← h]; exact appends_refl _ _
      · simp only [Option.some.injEq] at h; rw [← h]; exact appends_refl _ _
      · rw [Option.map_eq_some'] at h
        obtain ⟨t, ht, hr⟩ := h
        rw [← hr]
        refine foldlM_rel (Appends (fun c => c.type = .COPY)) (appends_refl _)
          (fun _ _ _ => appends_trans) _ ?_ _ _ _ ht
        intro a offset a' hstep
        split at hstep
        · simp at hstep
        · simp only [Option.some.injEq] at hstep
          rw [← hstep]
          exact foldl_rel (Appends (fun c => c.type = .COPY)) (appends_refl _)
            (fun _ _ _ => appends_trans) _ (findAliasesValue_appends ops Address.id) _ _
    · simp only [Option.some.injEq] at h; rw [← h]; exact appends_refl _ _
  · simp only [Option.some.injEq] at h; rw [← h]; exact appends_refl _ _

theorem matchIntToPtr_gep (p : LLValue) (hgep : p.kind = .Instruction .GetElementPtr) :
    matchIntToPtr p = none := by
  unfold matchIntToPtr
  rw [hgep]

theorem matchIVARAccess_gep (p : LLValue) (hgep : p.kind = .Instruction .GetElementPtr) :
    matchIVARAccess p = none := by
  unfold matchIVARAccess
  rw [matchIntToPtr_gep p hgep]

theorem matchIntToPtrConstantInt_gep (p : LLValue)
    (hgep : p.kind = .Instruction .GetElementPtr) : matchIntToPtrConstantInt p = none := by
  unfold matchIntToPtrConstantInt
  rw [matchIntToPtr_gep p hgep]

/-- C27: for a store whose address operand `p` is a GEP instruction, whatever the stored
value `v` is, every constraint that `collectConstraintsForInstruction` appends is of kind
`ADDR_OF` or `COPY`, so none is a `STORE` constraint; the constraints found are kept.  A
`ConstantInt` is of integer type, never pointer-typed, which is the hypothesis
`hint`. -/
theorem collectConstraintsForInstruction_store_to_gep (ops : NodeFactoryOps)
    (MachO : ObjectiveCBinary) (ctx : LLVMContext) (SAP : StackAccessPass)
    (otherCases : Andersen → LLValue → Option Andersen) (self : Andersen)
    (inst v p : LLValue) (rest : List LLValue)
    (hstore : inst.kind = .Instruction .Store)
    (hoperands : inst.operands = v :: p :: rest)
    (hgep : p.kind = .Instruction .GetElementPtr)
    (hint : v.isConstantInt = true → v.isPointerTy = false) :
    ∀ a, collectConstraintsForInstruction ops MachO ctx SAP otherCases self inst = some a →
      ∃ more, a.constraints = self.constraints ++ more ∧
        ∀ c ∈ more, (c.type = .ADDR_OF ∨ c.type = .COPY) ∧ c.type ≠ .STORE := by
  intro a hrun
  have key : Appends (fun c => c.type = .ADDR_OF ∨ c.type = .COPY) self a := by
    unfold collectConstraintsForInstruction at hrun
    rw [hstore] at hrun
    simp only [] at hrun
    unfold collectConstraintsForStore at hrun
    rw [hoperands] at hrun
    simp only [] at hrun
    by_cases hc : v.isConstantInt = true
    · rw [if_neg (by simp [hc])] at hrun
      unfold collectConstraintsForStoreTail at hrun
      simp only [matchIntToPtrConstantInt_gep p hgep, hint hc, Bool.false_eq_true,
        if_false, Option.some.injEq] at hrun
      rw [← hrun]
      unfold collectConstraintsForStoreOfNonPointer
      have hfp : v.kind ≠ .ConstantFP := by
        intro e
        unfold LLValue.isConstantInt at hc
        rw [e] at hc
        simp at hc
      rw [if_neg hfp]
      unfold collectConstraintsForStoreAddress
      simp only [matchIVARAccess_gep p hgep, matchIntToPtrConstantInt_gep p hgep, hgep,
        if_true]
      exact appends_mono (fun c h => Or.inl h)
        (collectConstraintsForStoredConstant_appends ops MachO ctx self v)
    · rw [if_pos ⟨hgep, hc⟩] at hrun
      split at hrun
      · split at hrun
        · rw [Option.map_eq_some'] at hrun
          obtain ⟨r, hr, ha⟩ := hrun
          rw [← ha]
          have h1 : Appends (fun c => c.type = .ADDR_OF ∨ c.type = .COPY) self
              (addConstraint (objectNodeOrCreateDummy ops (valueNodeOrCreate ops self v.id).2
                v.id).2 .ADDR_OF (valueNodeOrCreate ops self v.id).1
                (objectNodeOrCreateDummy ops (valueNodeOrCreate ops self v.id).2 v.id).1) :=
            appends_trans
              (appends_of_constraints_eq _ (by
                simp only [(valueNodeOrCreate_frame _ _ _).1,
                  (objectNodeOrCreateDummy_frame _ _ _).1]))
              (appends_addConstraint _ _ _ _ (Or.inl rfl))
          exact appends_trans
            (appends_trans h1 (appends_mono (fun c h => Or.inr h)
              (findAliases_appends ops SAP _ v true 3 r hr)))
            (appends_of_constraints_eq _ (insertHandledAlias_frame _ _).1)
        · simp only [Option.some.injEq] at hrun; rw [← hrun]; exact appends_refl _ _
      · simp only [Option.some.injEq] at hrun; rw [← hrun]; exact appends_refl _ _
  obtain ⟨more, e, hmore⟩ := key
  refine ⟨more, e, fun c hc => ⟨hmore c hc, ?_⟩⟩
  rcases hmore c hc with h | h <;> rw [h] <;> decide

theorem collectConstraintsForInstruction_store_to_gep_witness :
    ∃ a, collectConstraintsForInstruction spacedOps exampleMachO exampleContext exampleSAP
        (fun a _ => some a) emptyAnalysis gepStore = some a ∧
      ∃ more, a.constraints = emptyAnalysis.constraints ++ more ∧
        ∀ c ∈ more, (c.type = .ADDR_OF ∨ c.type = .COPY) ∧ c.type ≠ .STORE :=
  ⟨_, rfl,
    collectConstraintsForInstruction_store_to_gep spacedOps exampleMachO exampleContext
      exampleSAP (fun a _ => some a) emptyAnalysis gepStore
      (.mk 76 (.ConstantInt 4294967400 64) false [])
      (.mk 78 (.Instruction .GetElementPtr) true
        [.mk 72 .Argument true [], .mk 79 (.ConstantInt 1 64) false []]) []
      rfl rfl rfl (fun _ => rfl) _ rfl⟩


theorem collectConstraintsForStoredConstant_addr_of (ops : NodeFactoryOps)
    (invalid : NodeIndex) (hops : ops.CreatesValueNodes invalid)
    (hobj : ops.CreatesObjectNodes invalid) (MachO : ObjectiveCBinary) (ctx : LLVMContext)
    (self : Andersen) (hself : self.nodeFactory.InvalidIndex = invalid) (v : LLValue)
    (hc : v.isConstantInt = true) (hb : v.bits ≤ 64) (hz : v.zext ≥ 4294967296) :
    ∃ o, (collectConstraintsForStoredConstant ops MachO ctx self v).constraints =
        self.constraints ++
          [⟨.ADDR_OF, (collectConstraintsForStoredConstant ops MachO ctx self
            v).nodeFactory.getValueNodeFor v.id, o⟩] ∧
      (collectConstraintsForStoredConstant ops MachO ctx self v).nodeFactory.getValueNodeFor
        v.id ≠ invalid ∧
      (collectConstraintsForStoredConstant ops MachO ctx self v).nodeFactory.InvalidIndex =
        invalid := by
  unfold collectConstraintsForStoredConstant
  rw [if_pos ⟨hc, hb⟩, if_pos hz]
  simp only []
  split
  · have h1 := objectNodeOrCreate_spec ops invalid hobj self hself
      (ctx.constantString (MachO.getString v.zext))
    have h2 := valueNodeOrCreate_spec ops invalid hops _ h1.2.2.1 v.id
    refine ⟨(objectNodeOrCreate ops self (ctx.constantString (MachO.getString v.zext))).1,
      ?_, ?_, h2.2.2.1⟩
    · simp only [addConstraint, (valueNodeOrCreate_frame _ _ _).1,
        (objectNodeOrCreate_frame _ _ _).1, h2.1]
    · simp only [addConstraint, h2.1]
      exact h2.2.1
  · have h1 := valueNodeOrCreate_spec ops invalid hops self hself v.id
    have h2 := objectNodeOrCreateDummy_spec ops invalid hobj _ h1.2.2.1 v.id
    have e : (objectNodeOrCreateDummy ops (valueNodeOrCreate ops self v.id).2
        v.id).2.nodeFactory.getValueNodeFor v.id = (valueNodeOrCreate ops self v.id).1 := by
      rw [h2.2.2.1 v.id, h1.1]
    refine ⟨(objectNodeOrCreateDummy ops (valueNodeOrCreate ops self v.id).2 v.id).1,
      ?_, ?_, ?_⟩
    · split <;>
      simp only [addConstraint, (valueNodeOrCreate_frame _ _ _).1,
        (objectNodeOrCreateDummy_frame _ _ _).1, (setType_frame _ _ _ _).1,
        (setType_frame _ _ _ _).2, e]
    · split <;> simp only [addConstraint, (setType_frame _ _ _ _).2, e] <;> exact h1.2.1
    · split <;> simp only [addConstraint, (setType_frame _ _ _ _).2] <;> exact h2.2.1

theorem collectConstraintsForStoreAddress_keeps (ops : NodeFactoryOps)
    (invalid : NodeIndex) (hops : ops.CreatesValueNodes invalid) (a : Andersen)
    (ha : a.nodeFactory.InvalidIndex = invalid) (v p : LLValue) :
    KeepsValueNodes invalid a (collectConstraintsForStoreAddress ops a v p) ∧
      Appends (fun _ => True) a (collectConstraintsForStoreAddress ops a v p) := by
  unfold collectConstraintsForStoreAddress
  split
  · rename_i Base IVARPtr _
    split
    · simp only []
      have k1 := valueNodeOrCreate_keeps ops invalid hops a ha IVARPtr.id
      have k2 := valueNodeOrCreate_keeps ops invalid hops _ k1.1 v.id
      have k3 := valueNodeOrCreate_keeps ops invalid hops
        (addConstraint (valueNodeOrCreate ops (valueNodeOrCreate ops a IVARPtr.id).2 v.id).2
          .STORE (valueNodeOrCreate ops a IVARPtr.id).1
          (valueNodeOrCreate ops (valueNodeOrCreate ops a IVARPtr.id).2 v.id).1) k2.1 p.id
      refine ⟨keepsValueNodes_trans k1 (keepsValueNodes_trans k2 k3), ?_⟩
      exact appends_trans
        (appends_trans
          (appends_of_constraints_eq _ (by
            simp only [(valueNodeOrCreate_frame _ _ _).1]))
          (appends_addConstraint _ _ _ _ trivial))
        (appends_trans
          (appends_of_constraints_eq _ (valueNodeOrCreate_frame _ _ _).1)
          (appends_addConstraint _ _ _ _ trivial))
    · exact ⟨keepsValueNodes_refl ha, appends_refl _ _⟩
  · split
    · simp only []
      have k1 := valueNodeOrCreate_keeps ops invalid hops a ha v.id
      have k2 := valueNodeOrCreate_keeps ops invalid hops _ k1.1 p.id
      refine ⟨keepsValueNodes_trans k1 k2, ?_⟩
      exact appends_trans
        (appends_of_constraints_eq _ (by
          simp only [(valueNodeOrCreate_frame _ _ _).1]))
        (appends_addConstraint _ _ _ _ trivial)
    · split
      · exact ⟨keepsValueNodes_refl ha, appends_refl _ _⟩
      · simp only []
        have k1 := valueNodeOrCreate_keeps ops invalid hops a ha v.id
        refine ⟨k1, ?_⟩
        exact appends_trans
          (appends_of_constraints_eq _ (valueNodeOrCreate_frame _ _ _).1)
          (appends_addConstraint _ _ _ _ trivial)


/-- Counterexample to C22: for `store i64 5, i64* %72`, a store of a constant integer of 64
bits, `collectConstraintsForInstruction` appends the constraint `STORE(node(%72), node(5))`
and no `ADDR_OF` constraint. -/
theorem small_stored_constant_gets_no_addr_of :
    ∃ a, collectConstraintsForInstruction spacedOps exampleMachO exampleContext exampleSAP
        (fun a _ => some a) (createValueNode spacedOps emptyAnalysis 72).2
        smallConstantStore = some a ∧
      a.constraints = [⟨.STORE, 388, 396⟩] ∧
      ∀ c ∈ a.constraints, c.type ≠ .ADDR_OF :=
  ⟨_, rfl, rfl, by decide⟩

/-- C22, amended: for every store whose stored value is a constant integer `C` of at most 64
bits and of a value of at least 0x100000000, `collectConstraintsForInstruction` appends an
`ADDR_OF` constraint whose destination is the value node of `C`, a valid index.  Node
creation is assumed to behave as the spec says; a `ConstantInt` is not pointer-typed. -/
theorem collectConstraintsForInstruction_store_large_constant (ops : NodeFactoryOps)
    (invalid : NodeIndex) (hops : ops.CreatesValueNodes invalid)
    (hobj : ops.CreatesObjectNodes invalid)
    (MachO : ObjectiveCBinary) (ctx : LLVMContext) (SAP : StackAccessPass)
    (otherCases : Andersen → LLValue → Option Andersen) (self : Andersen)
    (hself : self.nodeFactory.InvalidIndex = invalid)
    (inst v p : LLValue) (rest : List LLValue)
    (hstore : inst.kind = .Instruction .Store)
    (hoperands : inst.operands = v :: p :: rest)
    (hc : v.isConstantInt = true) (hb : v.bits ≤ 64) (hz : v.zext ≥ 4294967296)
    (hty : v.isPointerTy = false) :
    ∃ a more o,
      collectConstraintsForInstruction ops MachO ctx SAP otherCases self inst = some a ∧
      a.constraints = self.constraints ++ more ∧
      ⟨.ADDR_OF, a.nodeFactory.getValueNodeFor v.id, o⟩ ∈ more ∧
      a.nodeFactory.getValueNodeFor v.id ≠ invalid := by
  have hrun : collectConstraintsForInstruction ops MachO ctx SAP otherCases self inst =
      collectConstraintsForStoreTail ops MachO ctx self v p := by
    unfold collectConstraintsForInstruction
    rw [hstore]
    simp only []
    unfold collectConstraintsForStore
    rw [hoperands]
    simp [hc]
  have hfp : v.kind ≠ .ConstantFP := by
    intro e
    unfold LLValue.isConstantInt at hc
    rw [e] at hc
    simp at hc
  have key : ∀ s0 : Andersen, s0.nodeFactory.InvalidIndex = invalid →
      Appends (fun _ => True) self s0 →
      ∃ more o,
        (collectConstraintsForStoreOfNonPointer ops MachO ctx s0 v p).constraints =
          self.constraints ++ more ∧
        ⟨.ADDR_OF, (collectConstraintsForStoreOfNonPointer ops MachO ctx s0 v
          p).nodeFactory.getValueNodeFor v.id, o⟩ ∈ more ∧
        (collectConstraintsForStoreOfNonPointer ops MachO ctx s0 v
          p).nodeFactory.getValueNodeFor v.id ≠ invalid := by
    intro s0 hs0 happ
    unfold collectConstraintsForStoreOfNonPointer
    rw [if_neg hfp]
    obtain ⟨o, e1, hv1, hs1⟩ := collectConstraintsForStoredConstant_addr_of ops invalid hops
      hobj MachO ctx s0 hs0 v hc hb hz
    obtain ⟨k, m2, e2, -⟩ := collectConstraintsForStoreAddress_keeps ops invalid hops
      (collectConstraintsForStoredConstant ops MachO ctx s0 v) hs1 v p
    obtain ⟨m0, e0, -⟩ := happ
    have hk := k.2 v.id hv1
    refine ⟨m0 ++ [⟨.ADDR_OF, (collectConstraintsForStoredConstant ops MachO ctx s0
      v).nodeFactory.getValueNodeFor v.id, o⟩] ++ m2, o, ?_, ?_, ?_⟩
    · rw [e2, e1, e0]
      simp only [List.append_assoc]
    · rw [hk]
      simp
    · rw [hk]
      exact hv1
  have hs0 : ∃ s0 : Andersen, s0.nodeFactory.InvalidIndex = invalid ∧
      Appends (fun _ => True) self s0 ∧
      collectConstraintsForStoreTail ops MachO ctx self v p =
        some (collectConstraintsForStoreOfNonPointer ops MachO ctx s0 v p) := by
    unfold collectConstraintsForStoreTail
    simp only [hty]
    cases hm : matchIntToPtrConstantInt p with
    | none => exact ⟨self, hself, appends_refl _ _, by simp⟩
    | some constDst =>
      exact ⟨_, (addConstraintsForConstIntToPtr_keeps ops invalid hops hobj MachO ctx self
        hself p.id constDst.id constDst.zext).1,
        appends_mono (fun _ _ => trivial)
          (addConstraintsForConstIntToPtr_appends ops MachO ctx self p.id constDst.id
            constDst.zext), by simp⟩
  obtain ⟨s0, hs0i, hs0a, hs0e⟩ := hs0
  obtain ⟨more, o, h1, h2, h3⟩ := key s0 hs0i hs0a
  exact ⟨_, more, o, hrun.trans hs0e, h1, h2, h3⟩

theorem collectConstraintsForInstruction_store_large_constant_witness :
    ∃ a more o,
      collectConstraintsForInstruction spacedOps exampleMachO exampleContext exampleSAP
        (fun a _ => some a) (createValueNode spacedOps emptyAnalysis 72).2
        largeConstantStore = some a ∧
      a.constraints = (createValueNode spacedOps emptyAnalysis 72).2.constraints ++ more ∧
      ⟨.ADDR_OF,
        a.nodeFactory.getValueNodeFor (LLValue.mk 76 (.ConstantInt 4294967400 64) false []).id,
        o⟩ ∈ more ∧
      a.nodeFactory.getValueNodeFor (LLValue.mk 76 (.ConstantInt 4294967400 64) false []).id ≠
        4294967295 :=
  collectConstraintsForInstruction_store_large_constant spacedOps 4294967295
    spacedOps_createsValueNodes spacedOps_createsObjectNodes exampleMachO exampleContext
    exampleSAP (fun a _ => some a) (createValueNode spacedOps emptyAnalysis 72).2 rfl
    largeConstantStore (.mk 76 (.ConstantInt 4294967400 64) false [])
    (.mk 72 .Argument true []) [] rfl rfl rfl (by decide) (by decide) rfl



theorem foldlM_callGraph {β : Type} (f : Andersen → β → Option Andersen)
    (hstep : ∀ a x a', f a x = some a' → a'.CallGraph = a.CallGraph) (l : List β)
    (a t : Andersen) (h : l.foldlM f a = some t) : t.CallGraph = a.CallGraph :=
  foldlM_rel (fun s t => t.CallGraph = s.CallGraph) (fun _ => rfl)
    (fun _ _ _ h₁ h₂ => h₂.trans h₁) f hstep l a t h

theorem foldl_callGraph {β : Type} (f : Andersen → β → Andersen)
    (hstep : ∀ a x, (f a x).CallGraph = a.CallGraph) (l : List β) (a : Andersen) :
    (l.foldl f a).CallGraph = a.CallGraph :=
  foldl_rel (fun s t => t.CallGraph = s.CallGraph) (fun _ => rfl)
    (fun _ _ _ h₁ h₂ => h₂.trans h₁) f hstep l a

theorem valueNodeOrCreate_callGraph (ops : NodeFactoryOps) (self : Andersen) (v : Value) :
    (valueNodeOrCreate ops self v).2.CallGraph = self.CallGraph := by
  unfold valueNodeOrCreate createValueNode
  split <;> rfl

theorem insertHandledAlias_callGraph (self : Andersen) (V : Value) :
    (insertHandledAlias self V).CallGraph = self.CallGraph := by
  unfold insertHandledAlias
  split <;> rfl

theorem findAliasesValue_callGraph (ops : NodeFactoryOps) (Address : Value)
    (self : Andersen) (V : Value) :
    (findAliasesValue ops Address self V).CallGraph = self.CallGraph := by
  unfold findAliasesValue
  split
  · rfl
  · simp only [insertHandledAlias_callGraph, addConstraint, valueNodeOrCreate_callGraph]

theorem findAliases_callGraph (ops : NodeFactoryOps) (SAP : StackAccessPass)
    (self : Andersen) (Address : LLValue) (Sharp : Bool) (SPIdx : Nat) (r : Bool × Andersen)
    (h : findAliases ops SAP self Address Sharp SPIdx = some r) :
    r.2.CallGraph = self.CallGraph := by
  unfold findAliases at h
  simp only [] at h
  split at h
  · split at h
    · split at h
      · simp only [Option.some.injEq] at h; rw [← h]
      · simp only [Option.some.injEq] at h; rw [← h]
      · rw [Option.map_eq_some'] at h
        obtain ⟨t, ht, hr⟩ := h
        rw [← hr]
        refine foldlM_callGraph _ ?_ _ _ _ ht
        intro a offset a' hstep
        split at hstep
        · simp at hstep
        · simp only [Option.some.injEq] at hstep
          rw [← hstep]
          exact foldl_callGraph _ (findAliasesValue_callGraph ops Address.id) _ _
    · simp only [Option.some.injEq] at h; rw [← h]
  · simp only [Option.some.injEq] at h; rw [← h]

theorem getPointsToSet_self (self : Andersen) (v : Value) (ptsSet : List Value) :
    (getPointsToSet self v ptsSet).self = self := by
  by_cases hk : lookedUpNode self.nodeFactory v = self.nodeFactory.InvalidIndex ∨
      lookedUpNode self.nodeFactory v = self.nodeFactory.getUniversalPtrNode
  · rw [getPointsToSet_unknown self v ptsSet hk]
  · rw [getPointsToSet_known self v ptsSet hk]

theorem copyInParentAdd_callGraph (idxB : NodeIndex) (VList2 : List Value)
    (CopyInParent : Int) (a : Andersen) (AI : LLValue) (a' : Andersen)
    (h : copyInParentAdd idxB VList2 CopyInParent a AI = some a') :
    a'.CallGraph = a.CallGraph := by
  unfold copyInParentAdd at h
  split at h
  · simp only [Option.some.injEq] at h; rw [← h]
  · split at h
    · simp at h
    · split at h
      · simp only [Option.some.injEq] at h; rw [← h]
      · split at h
        · simp only [Option.some.injEq] at h; rw [← h]
        · split at h
          · simp at h
          · simp only [Option.some.injEq] at h; rw [← h]; rfl

theorem copyInParentValues_callGraph (site : CallSite) (idxB : NodeIndex)
    (VList1 VList2 : List Value) (CopyInParent : Int) (a a' : Andersen)
    (h : copyInParentValues site idxB VList1 VList2 CopyInParent a = some a') :
    a'.CallGraph = a.CallGraph := by
  unfold copyInParentValues at h
  refine foldlM_callGraph _ ?_ _ _ _ h
  intro a V1 a' h
  refine foldlM_callGraph _ ?_ _ _ _ h
  intro a ItoP a' h
  split at h
  · refine foldlM_callGraph _ ?_ _ _ _ h
    intro a LI a' h
    split at h
    · exact foldlM_callGraph _ (copyInParentAdd_callGraph idxB VList2 CopyInParent) _ _ _ h
    · simp only [Option.some.injEq] at h; rw [← h]
  · simp only [Option.some.injEq] at h; rw [← h]

theorem copyInParentOffset_callGraph (SAP : StackAccessPass) (site : CallSite)
    (idxB : NodeIndex) (CopyInParent : Int) (a : Andersen) (O : Int) (a' : Andersen)
    (h : copyInParentOffset SAP site idxB CopyInParent a O = some a') :
    a'.CallGraph = a.CallGraph := by
  unfold copyInParentOffset at h
  simp only [] at h
  split at h
  · simp only [Option.some.injEq] at h; rw [← h]
  · split at h
    · simp only [Option.some.injEq] at h; rw [← h]
    · exact copyInParentValues_callGraph site idxB _ _ CopyInParent a a' h

theorem copyInParent_callGraph (SAP : StackAccessPass) (site : CallSite) (idxB : NodeIndex)
    (Values : List Value) (CopyInParent : Int) (a a' : Andersen)
    (h : copyInParent SAP site idxB Values CopyInParent a = some a') :
    a'.CallGraph = a.CallGraph := by
  unfold copyInParent at h
  refine foldlM_callGraph _ ?_ _ _ _ h
  intro a V a' h
  refine foldlM_callGraph _ ?_ _ _ _ h
  intro a ItoP a' h
  split at h
  · refine foldlM_callGraph _ ?_ _ _ _ h
    intro a S a' h
    split at h
    · split at h
      · simp at h
      · split at h
        · exact foldlM_callGraph _ (copyInParentOffset_callGraph SAP site idxB CopyInParent)
            _ _ _ h
        · simp at h
    · simp only [Option.some.injEq] at h; rw [← h]
  · simp only [Option.some.injEq] at h; rw [← h]

theorem findSetStackParameterInstruction_callGraph (ops : NodeFactoryOps)
    (SAP : StackAccessPass) (site : CallSite) (self : Andersen) (Parameter : Int × LLValue)
    (StackSize CopyInParent : Int) (r : Option LLValue × Andersen)
    (h : findSetStackParameterInstruction ops SAP site self Parameter StackSize CopyInParent =
      some r) : r.2.CallGraph = self.CallGraph := by
  unfold findSetStackParameterInstruction at h
  simp only [] at h
  split at h
  · simp only [Option.some.injEq] at h; rw [← h]
  · split at h
    · simp at h
    · split at h
      · simp at h
      · rw [Option.map_eq_some'] at h
        obtain ⟨t, ht, hr⟩ := h
        rw [← hr]
        have h0 : ∀ x y z, (addConstraint (valueNodeOrCreate ops
            (valueNodeOrCreate ops self x).2 y).2 .COPY z
            (valueNodeOrCreate ops self x).1).CallGraph = self.CallGraph := by
          intro x y z
          simp only [addConstraint, valueNodeOrCreate_callGraph]
        split at ht
        · rw [copyInParent_callGraph SAP site _ _ CopyInParent _ t ht]
          exact h0 _ _ _
        · simp only [Option.some.injEq] at ht
          rw [← ht]
          exact h0 _ _ _



theorem copyStructMembers_callGraph (ops : NodeFactoryOps)
    (paramValues : Option (List Value)) (callerValues : List Value) (a a' : Andersen)
    (h : copyStructMembers ops paramValues callerValues a = some a') :
    a'.CallGraph = a.CallGraph := by
  unfold copyStructMembers at h
  refine foldlM_callGraph _ ?_ _ _ _ h
  intro a OV_caller a' h
  split at h
  · simp at h
  · simp only [Option.some.injEq] at h
    rw [← h]
    refine foldl_callGraph _ ?_ _ _
    intro a OV_param
    simp only [addConstraint, valueNodeOrCreate_callGraph]

theorem copyStructOffsets_callGraph (ops : NodeFactoryOps) (SAP : StackAccessPass)
    (paramMap : List (Int × Option (List Value))) (callerOffsets : List Int)
    (a a' : Andersen) (h : copyStructOffsets ops SAP paramMap callerOffsets a = some a') :
    a'.CallGraph = a.CallGraph := by
  unfold copyStructOffsets at h
  refine foldlM_callGraph _ ?_ _ _ _ h
  intro a O a' h
  refine foldlM_callGraph _ ?_ _ _ _ h
  intro a O_C a' h
  simp only [] at h
  split at h
  · exact copyStructMembers_callGraph ops _ _ a a' h
  · simp only [Option.some.injEq] at h; rw [← h]

theorem findSetRegisterParameterValue_callGraph (ops : NodeFactoryOps)
    (SAP : StackAccessPass) (site : CallSite) (Parameter : Int × LLValue) (a : Andersen)
    (Pre : LLValue) (a' : Andersen)
    (h : findSetRegisterParameterValue ops SAP site Parameter a Pre = some a') :
    a'.CallGraph = a.CallGraph := by
  unfold findSetRegisterParameterValue at h
  simp only [] at h
  have h0 : (addConstraint (valueNodeOrCreate ops (valueNodeOrCreate ops a Parameter.2.id).2
      Pre.id).2 .COPY (valueNodeOrCreate ops a Parameter.2.id).1
      (valueNodeOrCreate ops (valueNodeOrCreate ops a Parameter.2.id).2 Pre.id).1).CallGraph =
      a.CallGraph := by
    simp only [addConstraint, valueNodeOrCreate_callGraph]
  split at h
  · simp only [Option.some.injEq] at h; rw [← h]; exact h0
  · simp only [Option.some.injEq] at h; rw [← h]; exact h0
  · rw [Option.bind_eq_some] at h
    obtain ⟨t, ht, hr⟩ := h
    rw [copyStructOffsets_callGraph ops SAP _ _ t a' hr, ← h0]
    split at ht
    · split at ht
      · split at ht
        · rw [Option.map_eq_some'] at ht
          obtain ⟨r, hr2, hrt⟩ := ht
          rw [← hrt, findAliases_callGraph ops SAP _ Pre true 3 r hr2]
          simp only [addConstraint, createObjectNodeDummy, getPointsToSet_self]
        · simp only [Option.some.injEq] at ht
          rw [← ht]
          simp only [addConstraint, createObjectNodeDummy, getPointsToSet_self]
      · simp only [Option.some.injEq] at ht
        rw [← ht, getPointsToSet_self]
    · simp only [Option.some.injEq] at ht
      rw [← ht]

theorem findSetRegisterParameterInstruction_callGraph (ops : NodeFactoryOps)
    (SAP : StackAccessPass) (site : CallSite) (self : Andersen) (Parameter : Int × LLValue)
    (a' : Andersen)
    (h : findSetRegisterParameterInstruction ops SAP site self Parameter = some a') :
    a'.CallGraph = self.CallGraph := by
  unfold findSetRegisterParameterInstruction at h
  exact foldlM_callGraph _ (findSetRegisterParameterValue_callGraph ops SAP site Parameter)
    _ _ _ h

theorem addConstraintsForCallStack_callGraph (ops : NodeFactoryOps) (SAP : StackAccessPass)
    (site : CallSite) (self a' : Andersen)
    (h : addConstraintsForCallStack ops SAP site self = some a') :
    a'.CallGraph = self.CallGraph := by
  unfold addConstraintsForCallStack at h
  simp only [] at h
  split at h
  · refine foldlM_callGraph _ ?_ _ _ _ h
    intro a PA a' h
    split at h
    · rw [Option.map_eq_some'] at h
      obtain ⟨r, hr, hra⟩ := h
      rw [← hra]
      exact findSetStackParameterInstruction_callGraph ops SAP site a PA _ 0 r hr
    · simp only [Option.some.injEq] at h; rw [← h]
  · simp only [Option.some.injEq] at h; rw [← h]

theorem addConstraintsForCallReturn_callGraph (ops : NodeFactoryOps) (site : CallSite)
    (self a' : Andersen) (h : addConstraintsForCallReturn ops site self = some a') :
    a'.CallGraph = self.CallGraph := by
  unfold addConstraintsForCallReturn at h
  refine foldlM_callGraph _ ?_ _ _ _ h
  intro a Ret a' h
  refine foldlM_callGraph _ ?_ _ _ _ h
  intro a P a' h
  split at h
  · simp at h
  · simp only [Option.some.injEq] at h
    rw [← h]
    simp only [addConstraint, valueNodeOrCreate_callGraph]

/-- C24: when `containtsEdge` holds for the edge `(Inst, name(F))`,
`addConstraintsForCall(Inst, F)` returns with the analysis object, and so its constraints,
its nodes and its call graph, unchanged; and when the call graph answers `containtsEdge`
with true for an edge right after `addCallEdge` has recorded it, a second call with the
same arguments, made on the analysis object that a first call has left, leaves that
analysis object as it is. -/
theorem addConstraintsForCall_idempotent (ops : NodeFactoryOps) (SAP : StackAccessPass)
    (containtsEdge : List (Value × String) → Value → String → Bool) (site : CallSite)
    (self : Andersen) :
    (containtsEdge self.CallGraph site.Inst site.name = true →
      addConstraintsForCall ops SAP containtsEdge site self = some self) ∧
    ((∀ g i n, containtsEdge (g ++ [(i, n)]) i n = true) →
      ∀ a, addConstraintsForCall ops SAP containtsEdge site self = some a →
        addConstraintsForCall ops SAP containtsEdge site a = some a) := by
  have first : ∀ s : Andersen, containtsEdge s.CallGraph site.Inst site.name = true →
      addConstraintsForCall ops SAP containtsEdge site s = some s := by
    intro s hs
    unfold addConstraintsForCall
    rw [if_pos hs]
  refine ⟨first self, ?_⟩
  intro hrec a ha
  by_cases hedge : containtsEdge self.CallGraph site.Inst site.name = true
  · rw [first self hedge, Option.some.injEq] at ha
    rw [← ha]
    exact first self hedge
  · apply first
    unfold addConstraintsForCall at ha
    rw [if_neg hedge] at ha
    simp only [] at ha
    rw [Option.bind_eq_some] at ha
    obtain ⟨a₁, h₁, ha⟩ := ha
    rw [Option.bind_eq_some] at ha
    obtain ⟨a₂, h₂, h₃⟩ := ha
    have e₁ := addConstraintsForCallStack_callGraph ops SAP site _ a₁ h₁
    have e₂ := foldlM_callGraph _
      (fun s PA s' h => findSetRegisterParameterInstruction_callGraph ops SAP site s PA s' h)
      _ _ _ h₂
    have e₃ := addConstraintsForCallReturn_callGraph ops site a₂ a h₃
    rw [e₃, e₂, e₁]
    exact hrec _ _ _



theorem addConstraintsForCall_idempotent_witness :
    (∃ a, addConstraintsForCall spacedOps exampleStackSAP exampleContaintsEdge
        exampleCallSite callerAnalysis = some a ∧
      a.constraints = [⟨.COPY, 1312, 940⟩, ⟨.COPY, 1380, 1100⟩, ⟨.COPY, 1060, 1344⟩] ∧
      addConstraintsForCall spacedOps exampleStackSAP exampleContaintsEdge exampleCallSite a =
        some a) ∧
    addConstraintsForCall spacedOps exampleStackSAP exampleContaintsEdge exampleCallSite
        { callerAnalysis with CallGraph := [(200, "callee")] } =
      some { callerAnalysis with CallGraph := [(200, "callee")] } :=
  ⟨⟨_, rfl, rfl,
      (addConstraintsForCall_idempotent spacedOps exampleStackSAP exampleContaintsEdge
        exampleCallSite callerAnalysis).2
        (by intro g i n; simp [exampleContaintsEdge]) _ rfl⟩,
    (addConstraintsForCall_idempotent spacedOps exampleStackSAP exampleContaintsEdge
      exampleCallSite { callerAnalysis with CallGraph := [(200, "callee")] }).1
      (by decide)⟩



theorem foldlM_some_id {β : Type} (l : List β) (a : Andersen) :
    l.foldlM (fun (a : Andersen) (_ : β) => some a) a = some a := by
  induction l with
  | nil => rfl
  | cons x xs ih => rw [List.foldlM_cons]; exact ih

/-- C26: the guard `StackSize != -1U` of `addConstraintsForCall` is false exactly for the
`StackSize` 4294967295; it is true for -1.  So for every `StackSize` other than 4294967295,
-1 among them, the loop over the stack parameters of the callee is the left fold of
`findSetStackParameterInstruction` over them, one call for each, with this `StackSize`;
for 4294967295 no call is made and the analysis object stays as it is. -/
theorem addConstraintsForCall_stack_guard (ops : NodeFactoryOps) (SAP : StackAccessPass)
    (site : CallSite) (self : Andersen) :
    (∀ StackSize : Int, stackSizeIsSet StackSize = false ↔ StackSize = 4294967295) ∧
    stackSizeIsSet (-1) = true ∧
    (toInt64 site.getStackPointerValue ≠ 4294967295 →
      addConstraintsForCallStack ops SAP site self =
        site.getParameterStackOffsets.foldlM (fun a PA =>
          (findSetStackParameterInstruction ops SAP site a PA
            (toInt64 site.getStackPointerValue) 0).map (fun r => r.2)) self) ∧
    (toInt64 site.getStackPointerValue = 4294967295 →
      addConstraintsForCallStack ops SAP site self = some self) := by
  have hguard : ∀ StackSize : Int,
      stackSizeIsSet StackSize = false ↔ StackSize = 4294967295 := by
    intro StackSize
    have e : toInt64 minusOneUnsigned = 4294967295 := by decide
    unfold stackSizeIsSet
    rw [e]
    simp
  refine ⟨hguard, by decide, ?_, ?_⟩
  · intro h
    have hset : stackSizeIsSet (toInt64 site.getStackPointerValue) = true := by
      cases hb : stackSizeIsSet (toInt64 site.getStackPointerValue) with
      | true => rfl
      | false => exact absurd ((hguard _).1 hb) h
    unfold addConstraintsForCallStack
    simp only [hset, if_true]
    split
    · rfl
    · rename_i hlen
      have hnil : site.getParameterStackOffsets = [] := by
        cases hl : site.getParameterStackOffsets with
        | nil => rfl
        | cons x xs => rw [hl] at hlen; simp at hlen
      rw [hnil]
      rfl
  · intro h
    have hset : stackSizeIsSet (toInt64 site.getStackPointerValue) = false := (hguard _).2 h
    unfold addConstraintsForCallStack
    simp only [hset]
    split
    · exact foldlM_some_id _ _
    · rfl

theorem addConstraintsForCall_stack_guard_witness :
    toInt64 exampleCallSite.getStackPointerValue = -1 ∧
    addConstraintsForCallStack spacedOps exampleStackSAP exampleCallSite callerAnalysis =
      exampleCallSite.getParameterStackOffsets.foldlM (fun a PA =>
        (findSetStackParameterInstruction spacedOps exampleStackSAP exampleCallSite a PA
          (toInt64 exampleCallSite.getStackPointerValue) 0).map (fun r => r.2))
        callerAnalysis ∧
    (∃ a, addConstraintsForCallStack spacedOps exampleStackSAP exampleCallSite
        callerAnalysis = some a ∧ a.constraints = [⟨.COPY, 1312, 940⟩]) ∧
    addConstraintsForCallStack spacedOps exampleStackSAP
        { exampleCallSite with getStackPointerValue := 4294967295 } callerAnalysis =
      some callerAnalysis :=
  ⟨by decide,
    (addConstraintsForCall_stack_guard spacedOps exampleStackSAP exampleCallSite
      callerAnalysis).2.2.1 (by decide),
    ⟨_, rfl, rfl⟩,
    (addConstraintsForCall_stack_guard spacedOps exampleStackSAP
      { exampleCallSite with getStackPointerValue := 4294967295 } callerAnalysis).2.2.2
      (by decide)⟩

/-- C23: on the `CopyInParent` path `findSetStackParameterInstruction` adds `COPY`
constraints with the sentinel `InvalidIndex`.  For the stack parameter of the examples,
the stack size 64 and `CopyInParent` 16, the add instruction `%223` and the value 230
have no value node, and the constraints added are `COPY(node(%303), node(210))` followed
by `COPY(InvalidIndex, InvalidIndex)` and `COPY(node(%303), InvalidIndex)`. -/
theorem findSetStackParameterInstruction_copyInParent_invalid_index :
    ∃ r, findSetStackParameterInstruction spacedOps exampleStackSAP exampleCallSite
        callerAnalysis (8, stackParameterLoad) 64 16 = some r ∧
      r.2.nodeFactory.InvalidIndex = 4294967295 ∧
      r.2.constraints = callerAnalysis.constraints ++
        [⟨.COPY, 1312, 940⟩, ⟨.COPY, 4294967295, 4294967295⟩, ⟨.COPY, 1312, 4294967295⟩] :=
  ⟨_, rfl, rfl, rfl⟩



theorem copiesFrom_refl (invalid n : NodeIndex) (x : Value) (s : Andersen) :
    CopiesFrom invalid n x s s :=
  fun h => ⟨h.1, h.2, appends_refl _ _⟩

theorem copiesFrom_trans {invalid n : NodeIndex} {x : Value} {s t u : Andersen}
    (h₁ : CopiesFrom invalid n x s t) (h₂ : CopiesFrom invalid n x t u) :
    CopiesFrom invalid n x s u := by
  intro h
  obtain ⟨a₁, b₁, c₁⟩ := h₁ h
  obtain ⟨a₂, b₂, c₂⟩ := h₂ ⟨a₁, b₁⟩
  exact ⟨a₂, b₂, appends_trans c₁ c₂⟩

theorem findAliasesValue_copiesFrom (ops : NodeFactoryOps) (invalid n : NodeIndex)
    (hops : ops.CreatesValueNodes invalid) (hn : n ≠ invalid) (Address : Value)
    (self : Andersen) (V : Value) :
    CopiesFrom invalid n Address self (findAliasesValue ops Address self V) := by
  intro h
  unfold findAliasesValue
  split
  · exact ⟨h.1, h.2, appends_refl _ _⟩
  · simp only []
    have hv := valueNodeOrCreate_spec ops invalid hops self h.1 V
    refine ⟨?_, ?_, ?_⟩
    · rw [(insertHandledAlias_frame _ _).2]
      exact hv.2.2.1
    · rw [(insertHandledAlias_frame _ _).2]
      show (valueNodeOrCreate ops self V).2.nodeFactory.getValueNodeFor Address = n
      rw [hv.2.2.2 Address (by rw [h.2]; exact hn), h.2]
    · exact appends_trans
        (appends_trans
          (appends_of_constraints_eq _ (valueNodeOrCreate_frame _ _ _).1)
          (appends_addConstraint _ _ _ _ ⟨rfl, h.2⟩))
        (appends_of_constraints_eq _ (insertHandledAlias_frame _ _).1)

/-- The constraints that `findAliases` appends are `COPY` constraints from the value node
of `Address`, which stays what it is. -/
theorem findAliases_copiesFrom (ops : NodeFactoryOps) (invalid n : NodeIndex)
    (hops : ops.CreatesValueNodes invalid) (hn : n ≠ invalid) (SAP : StackAccessPass)
    (self : Andersen) (Address : LLValue) (Sharp : Bool) (SPIdx : Nat) (r : Bool × Andersen)
    (h : findAliases ops SAP self Address Sharp SPIdx = some r) :
    CopiesFrom invalid n Address.id self r.2 := by
  unfold findAliases at h
  simp only [] at h
  split at h
  · split at h
    · split at h
      · simp only [Option.some.injEq] at h; rw [← h]; exact copiesFrom_refl _ _ _ _
      · simp only [Option.some.injEq] at h; rw [← h]; exact copiesFrom_refl _ _ _ _
      · rw [Option.map_eq_some'] at h
        obtain ⟨t, ht, hr⟩ := h
        rw [← hr]
        refine foldlM_rel (CopiesFrom invalid n Address.id) (copiesFrom_refl _ _ _)
          (fun _ _ _ => copiesFrom_trans) _ ?_ _ _ _ ht
        intro a offset a' hstep
        split at hstep
        · simp at hstep
        · simp only [Option.some.injEq] at hstep
          rw [← hstep]
          exact foldl_rel (CopiesFrom invalid n Address.id) (copiesFrom_refl _ _ _)
            (fun _ _ _ => copiesFrom_trans) _
            (findAliasesValue_copiesFrom ops invalid n hops hn Address.id) _ _
    · simp only [Option.some.injEq] at h; rw [← h]; exact copiesFrom_refl _ _ _ _
  · simp only [Option.some.injEq] at h; rw [← h]; exact copiesFrom_refl _ _ _ _

theorem mem_insertHandledAlias (self : Andersen) (V x : Value) :
    x ∈ (insertHandledAlias self V).handledAliases ↔ x ∈ self.handledAliases ∨ x = V := by
  unfold insertHandledAlias
  split
  · rename_i hV
    constructor
    · exact Or.inl
    · rintro (h | h)
      · exact h
      · rw [h]; exact hV
  · simp

theorem findAliasesValue_handledAliases (ops : NodeFactoryOps) (Address : Value)
    (self : Andersen) (V : Value) :
    Address ∈ (findAliasesValue ops Address self V).handledAliases ↔
      Address ∈ self.handledAliases := by
  unfold findAliasesValue
  split
  · rfl
  · rename_i hne
    simp only [mem_insertHandledAlias]
    show Address ∈ (valueNodeOrCreate ops self V).2.handledAliases ∨ Address = V ↔ _
    rw [valueNodeOrCreate_handledAliases]
    constructor
    · rintro (h | h)
      · exact h
      · exact absurd h hne
    · exact Or.inl

/-- The call `findAliases(Address)` does not put `Address` itself into `handledAliases`. -/
theorem findAliases_handledAliases (ops : NodeFactoryOps) (SAP : StackAccessPass)
    (self : Andersen) (Address : LLValue) (Sharp : Bool) (SPIdx : Nat) (r : Bool × Andersen)
    (h : findAliases ops SAP self Address Sharp SPIdx = some r) :
    Address.id ∈ r.2.handledAliases ↔ Address.id ∈ self.handledAliases := by
  unfold findAliases at h
  simp only [] at h
  split at h
  · split at h
    · split at h
      · simp only [Option.some.injEq] at h; rw [← h]
      · simp only [Option.some.injEq] at h; rw [← h]
      · rw [Option.map_eq_some'] at h
        obtain ⟨t, ht, hr⟩ := h
        rw [← hr]
        refine foldlM_rel
          (fun s t => Address.id ∈ t.handledAliases ↔ Address.id ∈ s.handledAliases)
          (fun _ => Iff.rfl) (fun _ _ _ h₁ h₂ => h₂.trans h₁) _ ?_ _ _ _ ht
        intro a offset a' hstep
        split at hstep
        · simp at hstep
        · simp only [Option.some.injEq] at hstep
          rw [← hstep]
          exact foldl_rel
            (fun s t => Address.id ∈ t.handledAliases ↔ Address.id ∈ s.handledAliases)
            (fun _ => Iff.rfl) (fun _ _ _ h₁ h₂ => h₂.trans h₁) _
            (findAliasesValue_handledAliases ops Address.id) _ _
    · simp only [Option.some.injEq] at h; rw [← h]
  · simp only [Option.some.injEq] at h; rw [← h]



/-- What the branch of the IntToPtr case for a plain value appends: `COPY` constraints of
`findAliases` from the value node `n` of `op`, then `ADDR_OF(n, objNode)` with a valid
`objNode` unless `op` was in `handledAliases`, then `COPY(dstIndex, n)`. -/
theorem collectConstraintsForIntToPtrValue_spec (ops : NodeFactoryOps) (invalid : NodeIndex)
    (hops : ops.CreatesValueNodes invalid) (hobj : ops.CreatesObjectNodes invalid)
    (SAP : StackAccessPass) (dstIndex : NodeIndex) (self : Andersen)
    (hself : self.nodeFactory.InvalidIndex = invalid) (op : LLValue) (a : Andersen)
    (h : collectConstraintsForIntToPtrValue ops SAP dstIndex self op = some a) :
    (valueNodeOrCreate ops self op.id).1 ≠ invalid ∧
    a.nodeFactory.getValueNodeFor op.id = (valueNodeOrCreate ops self op.id).1 ∧
    a.nodeFactory.InvalidIndex = invalid ∧
    ∃ copies tail, a.constraints = self.constraints ++ copies ++ tail ++
        [⟨.COPY, dstIndex, (valueNodeOrCreate ops self op.id).1⟩] ∧
      (∀ c ∈ copies, c.type = .COPY ∧ c.src = (valueNodeOrCreate ops self op.id).1) ∧
      (op.id ∈ self.handledAliases → tail = []) ∧
      (op.id ∉ self.handledAliases → ∃ objNode, objNode ≠ invalid ∧
        tail = [⟨.ADDR_OF, (valueNodeOrCreate ops self op.id).1, objNode⟩]) := by
  have hv := valueNodeOrCreate_spec ops invalid hops self hself op.id
  have hh := valueNodeOrCreate_handledAliases ops self op.id
  have hc := (valueNodeOrCreate_frame ops self op.id).1
  refine ⟨hv.2.1, ?_⟩
  unfold collectConstraintsForIntToPtrValue at h
  simp only [] at h
  rw [Option.map_eq_some'] at h
  obtain ⟨r, hr, ha⟩ := h
  split at hr
  · rename_i hA
    rw [Option.map_eq_some'] at hr
    obtain ⟨fr, hfr, hre⟩ := hr
    have hd := (hobj (valueNodeOrCreate ops self op.id).2.nodeFactory op.id hv.2.2.1).2.1
    have hcf := findAliases_copiesFrom ops invalid (valueNodeOrCreate ops self op.id).1 hops
      hv.2.1 SAP _ op true 3 fr hfr
      ⟨hd.2.1, by
        show (ops.createObjectNodeDummy _ op.id).2.getValueNodeFor op.id = _
        rw [hd.2.2.1 op.id, hv.1]⟩
    have hha := findAliases_handledAliases ops SAP _ op true 3 fr hfr
    have hnot : op.id ∉ fr.2.handledAliases := by
      rw [hha]
      exact hA.2
    obtain ⟨copies, hcopies, hP⟩ := hcf.2.2
    have hcopies' : fr.2.constraints = self.constraints ++ copies := by
      rw [hcopies]
      show (valueNodeOrCreate ops self op.id).2.constraints ++ copies = _
      rw [hc]
    rw [← ha, ← hre]
    simp only [hnot, not_false_eq_true, if_true]
    refine ⟨?_, ?_, copies,
      [⟨.ADDR_OF, (valueNodeOrCreate ops self op.id).1,
        (createObjectNodeDummy ops (valueNodeOrCreate ops self op.id).2 op.id).1⟩],
      ?_, hP, ?_, ?_⟩
    · show (insertHandledAlias fr.2 op.id).nodeFactory.getValueNodeFor op.id = _
      rw [(insertHandledAlias_frame _ _).2]
      exact hcf.2.1
    · show (insertHandledAlias fr.2 op.id).nodeFactory.InvalidIndex = _
      rw [(insertHandledAlias_frame _ _).2]
      exact hcf.1
    · simp only [addConstraint, (insertHandledAlias_frame _ _).1, hcopies']
    · intro hin
      rw [← hh] at hin
      exact absurd hin hA.2
    · intro _
      exact ⟨_, hd.1, rfl⟩
  · rename_i hA
    simp only [Option.some.injEq] at hr
    rw [← ha, ← hr]
    simp only []
    by_cases hin : op.id ∈ (valueNodeOrCreate ops self op.id).2.handledAliases
    · simp only [hin, not_true_eq_false, if_false]
      refine ⟨hv.1, hv.2.2.1, [], [], ?_, by simp, fun _ => rfl, ?_⟩
      · simp only [addConstraint, hc, List.append_nil]
      · intro hnin
        rw [← hh] at hnin
        exact absurd hin hnin
    · simp only [hin, not_false_eq_true, if_true]
      have hobjNode : (valueNodeOrCreate ops self op.id).2.nodeFactory.getObjectNodeFor op.id ≠
          invalid := by
        intro e
        apply hA
        exact ⟨by rw [e, hv.2.2.1], hin⟩
      refine ⟨?_, ?_, [],
        [⟨.ADDR_OF, (valueNodeOrCreate ops self op.id).1,
          (valueNodeOrCreate ops self op.id).2.nodeFactory.getObjectNodeFor op.id⟩],
        ?_, by simp, ?_, ?_⟩
      · show (insertHandledAlias _ op.id).nodeFactory.getValueNodeFor op.id = _
        rw [(insertHandledAlias_frame _ _).2]
        exact hv.1
      · show (insertHandledAlias _ op.id).nodeFactory.InvalidIndex = _
        rw [(insertHandledAlias_frame _ _).2]
        exact hv.2.2.1
      · simp only [addConstraint, (insertHandledAlias_frame _ _).1, hc, List.append_nil]
      · intro hin'
        rw [← hh] at hin'
        exact absurd hin' hin
      · intro _
        exact ⟨_, hobjNode, rfl⟩



/-- What the branch of the IntToPtr case for a binary operator over a binary operator
appends: `ADDR_OF(n, objNode)` and `COPY(dstIndex, n)` for the value node `n` of `Base`,
then `COPY` constraints of `findAliases` from `n`. -/
theorem collectConstraintsForIntToPtrBase_spec (ops : NodeFactoryOps) (invalid : NodeIndex)
    (hops : ops.CreatesValueNodes invalid) (hobj : ops.CreatesObjectNodes invalid)
    (SAP : StackAccessPass) (dstIndex : NodeIndex) (self : Andersen)
    (hself : self.nodeFactory.InvalidIndex = invalid) (Base : LLValue) (a : Andersen)
    (h : collectConstraintsForIntToPtrBase ops SAP dstIndex self Base = some a) :
    a.nodeFactory.getValueNodeFor Base.id = (valueNodeOrCreate ops self Base.id).1 ∧
    ∃ objNode copies, a.constraints = self.constraints ++
        [⟨.ADDR_OF, (valueNodeOrCreate ops self Base.id).1, objNode⟩,
          ⟨.COPY, dstIndex, (valueNodeOrCreate ops self Base.id).1⟩] ++ copies ∧
      ∀ c ∈ copies, c.type = .COPY ∧ c.src = (valueNodeOrCreate ops self Base.id).1 := by
  have hv := valueNodeOrCreate_spec ops invalid hops self hself Base.id
  have hd := objectNodeOrCreateDummy_spec ops invalid hobj _ hv.2.2.1 Base.id
  unfold collectConstraintsForIntToPtrBase at h
  simp only [] at h
  rw [Option.map_eq_some'] at h
  obtain ⟨fr, hfr, ha⟩ := h
  have hcf := findAliases_copiesFrom ops invalid (valueNodeOrCreate ops self Base.id).1 hops
    hv.2.1 SAP _ Base true 3 fr hfr
    ⟨hd.2.1, by
      show (objectNodeOrCreateDummy ops _ Base.id).2.nodeFactory.getValueNodeFor Base.id = _
      rw [hd.2.2.1 Base.id, hv.1]⟩
  obtain ⟨copies, hcopies, hP⟩ := hcf.2.2
  rw [← ha]
  refine ⟨hcf.2.1, (objectNodeOrCreateDummy ops (valueNodeOrCreate ops self Base.id).2
    Base.id).1, copies, ?_, hP⟩
  rw [hcopies]
  simp only [addConstraint, (objectNodeOrCreateDummy_frame _ _ _).1,
    (valueNodeOrCreate_frame _ _ _).1, List.append_assoc, List.singleton_append,
    List.cons_append, List.nil_append]

theorem isBinaryOperator_not_constantInt (op : LLValue) (h : op.isBinaryOperator = true) :
    op.isConstantInt = false ∧ op.kind ≠ .Instruction .Select := by
  unfold LLValue.isBinaryOperator at h
  unfold LLValue.isConstantInt
  cases hk : op.kind with
  | Instruction o =>
    rw [hk] at h
    simp only [] at h
    refine ⟨rfl, ?_⟩
    intro e
    injection e with e
    rw [e] at h
    exact absurd h (by decide)
  | _ => rw [hk] at h; simp at h

/-- C25: in the branch of the IntToPtr case for a plain value or an add with a constant,
with node creation behaving as the spec says, no `ADDR_OF` constraint with the object
`InvalidIndex` is appended.  When `op` is in `handledAliases` no `ADDR_OF` constraint is
appended at all; when it is not, `ADDR_OF(srcIndex, objNode)` is appended with a valid
`objNode`, `srcIndex` being the value node of `op`, and it is the only `ADDR_OF` constraint
appended.  A call `findAliases(op)` leaves the membership of `op` in `handledAliases` as it
is. -/
theorem collectConstraintsForIntToPtrValue_addr_of_valid (ops : NodeFactoryOps)
    (invalid : NodeIndex) (hops : ops.CreatesValueNodes invalid)
    (hobj : ops.CreatesObjectNodes invalid) (SAP : StackAccessPass) (dstIndex : NodeIndex)
    (self : Andersen) (hself : self.nodeFactory.InvalidIndex = invalid) (op : LLValue)
    (a : Andersen)
    (h : collectConstraintsForIntToPtrValue ops SAP dstIndex self op = some a) :
    (∃ more, a.constraints = self.constraints ++ more ∧
      (∀ c ∈ more, c.type = .ADDR_OF → c.src ≠ invalid) ∧
      (op.id ∈ self.handledAliases → ∀ c ∈ more, c.type ≠ .ADDR_OF) ∧
      (op.id ∉ self.handledAliases → ∃ objNode, objNode ≠ invalid ∧
        ⟨.ADDR_OF, a.nodeFactory.getValueNodeFor op.id, objNode⟩ ∈ more ∧
        ∀ c ∈ more, c.type = .ADDR_OF →
          c = ⟨.ADDR_OF, a.nodeFactory.getValueNodeFor op.id, objNode⟩)) ∧
    ∀ (s : Andersen) (r : Bool × Andersen), findAliases ops SAP s op true 3 = some r →
      (op.id ∈ r.2.handledAliases ↔ op.id ∈ s.handledAliases) := by
  refine ⟨?_, fun s r hr => findAliases_handledAliases ops SAP s op true 3 r hr⟩
  obtain ⟨-, hnode, -, copies, tail, hcs, hcopies, hin, hnin⟩ :=
    collectConstraintsForIntToPtrValue_spec ops invalid hops hobj SAP dstIndex self hself op a h
  rw [hnode]
  refine ⟨copies ++ tail ++ [⟨.COPY, dstIndex, (valueNodeOrCreate ops self op.id).1⟩],
    by rw [hcs]; simp only [List.append_assoc], ?_, ?_, ?_⟩
  · intro c hc hty
    simp only [List.mem_append, List.mem_singleton] at hc
    rcases hc with (hc | hc) | hc
    · rw [(hcopies c hc).1] at hty; exact absurd hty (by decide)
    · by_cases hmem : op.id ∈ self.handledAliases
      · rw [hin hmem] at hc; simp at hc
      · obtain ⟨objNode, hvalid, htail⟩ := hnin hmem
        rw [htail, List.mem_singleton] at hc
        rw [hc]
        exact hvalid
    · rw [hc] at hty; simp at hty
  · intro hmem c hc hty
    simp only [hin hmem, List.append_nil, List.mem_append, List.mem_singleton] at hc
    rcases hc with hc | hc
    · rw [(hcopies c hc).1] at hty; exact absurd hty (by decide)
    · rw [hc] at hty; simp at hty
  · intro hmem
    obtain ⟨objNode, hvalid, htail⟩ := hnin hmem
    refine ⟨objNode, hvalid, ?_, ?_⟩
    · simp [htail]
    · intro c hc hty
      simp only [htail, List.mem_append, List.mem_singleton] at hc
      rcases hc with (hc | hc) | hc
      · rw [(hcopies c hc).1] at hty; exact absurd hty (by decide)
      · exact hc
      · rw [hc] at hty; simp at hty

theorem collectConstraintsForIntToPtrValue_addr_of_valid_witness :
    ∃ a, collectConstraintsForIntToPtrValue spacedOps exampleSAP 7 emptyAnalysis
        (.mk 92 .Argument false []) = some a ∧
      a.constraints = [⟨.ADDR_OF, 468, 470⟩, ⟨.COPY, 7, 468⟩] ∧
      ∃ more, a.constraints = emptyAnalysis.constraints ++ more ∧
        (∀ c ∈ more, c.type = .ADDR_OF → c.src ≠ 4294967295) :=
  ⟨_, rfl, rfl,
    (collectConstraintsForIntToPtrValue_addr_of_valid spacedOps 4294967295
      spacedOps_createsValueNodes spacedOps_createsObjectNodes exampleSAP 7 emptyAnalysis rfl
      (.mk 92 .Argument false []) _ rfl).1.imp (fun _ h => ⟨h.1, h.2.1⟩)⟩



/-- The worklist loop of the IntToPtr case has rounds enough once `fuel` is at least the
size of the queue: a further round does not change the result. -/
theorem collectConstraintsForIntToPtrWorklist_fuel_enough (ops : NodeFactoryOps)
    (MachO : ObjectiveCBinary) (ctx : LLVMContext) (SAP : StackAccessPass) (inst : Value)
    (dstIndex : NodeIndex) :
    ∀ (fuel : Nat) (queue : List LLValue) (self : Andersen),
      LLValue.sizeList queue ≤ fuel →
      collectConstraintsForIntToPtrWorklist ops MachO ctx SAP inst dstIndex (fuel + 1) queue
          self =
        collectConstraintsForIntToPtrWorklist ops MachO ctx SAP inst dstIndex fuel queue
          self := by
  intro fuel
  induction fuel with
  | zero =>
    intro queue self h
    cases queue with
    | nil => simp [collectConstraintsForIntToPtrWorklist]
    | cons cur rest =>
      have := LLValue.size_eq cur
      simp only [LLValue.sizeList] at h
      omega
  | succ n ih =>
    intro queue self h
    cases queue with
    | nil => simp [collectConstraintsForIntToPtrWorklist]
    | cons cur rest =>
      have hsize := LLValue.size_eq cur
      simp only [LLValue.sizeList] at h
      have hrest : LLValue.sizeList rest ≤ n := by omega
      rw [collectConstraintsForIntToPtrWorklist]
      conv_rhs => rw [collectConstraintsForIntToPtrWorklist]
      by_cases hsel : cur.kind = .Instruction .Select
      · simp only [hsel, if_true]
        cases hops : cur.operands with
        | nil => rfl
        | cons c l₁ =>
          cases l₁ with
          | nil => rfl
          | cons t l₂ =>
            cases l₂ with
            | nil => rfl
            | cons f l₃ =>
              simp only []
              apply ih
              rw [LLValue.sizeList_append]
              rw [hops] at hsize
              simp only [LLValue.sizeList] at hsize ⊢
              omega
      · simp only [hsel, if_false]
        cases collectConstraintsForIntToPtrOperand ops MachO ctx SAP inst dstIndex self cur with
        | none => rfl
        | some a => exact ih rest a hrest

/-- Counterexample to C21: `add i64 16, %92` and `add i128 %89, 16` are adds of a value
and a constant integer, so the claim counts them among the entries whose source can be
identified; the matchers of the code take neither (the constant is the first operand, the
constant has more than 64 bits), and for both `COPY(dstIndex, UniversalPtr)` is the
constraint emitted, also by `collectConstraintsForInstruction` on the inttoptr
instructions. -/
theorem add_with_constant_is_poisoned :
    sourceCannotBeIdentified
      (.mk 86 (.Instruction .Add) false
        [.mk 96 (.ConstantInt 16 64) false [], .mk 92 .Argument false []]) = false ∧
    collectConstraintsForIntToPtrOperand spacedOps exampleMachO exampleContext exampleSAP 85
        440 (createValueNode spacedOps emptyAnalysis 85).2
        (.mk 86 (.Instruction .Add) false
          [.mk 96 (.ConstantInt 16 64) false [], .mk 92 .Argument false []]) =
      some (addConstraint (createValueNode spacedOps emptyAnalysis 85).2 .COPY 440
        (createValueNode spacedOps emptyAnalysis 85).2.nodeFactory.getUniversalPtrNode) ∧
    (∃ a, collectConstraintsForInstruction spacedOps exampleMachO exampleContext exampleSAP
        (fun a _ => some a) (createValueNode spacedOps emptyAnalysis 85).2
        intToPtrOfConstantFirst = some a ∧
      a.constraints = [⟨.COPY, 440, 0⟩] ∧ a.nodeFactory.getUniversalPtrNode = 0) ∧
    sourceCannotBeIdentified
      (.mk 88 (.Instruction .Add) false
        [.mk 89 .Argument false [], .mk 99 (.ConstantInt 16 128) false []]) = false ∧
    (∃ a, collectConstraintsForInstruction spacedOps exampleMachO exampleContext exampleSAP
        (fun a _ => some a) (createValueNode spacedOps emptyAnalysis 87).2
        intToPtrOfWideSum = some a ∧
      a.constraints = [⟨.COPY, 448, 0⟩] ∧ a.nodeFactory.getUniversalPtrNode = 0) :=
  ⟨rfl, rfl, ⟨_, rfl, rfl, rfl⟩, rfl, ⟨_, rfl, rfl, rfl⟩⟩

/-- C21, amended: for an entry `op` of the operand list of the IntToPtr case,
`COPY(dstIndex, UniversalPtr)` is emitted exactly when `op` is a binary operator that is
not an add whose second operand is a constant integer of at most 64 bits, plain or
sign-extended, and whose first operand is not a binary operator; then this `COPY` is the
one constraint appended.  For every other entry that is not a select instruction each
constraint appended is an `ADDR_OF`, or a `COPY` whose source is the value node of `op` or
of its first operand; so, when the value node that `op` and its first operand have or are
given is not the universal pointer node, no `COPY` from the universal pointer is appended.
A select instruction is replaced in the list by its operands 1 and 2 and appends nothing.
Node creation is assumed to behave as the spec says, the inttoptr to have a value node,
`dstIndex`, and a binary operator to have its operands. -/
theorem collectConstraintsForIntToPtrOperand_poisoned_iff (ops : NodeFactoryOps)
    (invalid : NodeIndex) (hops : ops.CreatesValueNodes invalid)
    (hobj : ops.CreatesObjectNodes invalid) (MachO : ObjectiveCBinary) (ctx : LLVMContext)
    (SAP : StackAccessPass) (inst : Value) (dstIndex : NodeIndex) (self : Andersen)
    (hself : self.nodeFactory.InvalidIndex = invalid) (_hdst : dstIndex ≠ invalid)
    (op : LLValue) :
    (sourceIsNotMatched op = true → op.operands ≠ [] →
      collectConstraintsForIntToPtrOperand ops MachO ctx SAP inst dstIndex self op =
        some (addConstraint self .COPY dstIndex self.nodeFactory.getUniversalPtrNode)) ∧
    (sourceIsNotMatched op = false → op.kind ≠ .Instruction .Select →
      (valueNodeOrCreate ops self op.id).1 ≠ self.nodeFactory.getUniversalPtrNode →
      (∀ first, op.operands.head? = some first →
        (valueNodeOrCreate ops self first.id).1 ≠ self.nodeFactory.getUniversalPtrNode) →
      ∀ a, collectConstraintsForIntToPtrOperand ops MachO ctx SAP inst dstIndex self op =
          some a →
        ∃ more, a.constraints = self.constraints ++ more ∧
          ∀ c ∈ more,
            (c.type = .ADDR_OF ∨
              (c.type = .COPY ∧
                (c.src = a.nodeFactory.getValueNodeFor op.id ∨
                  ∃ first, op.operands.head? = some first ∧
                    c.src = a.nodeFactory.getValueNodeFor first.id))) ∧
            ¬ (c.type = .COPY ∧ c.src = self.nodeFactory.getUniversalPtrNode)) ∧
    (op.kind = .Instruction .Select →
      ∀ (fuel : Nat) (rest : List LLValue) (c t f : LLValue) (others : List LLValue),
        op.operands = c :: t :: f :: others →
        collectConstraintsForIntToPtrWorklist ops MachO ctx SAP inst dstIndex (fuel + 1)
            (op :: rest) self =
          collectConstraintsForIntToPtrWorklist ops MachO ctx SAP inst dstIndex fuel
            (rest ++ [t, f]) self) := by
  refine ⟨?_, ?_, ?_⟩
  · intro hp hne
    unfold sourceIsNotMatched at hp
    simp only [Bool.and_eq_true, Bool.not_eq_true', Bool.or_eq_false_iff] at hp
    obtain ⟨⟨hbin, hadd, hsext⟩, hfirst⟩ := hp
    unfold collectConstraintsForIntToPtrOperand
    rw [(isBinaryOperator_not_constantInt op hbin).1]
    have hval : intToPtrSourceIsValue op = false := by
      unfold intToPtrSourceIsValue
      rw [hadd, hsext, hbin]
      rfl
    simp only [hval, Bool.false_eq_true, if_false]
    cases hl : op.operands with
    | nil => exact absurd hl hne
    | cons Base l =>
      rw [hl] at hfirst
      simp only [List.head?_cons] at hfirst
      simp only [hfirst, Bool.false_eq_true, and_false, if_false]
  · intro hp hsel hnu hnufirst a ha
    unfold collectConstraintsForIntToPtrOperand at ha
    by_cases hci : op.isConstantInt = true
    · rw [if_pos hci] at ha
      simp only [Option.some.injEq] at ha
      rw [← ha]
      obtain ⟨more, e, hmore⟩ := addConstraintsForConstIntToPtr_appends ops MachO ctx self inst
        op.id op.zext
      refine ⟨more, e, fun c hc => ⟨Or.inl (hmore c hc), ?_⟩⟩
      intro hcopy
      rw [hmore c hc] at hcopy
      exact absurd hcopy.1 (by decide)
    · rw [if_neg hci] at ha
      by_cases hval : intToPtrSourceIsValue op = true
      · rw [if_pos hval] at ha
        obtain ⟨-, hnode, -, copies, tail, hcs, hcopies, hin, hnin⟩ :=
          collectConstraintsForIntToPtrValue_spec ops invalid hops hobj SAP dstIndex self hself
            op a ha
        refine ⟨copies ++ tail ++ [⟨.COPY, dstIndex, (valueNodeOrCreate ops self op.id).1⟩],
          by rw [hcs]; simp only [List.append_assoc], ?_⟩
        intro c hc
        rw [hnode]
        simp only [List.mem_append, List.mem_singleton] at hc
        rcases hc with (hc | hc) | hc
        · refine ⟨Or.inr ⟨(hcopies c hc).1, Or.inl (hcopies c hc).2⟩, ?_⟩
          intro hcopy
          exact hnu ((hcopies c hc).2.symm.trans hcopy.2)
        · by_cases hmem : op.id ∈ self.handledAliases
          · rw [hin hmem] at hc; simp at hc
          · obtain ⟨objNode, -, htail⟩ := hnin hmem
            rw [htail, List.mem_singleton] at hc
            rw [hc]
            exact ⟨Or.inl rfl, fun hcopy => absurd hcopy.1 (by simp)⟩
        · rw [hc]
          exact ⟨Or.inr ⟨rfl, Or.inl rfl⟩, fun hcopy => hnu hcopy.2⟩
      · rw [if_neg hval] at ha
        cases hl : op.operands with
        | nil => rw [hl] at ha; simp at ha
        | cons Base l =>
          rw [hl] at ha
          simp only [] at ha
          have hnuBase : (valueNodeOrCreate ops self Base.id).1 ≠
              self.nodeFactory.getUniversalPtrNode := hnufirst Base (by rw [hl]; rfl)
          by_cases hbb : op.isBinaryOperator = true ∧ Base.isBinaryOperator = true
          · rw [if_pos hbb] at ha
            obtain ⟨hnode, objNode, copies, hcs, hcopies⟩ :=
              collectConstraintsForIntToPtrBase_spec ops invalid hops hobj SAP dstIndex self
                hself Base a ha
            refine ⟨[⟨.ADDR_OF, (valueNodeOrCreate ops self Base.id).1, objNode⟩,
              ⟨.COPY, dstIndex, (valueNodeOrCreate ops self Base.id).1⟩] ++ copies,
              by rw [hcs]; simp only [List.append_assoc], ?_⟩
            intro c hc
            simp only [List.mem_append, List.mem_cons, List.mem_singleton,
              List.not_mem_nil, or_false] at hc
            rcases hc with (hc | hc) | hc
            · rw [hc]; exact ⟨Or.inl rfl, fun hcopy => absurd hcopy.1 (by simp)⟩
            · rw [hc]
              exact ⟨Or.inr ⟨rfl, Or.inr ⟨Base, rfl, hnode.symm⟩⟩,
                fun hcopy => hnuBase hcopy.2⟩
            · exact ⟨Or.inr ⟨(hcopies c hc).1,
                Or.inr ⟨Base, rfl, (hcopies c hc).2.trans hnode.symm⟩⟩,
                fun hcopy => hnuBase ((hcopies c hc).2.symm.trans hcopy.2)⟩
          · exfalso
            have hval' : intToPtrSourceIsValue op = false := by
              cases hb : intToPtrSourceIsValue op with
              | false => rfl
              | true => exact absurd hb hval
            unfold intToPtrSourceIsValue at hval'
            simp only [Bool.or_eq_false_iff, Bool.not_eq_false'] at hval'
            obtain ⟨⟨hadd, hsext⟩, hbin⟩ := hval'
            unfold sourceIsNotMatched at hp
            rw [hl] at hp
            simp only [hbin, hadd, hsext, List.head?_cons, Bool.or_false, Bool.not_false,
              Bool.and_true, Bool.true_and, Bool.not_eq_false'] at hp
            exact hbb ⟨hbin, hp⟩
  · intro hsel fuel rest c t f others hl
    rw [collectConstraintsForIntToPtrWorklist]
    simp only [hsel, if_true, hl]

theorem collectConstraintsForIntToPtrOperand_poisoned_iff_witness :
    (collectConstraintsForIntToPtrOperand spacedOps exampleMachO exampleContext exampleSAP 90
        460 (createValueNode spacedOps emptyAnalysis 90).2
        (.mk 91 (.Instruction .OtherBinary) false
          [.mk 92 .Argument false [], .mk 93 .Argument false []]) =
      some (addConstraint (createValueNode spacedOps emptyAnalysis 90).2 .COPY 460 0) ∧
      ∃ a, collectConstraintsForInstruction spacedOps exampleMachO exampleContext exampleSAP
          (fun a _ => some a) (createValueNode spacedOps emptyAnalysis 90).2
          intToPtrOfProduct = some a ∧
        a.constraints = [⟨.COPY, 460, 0⟩]) ∧
    (∃ a, collectConstraintsForInstruction spacedOps exampleMachO exampleContext exampleSAP
        (fun a _ => some a) (createValueNode spacedOps emptyAnalysis 94).2
        intToPtrOfSum = some a ∧
      a.constraints = [⟨.ADDR_OF, 480, 482⟩, ⟨.COPY, 476, 480⟩] ∧
      ∃ more, a.constraints = (createValueNode spacedOps emptyAnalysis 94).2.constraints ++
          more ∧
        ∀ c ∈ more,
          (c.type = .ADDR_OF ∨
            (c.type = .COPY ∧
              (c.src = a.nodeFactory.getValueNodeFor 95 ∨
                ∃ first, [LLValue.mk 92 .Argument false [],
                    LLValue.mk 96 (.ConstantInt 16 64) false []].head? = some first ∧
                  c.src = a.nodeFactory.getValueNodeFor first.id))) ∧
          ¬ (c.type = .COPY ∧ c.src = 0)) ∧
    collectConstraintsForIntToPtrWorklist spacedOps exampleMachO exampleContext exampleSAP 90
        460 4
        [.mk 97 (.Instruction .Select) false
          [.mk 98 .Argument false [], .mk 92 .Argument false [], .mk 93 .Argument false []]]
        (createValueNode spacedOps emptyAnalysis 90).2 =
      collectConstraintsForIntToPtrWorklist spacedOps exampleMachO exampleContext exampleSAP 90
        460 3 ([] ++ [.mk 92 .Argument false [], .mk 93 .Argument false []])
        (createValueNode spacedOps emptyAnalysis 90).2 :=
  ⟨⟨(collectConstraintsForIntToPtrOperand_poisoned_iff spacedOps 4294967295
        spacedOps_createsValueNodes spacedOps_createsObjectNodes exampleMachO exampleContext
        exampleSAP 90 460 (createValueNode spacedOps emptyAnalysis 90).2 rfl (by decide)
        (.mk 91 (.Instruction .OtherBinary) false
          [.mk 92 .Argument false [], .mk 93 .Argument false []])).1 rfl
        (List.cons_ne_nil _ _),
      _, rfl, rfl⟩,
    ⟨_, rfl, rfl,
    (collectConstraintsForIntToPtrOperand_poisoned_iff spacedOps 4294967295
      spacedOps_createsValueNodes spacedOps_createsObjectNodes exampleMachO exampleContext
      exampleSAP 94 476 (createValueNode spacedOps emptyAnalysis 94).2 rfl (by decide)
      (.mk 95 (.Instruction .Add) false
        [.mk 92 .Argument false [], .mk 96 (.ConstantInt 16 64) false []])).2.1 rfl
      (by decide) (by decide)
      (by
        intro first hfirst
        simp only [LLValue.operands, List.head?_cons, Option.some.injEq] at hfirst
        rw [← hfirst]
        decide) _ rfl⟩,
    (collectConstraintsForIntToPtrOperand_poisoned_iff spacedOps 4294967295
      spacedOps_createsValueNodes spacedOps_createsObjectNodes exampleMachO exampleContext
      exampleSAP 90 460 (createValueNode spacedOps emptyAnalysis 90).2 rfl (by decide)
      (.mk 97 (.Instruction .Select) false
        [.mk 98 .Argument false [], .mk 92 .Argument false [],
          .mk 93 .Argument false []])).2.2 rfl 3 [] _ _ _ _ rfl⟩


end AndersenInit
